import Mathlib

/-!
# crypto3-zk: Fiat-Shamir transcripts and the Redshift prover

A shallow embedding of

* `include/nil/crypto3/zk/transcript/fiat_shamir.hpp`
  (`fiat_shamir_heuristic_accumulative`, `fiat_shamir_heuristic_sequential`, byte-oriented
  and Poseidon variants),
* `include/nil/crypto3/zk/snark/systems/plonk/redshift/prover.hpp`
  (`redshift_prover::process`),
* `include/nil/crypto3/zk/snark/gadgets/hashes/sha256/sha256_components.hpp`
  (`SHA256_default_IV`, `sha256_message_schedule_gadget`, `sha256_round_function_gadget`),

followed by the properties proved about them.  Libraries the sources only
include (hashes, marshalling, fields, polynomials, the list polynomial
commitment, the prover's transcript class, the gadget library) appear as parameters.
-/

set_option autoImplicit false

/-! ## Part I. Definitions -/

/-! ### The byte-oriented sequential transcript (fiat_shamir.hpp, lines 131-199) -/

namespace fiat_shamir_heuristic_sequential

/-- The hash collaborator `Hash` of the byte-oriented transcript, over bytes of type `B`.
`hash` maps the bytes fed to an accumulator to the digest (itself a byte array),
`pack` is `nil::marshalling::pack` of a digest into a `cpp_int`, and `zero_input` is the
byte sequence the library feeds for the initializer list `{0}` of the default constructor. -/
structure hash_type (B : Type) where
  hash : List B → List B
  pack : List B → Nat
  zero_input : List B

/-- Modelled from the spec: the streaming accumulator `accumulator_set<Hash>` of the hash
library is not among the sources; an accumulator is the sequence of bytes fed to it so far
(the spec's "hashing `(state, new_input)`"). -/
abbrev accumulator_set (B : Type) := List B

/-- Modelled from the spec: `hash<hash_type>(r)` seen as an accumulator, which has been fed `r`. -/
def hash_of {B : Type} (r : List B) : accumulator_set B := r

/-- Modelled from the spec: `hash<hash_type>(r, acc)` feeds `r` to the accumulator `acc`. -/
def hash_into {B : Type} (r : List B) (acc : accumulator_set B) : accumulator_set B := acc ++ r

/-- Modelled from the spec: `accumulators::extract::hash<hash_type>(acc)` is the digest of all
the bytes fed to `acc`. -/
def extract_hash {B : Type} (h : hash_type B) (acc : accumulator_set B) : List B := h.hash acc

/-- Modelled from the spec: the conversion of a `cpp_int` to `Field::value_type` is not among
the sources; the spec has the "value taken modulo the field's characteristic".  A field is
given by its characteristic `p` and a value by its canonical representative. -/
def field_value (p : Nat) (raw_result : Nat) : Nat := raw_result % p

/-- Modelled from the spec: packing into an unsigned `Integral` of `w` bits keeps the low `w`
bits of the packed integer (the spec only has "derives an integer"). -/
def integral_value (w : Nat) (raw_result : Nat) : Nat := raw_result % 2 ^ w

/-- The transcript object: its only member is `state`, a digest. -/
structure transcript (B : Type) where
  state : List B
deriving DecidableEq, Repr

/-- Default constructor (line 136): `state(hash<hash_type>({0}))`. -/
def init_default {B : Type} (h : hash_type B) : transcript B :=
  { state := extract_hash h (hash_of h.zero_input) }

/-- Range constructor (line 140): `state(hash<hash_type>(r))`. -/
def init_range {B : Type} (h : hash_type B) (r : List B) : transcript B :=
  { state := extract_hash h (hash_of r) }

/-- Iterator-pair constructor (line 144): `state(hash<hash_type>(first, last))`; `r` is the
sequence between `first` and `last`. -/
def init_iterators {B : Type} (h : hash_type B) (r : List B) : transcript B :=
  { state := extract_hash h (hash_of r) }

/-- The method `operator()(const InputRange &r)` (lines 148-153). -/
def absorb_range {B : Type} (h : hash_type B) (t : transcript B) (r : List B) : transcript B :=
  let acc_convertible := hash_of t.state
  { state := extract_hash h (hash_into r acc_convertible) }

/-- The method `operator()(InputIterator first, InputIterator last)` (lines 155-160). -/
def absorb_iterators {B : Type} (h : hash_type B) (t : transcript B) (r : List B) :
    transcript B :=
  let acc_convertible := hash_of t.state
  { state := extract_hash h (hash_into r acc_convertible) }

/-- The method `challenge<Field>()` (lines 162-172), `Field` of characteristic `p`: returns the
challenge and the transcript after the call. -/
def challenge {B : Type} (h : hash_type B) (p : Nat) (t : transcript B) :
    Nat × transcript B :=
  let state := extract_hash h (hash_of t.state)
  let raw_result := h.pack state
  (field_value p raw_result, { state := state })

/-- The method `int_challenge<Integral>()` (lines 174-182), `Integral` of `w` bits. -/
def int_challenge {B : Type} (h : hash_type B) (w : Nat) (t : transcript B) :
    Nat × transcript B :=
  let state := extract_hash h (hash_of t.state)
  let raw_result := integral_value w (h.pack state)
  (raw_result, { state := state })

/-- The method `challenges<Field, N>()` (lines 184-195): the loop `for (auto &ch : result)`
fills the `N` entries in increasing order. -/
def challenges {B : Type} (h : hash_type B) (p : Nat) :
    Nat → transcript B → List Nat × transcript B
  | 0, t => ([], t)
  | N + 1, t =>
    let ch := challenge h p t
    let rest := challenges h p N ch.2
    (ch.1 :: rest.1, rest.2)

/-- The three constructors and their arguments. -/
inductive constructor_call (B : Type) where
  | default : constructor_call B
  | range (r : List B) : constructor_call B
  | iterators (r : List B) : constructor_call B
deriving DecidableEq, Repr

/-- A freshly constructed transcript. -/
def construct {B : Type} (h : hash_type B) : constructor_call B → transcript B
  | .default => init_default h
  | .range r => init_range h r
  | .iterators r => init_iterators h r

/-- One call of a public method, with its arguments. -/
inductive call (B : Type) where
  | absorb_range (r : List B) : call B
  | absorb_iterators (r : List B) : call B
  | challenge (p : Nat) : call B
  | int_challenge (w : Nat) : call B
  | challenges (p N : Nat) : call B
deriving DecidableEq, Repr

/-- What a call returns. -/
inductive reply where
  | void : reply
  | field_element (v : Nat) : reply
  | integral (v : Nat) : reply
  | field_elements (vs : List Nat) : reply
deriving DecidableEq, Repr

/-- What a call feeds to the transcript: the absorbed input or the requested derivation,
whichever overload carries it. -/
def call.fed {B : Type} : call B → call B
  | .absorb_iterators r => .absorb_range r
  | c => c

/-- Executing one call. -/
def step {B : Type} (h : hash_type B) (t : transcript B) : call B → reply × transcript B
  | .absorb_range r => (.void, absorb_range h t r)
  | .absorb_iterators r => (.void, absorb_iterators h t r)
  | .challenge p => ((challenge h p t).map .field_element id)
  | .int_challenge w => ((int_challenge h w t).map .integral id)
  | .challenges p N => ((challenges h p N t).map .field_elements id)

/-- Executing a finite sequence of calls: the replies in order, and the final transcript. -/
def run {B : Type} (h : hash_type B) : transcript B → List (call B) → List reply × transcript B
  | t, [] => ([], t)
  | t, c :: cs =>
    let r := step h t c
    let rest := run h r.2 cs
    (r.1 :: rest.1, rest.2)

end fiat_shamir_heuristic_sequential

/-! ### The Poseidon sequential transcript (fiat_shamir.hpp, lines 202-281) -/

namespace fiat_shamir_heuristic_sequential_poseidon

/-- The Poseidon collaborator over the field `F` of digests: `hash` is `hash<hash_type>` of a
sequence of field elements, `permute` is `permutation_type::permute` on the 3-element state,
and `data` is the integer held in a field element (`state.data`). -/
structure hash_type (F : Type) where
  hash : List F → F
  permute : F × F × F → F × F × F
  data : F → Nat

/-- The transcript object: its only data member is `state`, a field-element digest. -/
structure transcript (F : Type) where
  state : F
deriving DecidableEq, Repr

/-- The failure of `BOOST_ASSERT_MSG(false, "Not supported")`. -/
inductive failure where
  | not_supported : failure
deriving DecidableEq, Repr

/-- The private method `pair_hash` (lines 265-280): the state `{0, a1, a2}` is permuted and
the element of index 2 returned. -/
def pair_hash {F : Type} [Zero F] (h : hash_type F) (a1 a2 : F) : F :=
  let a : F × F × F := (0, a1, a2)
  let poseidon_state := h.permute a
  let result := poseidon_state
  result.2.2

/-- Default constructor (line 209): `state(hash<hash_type>(Hash::digest_type::zero()))`. -/
def init_default {F : Type} [Zero F] (h : hash_type F) : transcript F :=
  { state := h.hash [0] }

/-- Range constructor (line 213). -/
def init_range {F : Type} (h : hash_type F) (r : List F) : transcript F :=
  { state := h.hash r }

/-- Iterator-pair constructor (line 217). -/
def init_iterators {F : Type} (h : hash_type F) (r : List F) : transcript F :=
  { state := h.hash r }

/-- The method `operator()(const digest_type input)` (lines 221-224). -/
def absorb {F : Type} [Zero F] (h : hash_type F) (t : transcript F) (input : F) :
    transcript F :=
  let tmp := pair_hash h t.state t.state
  { state := pair_hash h input tmp }

/-- The method `operator()(const InputRange &r)` (lines 226-229): the assertion fails. -/
def absorb_range {F B : Type} (_t : transcript F) (_r : List B) :
    Except failure (transcript F) :=
  .error .not_supported

/-- The method `operator()(InputIterator first, InputIterator last)` (lines 231-234). -/
def absorb_iterators {F B : Type} (_t : transcript F) (_r : List B) :
    Except failure (transcript F) :=
  .error .not_supported

/-- The method `challenge<Field>()` (lines 236-240). -/
def challenge {F : Type} [Zero F] (h : hash_type F) (t : transcript F) : F × transcript F :=
  let state := pair_hash h t.state t.state
  (state, { state := state })

/-- The method `int_challenge<Integral>()` (lines 242-250), `Integral` of `w` bits. -/
def int_challenge {F : Type} [Zero F] (h : hash_type F) (w : Nat) (t : transcript F) :
    Nat × transcript F :=
  let state := pair_hash h t.state t.state
  let raw_result := fiat_shamir_heuristic_sequential.integral_value w (h.data state)
  (raw_result, { state := state })

/-- The method `challenges<Field, N>()` (lines 252-261). -/
def challenges {F : Type} [Zero F] (h : hash_type F) :
    Nat → transcript F → List F × transcript F
  | 0, t => ([], t)
  | N + 1, t =>
    let ch := challenge h t
    let rest := challenges h N ch.2
    (ch.1 :: rest.1, rest.2)

/-- The three constructors and their arguments. -/
inductive constructor_call (F : Type) where
  | default : constructor_call F
  | range (r : List F) : constructor_call F
  | iterators (r : List F) : constructor_call F
deriving DecidableEq, Repr

/-- A freshly constructed transcript. -/
def construct {F : Type} [Zero F] (h : hash_type F) : constructor_call F → transcript F
  | .default => init_default h
  | .range r => init_range h r
  | .iterators r => init_iterators h r

/-- One call of a public method, with its arguments (`B` is the type of raw bytes). -/
inductive call (F B : Type) where
  | absorb (input : F) : call F B
  | absorb_range (r : List B) : call F B
  | absorb_iterators (r : List B) : call F B
  | challenge : call F B
  | int_challenge (w : Nat) : call F B
  | challenges (N : Nat) : call F B
deriving DecidableEq, Repr

/-- What a call returns. -/
inductive reply (F : Type) where
  | void : reply F
  | field_element (v : F) : reply F
  | integral (v : Nat) : reply F
  | field_elements (vs : List F) : reply F
deriving DecidableEq, Repr

/-- What a call feeds to the transcript, whichever overload carries it. -/
def call.fed {F B : Type} : call F B → call F B
  | .absorb_iterators r => .absorb_range r
  | c => c

/-- Executing one call. -/
def step {F B : Type} [Zero F] (h : hash_type F) (t : transcript F) :
    call F B → Except failure (reply F × transcript F)
  | .absorb input => .ok (.void, absorb h t input)
  | .absorb_range r => (absorb_range t r).map (fun t1 => (.void, t1))
  | .absorb_iterators r => (absorb_iterators t r).map (fun t1 => (.void, t1))
  | .challenge => .ok ((challenge h t).map .field_element id)
  | .int_challenge w => .ok ((int_challenge h w t).map .integral id)
  | .challenges N => .ok ((challenges h N t).map .field_elements id)

/-- Executing a finite sequence of calls; the first failing assertion ends the run. -/
def run {F B : Type} [Zero F] (h : hash_type F) :
    transcript F → List (call F B) → Except failure (List (reply F) × transcript F)
  | t, [] => .ok ([], t)
  | t, c :: cs =>
    match step h t c with
    | .error e => .error e
    | .ok r =>
      match run h r.2 cs with
      | .error e => .error e
      | .ok rest => .ok (r.1 :: rest.1, rest.2)

end fiat_shamir_heuristic_sequential_poseidon

/-! ### The Redshift prover (prover.hpp) -/

namespace redshift_prover

/-- The challenge identifiers of `transcript_manifest::challenges_ids` that `process` names. -/
inductive challenges_ids where
  | beta | gamma | teta | alpha | tau | upsilon
deriving DecidableEq, Repr

/-- The operations of `math::polynomial::polynomial<value_type>` that `process` uses, over
values `F` and polynomials `Poly`.  `empty` is the default-constructed polynomial and
`of_list` the polynomial built from an initializer list of coefficients. -/
structure polynomial_ops (F Poly : Type) where
  empty : Poly
  of_list : List F → Poly
  add : Poly → Poly → Poly
  add_scalar : Poly → F → Poly
  scalar_sub : F → Poly → Poly
  scalar_mul : F → Poly → Poly
  mul_scalar : Poly → F → Poly
  mul : Poly → Poly → Poly
  div : Poly → Poly → Poly
  rem : Poly → Poly → Poly
  evaluate : Poly → F → F
  size : Poly → Nat

/-- The preprocessed data, with the members that `process` reads. -/
structure preprocessed_data_type (F Poly : Type) where
  omega : F
  permutations : List Poly
  identity_permutations : List Poly
  selectors : List Poly
  constraints : List Poly
  Z : Poly

/-- The commitment collaborator `lpc` (`list_polynomial_commitment_scheme`) with the Merkle
tree it returns: `commit`, the tree's `root()`, `proof_eval`, and the default-constructed
`proof_type` and `commitment_type`. -/
structure list_polynomial_commitment_scheme (F Poly Tree D LProof : Type) where
  commit : Poly → List F → Tree
  root : Tree → D
  proof_eval : List F → Tree → Poly → List F → LProof
  default_proof : LProof
  default_commitment : D

/-- The transcript class `fiat_shamir_heuristic<transcript_manifest, transcript_hash_type>`
that `process` instantiates, as the operations called on it: default construction,
`operator()`, `get_challenge<id, FieldType>` and `get_challenges<id, N, FieldType>`. -/
structure fiat_shamir_heuristic (TS D F : Type) where
  init : TS
  absorb : TS → D → TS
  get_challenge : TS → challenges_ids → F × TS
  get_challenges : TS → challenges_ids → (N : Nat) → (Fin N → F) × TS

/-- The polynomials whose commitment `process` computes, by the name of the variable. -/
inductive committed where
  | w (i : Nat) | V_P | A1 | S1 | P | Q | V | T (i : Nat)
deriving DecidableEq, Repr

/-- One call on the transcript object.  An absorption carries the name of the polynomial whose
commitment is passed, and the digest passed. -/
inductive event (D : Type) where
  | absorb (c : committed) (d : D) : event D
  | get_challenge (id : challenges_ids) : event D
  | get_challenges (id : challenges_ids) (N : Nat) : event D
deriving DecidableEq, Repr

/-- The local variable `transcript`, together with the record of the calls made on it so far,
in execution order (the record is ghost state). -/
structure transcript (TS D : Type) where
  st : TS
  log : List (event D)

/-- The call `transcript(c_commitment)`. -/
def transcript.absorb {TS D F : Type} (FS : fiat_shamir_heuristic TS D F) (t : transcript TS D)
    (c : committed) (d : D) : transcript TS D :=
  { st := FS.absorb t.st d, log := t.log ++ [.absorb c d] }

/-- The call `transcript.template get_challenge<id, FieldType>()`. -/
def transcript.get_challenge {TS D F : Type} (FS : fiat_shamir_heuristic TS D F)
    (t : transcript TS D) (id : challenges_ids) : F × transcript TS D :=
  let r := FS.get_challenge t.st id
  (r.1, { st := r.2, log := t.log ++ [.get_challenge id] })

/-- The call `transcript.template get_challenges<id, N, FieldType>()`. -/
def transcript.get_challenges {TS D F : Type} (FS : fiat_shamir_heuristic TS D F)
    (t : transcript TS D) (id : challenges_ids) (N : Nat) : (Fin N → F) × transcript TS D :=
  let r := FS.get_challenges t.st id N
  (r.1, { st := r.2, log := t.log ++ [.get_challenges id N] })

/-- The vectors that `process` indexes with `operator[]`. -/
inductive vector_name where
  | w | w_trees | w_commitments | f | S_id | S_sigma | D_0 | p | q | constraints | gates
  | T | T_trees
deriving DecidableEq, Repr

/-- Undefined behaviour that a run of `process` can reach: an `operator[]` past the end of a
vector, or `std::copy` past the end of its destination. -/
inductive undefined_behaviour where
  | out_of_range (v : vector_name) (i : Nat) : undefined_behaviour
  | copy_past_end : undefined_behaviour
deriving DecidableEq, Repr

/-- The read `v[i]` of a `std::vector`. -/
def at_index {α : Type} (v : vector_name) (xs : List α) (i : Nat) :
    Except undefined_behaviour α :=
  match xs[i]? with
  | some x => .ok x
  | none => .error (.out_of_range v i)

/-- The loop `for (std::size_t i = lo; i < hi; i++) body`, where the body may reach undefined
behaviour. -/
def for_loop {σ : Type} (lo hi : Nat) (body : Nat → σ → Except undefined_behaviour σ)
    (s : σ) : Except undefined_behaviour σ :=
  (List.range' lo (hi - lo)).foldlM (fun s i => body i s) s

/-- The loop `for (std::size_t i = lo; i < hi; i++) body` with a body that cannot fail. -/
def pure_loop {σ : Type} (lo hi : Nat) (body : Nat → σ → σ) (s : σ) : σ :=
  (List.range' lo (hi - lo)).foldl (fun s i => body i s) s

/-- The compound assignment `v[i] op= ...` at an index within the vector. -/
def modify_at {α : Type} (xs : List α) (i : Nat) (f : α → α) : List α :=
  match xs[i]? with
  | some x => xs.set i (f x)
  | none => xs

/-- The `std::size_t` value of `size - 1`. -/
def size_minus_one (size : Nat) : Nat := (size + 2 ^ 64 - 1) % 2 ^ 64

/-- The type `proof_type<lpc>`, with the members of the constructor call left in comment at
lines 327-330. -/
structure proof_type (D LProof : Type) where
  f_commitments : List D
  P_commitment : D
  Q_commitment : D
  T_commitments : List D
  f_lpc_proofs : List LProof
  P_lpc_proof : LProof
  Q_lpc_proof : LProof
  T_lpc_proofs : List LProof
deriving DecidableEq, Repr

/-- The state of the loop of lines 102-106. -/
structure wire_loop_state (Tree D TS : Type) where
  w_trees : List Tree
  w_commitments : List D
  transcript : transcript TS D

/-- The body of the loop of lines 102-106. -/
def wire_loop_body {F Poly Tree D LProof TS : Type}
    (L : list_polynomial_commitment_scheme F Poly Tree D LProof)
    (FS : fiat_shamir_heuristic TS D F) (w : List Poly) (D_0 : List F) (i : Nat)
    (s : wire_loop_state Tree D TS) : Except undefined_behaviour (wire_loop_state Tree D TS) := do
  let w_i ← at_index .w w i
  let w_trees := s.w_trees ++ [L.commit w_i D_0]
  let w_trees_i ← at_index .w_trees w_trees i
  let w_commitments := s.w_commitments ++ [L.root w_trees_i]
  let w_commitments_i ← at_index .w_commitments w_commitments i
  pure { w_trees := w_trees, w_commitments := w_commitments,
         transcript := s.transcript.absorb FS (.w i) w_commitments_i }

/-- The body of the inner loop of lines 135-139, for the row `j`. -/
def gh_inner_body {F Poly : Type} [Field F] (P : polynomial_ops F Poly)
    (f S_id S_sigma : List Poly) (D_0 : List F) (beta gamma : F) (j : Nat) (_i : Nat)
    (gh : List F × List F) : Except undefined_behaviour (List F × List F) := do
  let f_j ← at_index .f f j
  let x ← at_index .D_0 D_0 j
  let S_id_j ← at_index .S_id S_id j
  let S_sigma_j ← at_index .S_sigma S_sigma j
  let g := modify_at gh.1 j (fun v => v * (P.evaluate f_j x + beta * P.evaluate S_id_j x + gamma))
  let h := modify_at gh.2 j
    (fun v => v * (P.evaluate f_j x + beta * P.evaluate S_sigma_j x + gamma))
  pure (g, h)

/-- The body of the loop of lines 132-140. -/
def gh_body {F Poly : Type} [Field F] (P : polynomial_ops F Poly)
    (f S_id S_sigma : List Poly) (D_0 : List F) (beta gamma : F) (N_perm N_PI : Nat) (j : Nat)
    (gh : List F × List F) : Except undefined_behaviour (List F × List F) :=
  let g := gh.1.set j 1
  let h := gh.2.set j 1
  for_loop 0 (N_perm + N_PI) (gh_inner_body P f S_id S_sigma D_0 beta gamma j) (g, h)

/-- The state of the loop of lines 181-189. -/
structure pq_loop_state (Poly : Type) where
  p : List Poly
  q : List Poly
  p1 : Poly
  q1 : Poly

/-- The body of the loop of lines 181-189. -/
def pq_body {F Poly : Type} (P : polynomial_ops F Poly) (f S_id S_sigma : List Poly)
    (beta gamma : F) (j : Nat) (s : pq_loop_state Poly) :
    Except undefined_behaviour (pq_loop_state Poly) := do
  let S_id_j ← at_index .S_id S_id j
  let _tmp := P.scalar_sub beta S_id_j
  let f_j ← at_index .f f j
  let p := s.p ++ [P.add_scalar (P.add f_j (P.scalar_mul beta S_id_j)) gamma]
  let S_sigma_j ← at_index .S_sigma S_sigma j
  let q := s.q ++ [P.add_scalar (P.add f_j (P.scalar_mul beta S_sigma_j)) gamma]
  let p_j ← at_index .p p j
  let q_j ← at_index .q q j
  pure { p := p, q := q, p1 := P.mul s.p1 p_j, q1 := P.mul s.q1 q_j }

/-- The body of the loop of lines 200-215: the state is the pair of point vectors. -/
def interpolation_body {F Poly : Type} [Field F] (P : polynomial_ops F Poly) (omega : F)
    (p1 q1 : Poly) (i : Nat) (s : List (F × F) × List (F × F)) :
    List (F × F) × List (F × F) :=
  let mul_result : F × F := pure_loop 1 i
    (fun _j m => (m.1 * P.evaluate p1 (omega ^ i), m.2 * P.evaluate q1 (omega ^ i))) (1, 1)
  (s.1 ++ [(omega ^ i, mul_result.1)], s.2 ++ [(omega ^ i, mul_result.2)])

/-- The body of the loop of lines 253-264: the state is `gates` and `N_T`.  The locals `n_i`
and `d_i_j` are read uninitialised; the values they hold are the parameters `n_i`, `d_i_j`. -/
def gates_body {F Poly : Type} [Field F] (P : polynomial_ops F Poly) (constraints : List Poly)
    (tau : F) (n_i : Nat → Nat) (d_i_j : Nat → Nat → Nat) (i : Nat) (s : List Poly × Nat) :
    Except undefined_behaviour (List Poly × Nat) := do
  let gates_i ← for_loop 0 (n_i i)
    (fun j g => do
      let c ← at_index .constraints constraints j
      pure (P.add g (P.mul_scalar c (tau ^ d_i_j i j))))
    (P.of_list [0])
  let gates := s.1.set i gates_i
  let gates_i ← at_index .gates gates i
  pure (gates, max s.2 (size_minus_one (P.size gates_i)))

/-- The body of the loop of lines 275-277. -/
def F_body {F Poly : Type} (P : polynomial_ops F Poly) (gates : List Poly) (i : Nat)
    (F_ : Fin 11 → Poly) : Except undefined_behaviour (Fin 11 → Poly) := do
  let gates_i ← at_index .gates gates i
  pure (Function.update F_ 5 (P.add (F_ 5) gates_i))

/-- The body of the loop of lines 299-302: the state is `T_trees` and `T_commitments`. -/
def T_commit_body {F Poly Tree D LProof : Type}
    (L : list_polynomial_commitment_scheme F Poly Tree D LProof) (T : List Poly)
    (D_0 : List F) (i : Nat) (s : List Tree × List D) :
    Except undefined_behaviour (List Tree × List D) := do
  let T_i ← at_index .T T i
  let T_trees := s.1 ++ [L.commit T_i D_0]
  let T_trees_i ← at_index .T_trees T_trees i
  pure (T_trees, s.2 ++ [L.root T_trees_i])

/-- The body of the loop of lines 322-324. -/
def T_proof_body {F Poly Tree D LProof : Type}
    (L : list_polynomial_commitment_scheme F Poly Tree D LProof) (T : List Poly)
    (T_trees : List Tree) (D_0 fT_evaluation_points : List F) (i : Nat)
    (T_lpc_proofs : List LProof) : Except undefined_behaviour (List LProof) := do
  let T_trees_i ← at_index .T_trees T_trees i
  let T_i ← at_index .T T i
  pure (T_lpc_proofs ++ [L.proof_eval fT_evaluation_points T_trees_i T_i D_0])

/-- The local variables of a completed run of `process`, the returned `proof` among them. -/
structure locals (F Poly Tree D LProof TS : Type) where
  N_perm : Nat
  N_sel : Nat
  N_PI : Nat
  n : Nat
  D_0 : List F
  w : List Poly
  w_trees : List Tree
  w_commitments : List D
  beta : F
  gamma : F
  f : List Poly
  g : List F
  h : List F
  V_P_commitment : D
  teta : F
  A1_commitment : D
  S1_commitment : D
  p : List Poly
  q : List Poly
  p1 : Poly
  q1 : Poly
  P_interpolation_points : List (F × F)
  Q_interpolation_points : List (F × F)
  P : Poly
  Q : Poly
  P_commitment : D
  Q_commitment : D
  alphas : Fin 11 → F
  tau : F
  N_T : Nat
  gates : List Poly
  F_ : Fin 11 → Poly
  F_consolidated : Poly
  T_consolidated : Poly
  T : List Poly
  T_trees : List Tree
  T_commitments : List D
  upsilon : F
  fT_evaluation_points : List F
  f_lpc_proofs : List LProof
  T_lpc_proofs : List LProof
  proof : proof_type D LProof
  transcript : transcript TS D

/-- The body of `redshift_prover<FieldType, WiresAmount, lambda, k, r, m>::process`
(lines 65-336), statement by statement.  `polynoms` is `constraint_system.polynoms`; `n_i` and
`d_i_j` are the values of the locals read uninitialised at lines 255-258.  A run that reaches
undefined behaviour stops there. -/
def process_run {F Poly Tree D LProof TS : Type} [Field F] (WiresAmount k : Nat)
    (P : polynomial_ops F Poly) (L : list_polynomial_commitment_scheme F Poly Tree D LProof)
    (FS : fiat_shamir_heuristic TS D F) (n_i : Nat → Nat) (d_i_j : Nat → Nat → Nat)
    (preprocessed_data : preprocessed_data_type F Poly)
    (polynoms : List (List F) → List Poly) (assignments : List (List F)) (PI : List F) :
    Except undefined_behaviour (locals F Poly Tree D LProof TS) := do
  let N_wires := WiresAmount
  let N_perm := preprocessed_data.permutations.length
  let N_sel := preprocessed_data.selectors.length
  let N_PI := PI.length
  -- lines 77-80
  let n := assignments.foldl (fun n wire_assignments => max n wire_assignments.length) 0
  let N_rows := n
  -- lines 84-87: `D_0(n)` holds `n` value-initialised elements before the `emplace_back`s
  let D_0 : List F := pure_loop 1 (n + 1)
    (fun power D_0 => D_0 ++ [preprocessed_data.omega ^ power]) (List.replicate n 0)
  -- line 89
  let transcript : transcript TS D := { st := FS.init, log := [] }
  -- lines 96-106
  let w := polynoms assignments
  let wires ← for_loop 0 N_wires (wire_loop_body L FS w D_0)
    { w_trees := [], w_commitments := [], transcript := transcript }
  let w_trees := wires.w_trees
  let w_commitments := wires.w_commitments
  let transcript := wires.transcript
  -- lines 109-115
  let (beta, transcript) := transcript.get_challenge FS .beta
  let (gamma, transcript) := transcript.get_challenge FS .gamma
  -- lines 118-120
  let f : List Poly := List.replicate (N_perm + N_PI) P.empty
  let f ← if w.length ≤ f.length then pure (w ++ f.drop w.length) else .error .copy_past_end
  -- lines 124-140
  let S_sigma := preprocessed_data.permutations
  let S_id := preprocessed_data.identity_permutations
  let (g, h) ← for_loop 1 (N_rows + 1) (gh_body P f S_id S_sigma D_0 beta gamma N_perm N_PI)
    (List.replicate (N_rows + 1) 0, List.replicate (N_rows + 1) 0)
  -- lines 142-147
  let V_P := P.empty
  let V_P_tree := L.commit V_P D_0
  let V_P_commitment := L.root V_P_tree
  let transcript := transcript.absorb FS .V_P V_P_commitment
  -- lines 150-152
  let (teta, transcript) := transcript.get_challenge FS .teta
  -- lines 161-171
  let A1 := P.empty
  let S1 := P.empty
  let A1_tree := L.commit A1 D_0
  let S1_tree := L.commit S1 D_0
  let A1_commitment := L.root A1_tree
  let S1_commitment := L.root S1_tree
  let transcript := transcript.absorb FS .A1 A1_commitment
  let transcript := transcript.absorb FS .S1 S1_commitment
  -- lines 175-189
  let pq ← for_loop 0 N_perm (pq_body P f S_id S_sigma beta gamma)
    { p := List.replicate N_perm P.empty, q := List.replicate N_perm P.empty,
      p1 := P.of_list [1], q1 := P.of_list [1] }
  -- lines 192-215
  let P_interpolation_points : List (F × F) :=
    List.replicate (n + 1) (0, 0) ++ [(preprocessed_data.omega, 1)]
  let Q_interpolation_points : List (F × F) := List.replicate (n + 1) (0, 0)
  let (P_interpolation_points, Q_interpolation_points) := pure_loop 2 (n + 1 + 1)
    (interpolation_body P preprocessed_data.omega pq.p1 pq.q1)
    (P_interpolation_points, Q_interpolation_points)
  -- lines 217-229
  let P_ := P.empty
  let Q_ := P.empty
  let P_tree := L.commit P_ D_0
  let Q_tree := L.commit Q_ D_0
  let P_commitment := L.root P_tree
  let Q_commitment := L.root Q_tree
  let transcript := transcript.absorb FS .P P_commitment
  let transcript := transcript.absorb FS .Q Q_commitment
  -- lines 232-235
  let V := P.empty
  let transcript := transcript.absorb FS .V (L.root (L.commit V D_0))
  -- lines 238-244
  let (alphas, transcript) := transcript.get_challenges FS .alpha 11
  let (tau, transcript) := transcript.get_challenge FS .tau
  -- lines 248-264
  let N_T := N_perm
  let gates : List Poly := List.replicate N_sel P.empty
  let _constraints := polynoms assignments
  let (gates, N_T) ← for_loop 0 N_sel
    (gates_body P preprocessed_data.constraints tau n_i d_i_j) (gates, N_T)
  -- lines 267-277
  let F_ : Fin 11 → Poly := fun _ => P.empty
  let F_ ← for_loop 0 N_sel (F_body P gates) F_
  -- lines 283-289
  let F_consolidated := (List.finRange 11).foldl
    (fun F_consolidated i => P.add F_consolidated (P.scalar_mul (alphas i) (F_ i)))
    (P.of_list [0])
  let T_consolidated := P.div F_consolidated preprocessed_data.Z
  -- line 292
  let T : List Poly := List.replicate N_T P.empty
  -- lines 296-302
  let (T_trees, T_commitments) ← for_loop 0 (N_perm + 1) (T_commit_body L T D_0) ([], [])
  -- lines 304-306
  let (upsilon, transcript) := transcript.get_challenge FS .upsilon
  -- lines 308-309: `std::array<value_type, k>` initialised with `{upsilon}`
  let fT_evaluation_points : List F := upsilon :: List.replicate (k - 1) 0
  let f_lpc_proofs : List LProof := List.replicate N_wires L.default_proof
  -- lines 320-324
  let T_lpc_proofs : List LProof := List.replicate (N_perm + 1) L.default_proof
  let T_lpc_proofs ← for_loop 0 (N_perm + 1)
    (T_proof_body L T T_trees D_0 fT_evaluation_points) T_lpc_proofs
  -- lines 326-335
  let proof : proof_type D LProof :=
    { f_commitments := [], P_commitment := L.default_commitment,
      Q_commitment := L.default_commitment, T_commitments := [],
      f_lpc_proofs := [], P_lpc_proof := L.default_proof, Q_lpc_proof := L.default_proof,
      T_lpc_proofs := [] }
  let proof := { proof with T_lpc_proofs := T_lpc_proofs }
  let proof := { proof with f_lpc_proofs := f_lpc_proofs }
  let proof := { proof with T_commitments := T_commitments }
  pure { N_perm := N_perm, N_sel := N_sel, N_PI := N_PI, n := n, D_0 := D_0, w := w,
         w_trees := w_trees,
         w_commitments := w_commitments, beta := beta, gamma := gamma, f := f, g := g, h := h,
         V_P_commitment := V_P_commitment, teta := teta, A1_commitment := A1_commitment,
         S1_commitment := S1_commitment, p := pq.p, q := pq.q, p1 := pq.p1, q1 := pq.q1,
         P_interpolation_points := P_interpolation_points,
         Q_interpolation_points := Q_interpolation_points, P := P_, Q := Q_,
         P_commitment := P_commitment, Q_commitment := Q_commitment, alphas := alphas,
         tau := tau, N_T := N_T, gates := gates, F_ := F_, F_consolidated := F_consolidated,
         T_consolidated := T_consolidated, T := T, T_trees := T_trees,
         T_commitments := T_commitments, upsilon := upsilon,
         fT_evaluation_points := fT_evaluation_points, f_lpc_proofs := f_lpc_proofs,
         T_lpc_proofs := T_lpc_proofs, proof := proof, transcript := transcript }

/-- The function `redshift_prover::process`: the proof that a run returns. -/
def process {F Poly Tree D LProof TS : Type} [Field F] (WiresAmount k : Nat)
    (P : polynomial_ops F Poly) (L : list_polynomial_commitment_scheme F Poly Tree D LProof)
    (FS : fiat_shamir_heuristic TS D F) (n_i : Nat → Nat) (d_i_j : Nat → Nat → Nat)
    (preprocessed_data : preprocessed_data_type F Poly)
    (polynoms : List (List F) → List Poly) (assignments : List (List F)) (PI : List F) :
    Except undefined_behaviour (proof_type D LProof) :=
  let run : Except undefined_behaviour (locals F Poly Tree D LProof TS) :=
    process_run WiresAmount k P L FS n_i d_i_j preprocessed_data polynoms assignments PI
  run.map (fun r => r.proof)

/-- The challenge slots that one transcript call derives: `get_challenge<id>` derives the slot
`(id, 0)`, `get_challenges<id, N>` the slots `(id, 0), ..., (id, N - 1)`. -/
def event.derived {D : Type} : event D → List (challenges_ids × Nat)
  | .absorb _ _ => []
  | .get_challenge id => [(id, 0)]
  | .get_challenges id N => (List.range N).map (fun i => (id, i))

/-- The challenge slots derived along a record of transcript calls, in order. -/
def derived_challenges {D : Type} : List (event D) → List (challenges_ids × Nat)
  | [] => []
  | e :: es => e.derived ++ derived_challenges es

/-- The absorptions recorded before the first derivation of the identifier `id`, in order;
`none` when `id` is never derived. -/
def absorbed_before {D : Type} (id : challenges_ids) :
    List (event D) → Option (List (committed × D))
  | [] => none
  | .absorb c d :: es => (absorbed_before id es).map (fun l => (c, d) :: l)
  | .get_challenge id1 :: es => if id1 = id then some [] else absorbed_before id es
  | .get_challenges id1 _ :: es => if id1 = id then some [] else absorbed_before id es

/-- The local variables of `process` after line 115, with the transcript as it is before beta
is derived. -/
structure gamma_locals (F Poly Tree D TS : Type) where
  N_perm : Nat
  N_PI : Nat
  n : Nat
  D_0 : List F
  w : List Poly
  w_trees : List Tree
  w_commitments : List D
  transcript_before_beta : transcript TS D
  beta : F
  gamma : F
  transcript : transcript TS D

/-- Lines 65-115 of `process`, statement by statement as in `process_run`: the run up to the
derivation of gamma.  It stops only when the loop of lines 102-106 reads past the end of
`w`. -/
def process_until_gamma {F Poly Tree D LProof TS : Type} [Field F] (WiresAmount : Nat)
    (L : list_polynomial_commitment_scheme F Poly Tree D LProof)
    (FS : fiat_shamir_heuristic TS D F) (preprocessed_data : preprocessed_data_type F Poly)
    (polynoms : List (List F) → List Poly) (assignments : List (List F)) (PI : List F) :
    Except undefined_behaviour (gamma_locals F Poly Tree D TS) := do
  let N_wires := WiresAmount
  let N_perm := preprocessed_data.permutations.length
  let N_PI := PI.length
  -- lines 77-80
  let n := assignments.foldl (fun n wire_assignments => max n wire_assignments.length) 0
  -- lines 84-87
  let D_0 : List F := pure_loop 1 (n + 1)
    (fun power D_0 => D_0 ++ [preprocessed_data.omega ^ power]) (List.replicate n 0)
  -- line 89
  let transcript : transcript TS D := { st := FS.init, log := [] }
  -- lines 96-106
  let w := polynoms assignments
  let wires ← for_loop 0 N_wires (wire_loop_body L FS w D_0)
    { w_trees := [], w_commitments := [], transcript := transcript }
  let transcript_before_beta := wires.transcript
  -- lines 109-115
  let (beta, transcript) := transcript_before_beta.get_challenge FS .beta
  let (gamma, transcript) := transcript.get_challenge FS .gamma
  pure { N_perm := N_perm, N_PI := N_PI, n := n, D_0 := D_0, w := w,
         w_trees := wires.w_trees, w_commitments := wires.w_commitments,
         transcript_before_beta := transcript_before_beta, beta := beta, gamma := gamma,
         transcript := transcript }

/-- Lines 118-140 of `process`, from the locals after line 115, as in `process_run`: the
vector `f` and the loops that fill `g` and `h`. -/
def permutation_rows {F Poly Tree D TS : Type} [Field F] (P : polynomial_ops F Poly)
    (preprocessed_data : preprocessed_data_type F Poly) (s : gamma_locals F Poly Tree D TS) :
    Except undefined_behaviour (List Poly × List F × List F) := do
  let N_rows := s.n
  -- lines 118-120
  let f : List Poly := List.replicate (s.N_perm + s.N_PI) P.empty
  let f ← if s.w.length ≤ f.length then pure (s.w ++ f.drop s.w.length)
    else .error .copy_past_end
  -- lines 124-140
  let S_sigma := preprocessed_data.permutations
  let S_id := preprocessed_data.identity_permutations
  let (g, h) ← for_loop 1 (N_rows + 1)
    (gh_body P f S_id S_sigma s.D_0 s.beta s.gamma s.N_perm s.N_PI)
    (List.replicate (N_rows + 1) 0, List.replicate (N_rows + 1) 0)
  pure (f, g, h)

end redshift_prover

/-! ### Concrete collaborators, used to evaluate the definitions -/

namespace samples

/-- A small byte hash: a two-byte digest of the bytes fed, packed big-endian. -/
def byte_hash : fiat_shamir_heuristic_sequential.hash_type Nat where
  hash := fun bs => [bs.foldl (fun a b => (31 * a + b + 7) % 256) 1, (3 * bs.length + 5) % 256]
  pack := fun d => d.foldl (fun a b => 256 * a + b) 0
  zero_input := [0]

/-- A small permutation of three elements of `ZMod 7`, with a hash of sequences. -/
def poseidon : fiat_shamir_heuristic_sequential_poseidon.hash_type (ZMod 7) where
  hash := fun r => r.foldl (fun a b => 3 * a + b + 1) 2
  permute := fun a => (a.1 + a.2.1 + 1, a.2.1 * a.2.2 + 3, a.1 + 2 * a.2.1 + a.2.2 * a.2.2 + 4)
  data := fun x => x.val

/-- The prime field of seven elements. -/
abbrev Fp : Type := ZMod 7

instance prime_seven : Fact (Nat.Prime 7) := ⟨by norm_num⟩

/-- Sum of two coefficient lists (lowest degree first). -/
def dense_add : List Fp → List Fp → List Fp
  | [], b => b
  | a, [] => a
  | x :: a, y :: b => (x + y) :: dense_add a b

/-- Product of a coefficient list by a scalar. -/
def dense_scale (c : Fp) (a : List Fp) : List Fp := a.map (fun x => c * x)

/-- Product of two coefficient lists. -/
def dense_mul : List Fp → List Fp → List Fp
  | [], _ => []
  | x :: a, b => dense_add (dense_scale x b) (0 :: dense_mul a b)

/-- Value of a coefficient list at a point (Horner). -/
def dense_evaluate (a : List Fp) (x : Fp) : Fp := a.foldr (fun c acc => c + x * acc) 0

/-- A coefficient list without its leading zero coefficients. -/
def dense_trim (a : List Fp) : List Fp := (a.reverse.dropWhile (fun c => c = 0)).reverse

/-- Long division of `a` by the trimmed, nonzero `b`, with the quotient accumulated in `q`:
each step cancels the leading coefficient of `a` (the inverse of `c` in `Fp` is `c ^ 5`). -/
def dense_divide_steps (b : List Fp) : Nat → List Fp → List Fp → List Fp × List Fp
  | 0, a, q => (q, a)
  | fuel + 1, a, q =>
    if a.length < b.length then (q, a)
    else
      let c := a.getLastD 0 * (b.getLastD 0) ^ 5
      let term := List.replicate (a.length - b.length) 0 ++ [c]
      dense_divide_steps b fuel (dense_trim (dense_add a (dense_scale (-1) (dense_mul term b))))
        (dense_add q term)

/-- Quotient and remainder of `a` by `b`; by the zero polynomial they are `[]` and `a`. -/
def dense_divide (a b : List Fp) : List Fp × List Fp :=
  if dense_trim b = [] then ([], a)
  else dense_divide_steps (dense_trim b) (dense_trim a).length (dense_trim a) []

/-- Polynomials over `Fp` as coefficient vectors. -/
def dense : redshift_prover.polynomial_ops Fp (List Fp) where
  empty := []
  of_list := fun cs => cs
  add := dense_add
  add_scalar := fun a c => dense_add a [c]
  scalar_sub := fun c a => dense_add [c] (dense_scale (-1) a)
  scalar_mul := dense_scale
  mul_scalar := fun a c => dense_scale c a
  mul := dense_mul
  div := fun a b => (dense_divide a b).1
  rem := fun a b => (dense_divide a b).2
  evaluate := dense_evaluate
  size := List.length

/-- A commitment collaborator: the tree is the vector of evaluations over the domain, its
root a digest in `Fp`, an opening proof the evaluations at the points followed by the root. -/
def evaluations_commitment :
    redshift_prover.list_polynomial_commitment_scheme Fp (List Fp) (List Fp) Fp (List Fp) where
  commit := fun a D_0 => D_0.map (dense_evaluate a)
  root := fun tree => tree.foldl (fun acc v => 2 * acc + v + 1) 3
  proof_eval := fun points tree a _ =>
    points.map (dense_evaluate a) ++ [tree.foldl (fun acc v => 2 * acc + v + 1) 3]
  default_proof := []
  default_commitment := 0

/-- The number of a challenge identifier. -/
def id_code : redshift_prover.challenges_ids → Fp
  | .beta => 1 | .gamma => 2 | .teta => 3 | .alpha => 4 | .tau => 5 | .upsilon => 6

/-- A transcript whose state is one element of `Fp`. -/
def running_transcript : redshift_prover.fiat_shamir_heuristic Fp Fp Fp where
  init := 1
  absorb := fun st d => 3 * st + d + 1
  get_challenge := fun st id => (st * st + id_code id, st * st + id_code id)
  get_challenges := fun st id N =>
    (fun i => st * st + id_code id + (i.val : Fp) * (st + 1), st * st + id_code id + (N : Fp))

/-- Preprocessed data for two wires over the domain of size one. -/
def toy_data : redshift_prover.preprocessed_data_type Fp (List Fp) where
  omega := 1
  permutations := [[0, 1], [0, 2]]
  identity_permutations := [[0, 1], [0, 2]]
  selectors := [[1]]
  constraints := [[0, 0, 0, 1]]
  Z := [6, 1]

/-- The run of `process` on `toy_data` with two wires, `k = 1`, the assignment `[[3], [3]]`
(each wire polynomial is the constant `3`) and no public input; the uninitialised `n_i` holds
`1` and `d_i_j` holds `0`. -/
def toy_run : Except redshift_prover.undefined_behaviour
    (redshift_prover.locals Fp (List Fp) (List Fp) Fp (List Fp) Fp) :=
  redshift_prover.process_run 2 1 dense evaluations_commitment running_transcript
    (fun _ => 1) (fun _ _ => 0) toy_data (fun assignments => assignments) [[3], [3]] []

end samples

/-! ### The accumulative transcript (fiat_shamir.hpp, lines 78-129) -/

namespace fiat_shamir_heuristic_accumulative

/-- The transcript object: its only member is the accumulator `acc`. -/
structure transcript (B : Type) where
  acc : fiat_shamir_heuristic_sequential.accumulator_set B
deriving DecidableEq, Repr

/-- The constructor (line 87): `acc()`, an accumulator that has been fed nothing. -/
def init {B : Type} : transcript B := { acc := [] }

/-- The method `operator()(TAny data)` (lines 90-96); `pack` is `nil::marshalling::pack` of the
data into a block of bytes. -/
def absorb {B TAny : Type} (pack : TAny → List B) (t : transcript B) (data : TAny) :
    transcript B :=
  let byte_data := pack data
  { acc := fiat_shamir_heuristic_sequential.hash_into byte_data t.acc }

/-- The method `challenge<ChallengeId, FieldType>()` (lines 98-104): the digest of the
accumulator is extracted into the unused local `hash_res`, and `one()` is returned. -/
def challenge {B Id F : Type} [One F] (h : fiat_shamir_heuristic_sequential.hash_type B)
    (t : transcript B) (_ChallengeId : Id) : F × transcript B :=
  let _hash_res := fiat_shamir_heuristic_sequential.extract_hash h t.acc
  (1, t)

/-- The method `challenge<ChallengeId, Index, FieldType>()` (lines 106-112). -/
def challenge_indexed {B Id F : Type} [One F] (h : fiat_shamir_heuristic_sequential.hash_type B)
    (t : transcript B) (_ChallengeId : Id) (_Index : Nat) : F × transcript B :=
  let _hash_res := fiat_shamir_heuristic_sequential.extract_hash h t.acc
  (1, t)

end fiat_shamir_heuristic_accumulative

/-! ### Specifications of `challenges<Field, N>()` by successive calls -/

namespace fiat_shamir_heuristic_sequential

/-- The transcript after `i` successive calls of `challenge<Field>()`. -/
def after_challenge_calls {B : Type} (h : hash_type B) (p : Nat) :
    Nat → transcript B → transcript B
  | 0, t => t
  | i + 1, t => (challenge h p (after_challenge_calls h p i t)).2

/-- The specification of `challenges<Field, N>()`: the array whose entry `i` is the value of
the call number `i + 1` of `N` successive calls of `challenge<Field>()`, and the transcript
reached after those `N` calls. -/
def successive_challenges {B : Type} (h : hash_type B) (p : Nat) (N : Nat) (t : transcript B) :
    List Nat × transcript B :=
  ((List.range N).map (fun i => (challenge h p (after_challenge_calls h p i t)).1),
    after_challenge_calls h p N t)

end fiat_shamir_heuristic_sequential

namespace fiat_shamir_heuristic_sequential_poseidon

/-- The transcript after `i` successive calls of `challenge<Field>()`. -/
def after_challenge_calls {F : Type} [Zero F] (h : hash_type F) :
    Nat → transcript F → transcript F
  | 0, t => t
  | i + 1, t => (challenge h (after_challenge_calls h i t)).2

/-- The specification of `challenges<Field, N>()`: the array whose entry `i` is the value of
the call number `i + 1` of `N` successive calls of `challenge<Field>()`, and the transcript
reached after those `N` calls. -/
def successive_challenges {F : Type} [Zero F] (h : hash_type F) (N : Nat) (t : transcript F) :
    List F × transcript F :=
  ((List.range N).map (fun i => (challenge h (after_challenge_calls h i t)).1),
    after_challenge_calls h N t)

end fiat_shamir_heuristic_sequential_poseidon

/-! ### What the two sequential transcripts hash -/

namespace fiat_shamir_heuristic_sequential

/-- The hash has no collision among the given inputs. -/
def collision_free_on {B : Type} (h : hash_type B) (inputs : List (List B)) : Prop :=
  ∀ u ∈ inputs, ∀ v ∈ inputs, h.hash u = h.hash v → u = v

instance collision_free_on_decidable {B : Type} [DecidableEq B] (h : hash_type B)
    (inputs : List (List B)) : Decidable (collision_free_on h inputs) := by
  unfold collision_free_on
  infer_instance

end fiat_shamir_heuristic_sequential

namespace fiat_shamir_heuristic_sequential_poseidon

/-- The function `pair_hash` has no collision among the given pairs of arguments. -/
def collision_free_on {F : Type} [Zero F] (h : hash_type F) (inputs : List (F × F)) : Prop :=
  ∀ u ∈ inputs, ∀ v ∈ inputs, pair_hash h u.1 u.2 = pair_hash h v.1 v.2 → u = v

instance collision_free_on_decidable {F : Type} [Zero F] [DecidableEq F] (h : hash_type F)
    (inputs : List (F × F)) : Decidable (collision_free_on h inputs) := by
  unfold collision_free_on
  infer_instance

end fiat_shamir_heuristic_sequential_poseidon

/-! ### Further concrete collaborators -/

namespace samples

/-- The data `toy_data` with the constraint `X^4` in place of `X^3`. -/
def toy_data_quartic : redshift_prover.preprocessed_data_type Fp (List Fp) :=
  { toy_data with constraints := [[0, 0, 0, 0, 1]] }

/-- The run of `process` on `toy_data_quartic`, with the other inputs of `toy_run`. -/
def toy_run_quartic : Except redshift_prover.undefined_behaviour
    (redshift_prover.locals Fp (List Fp) (List Fp) Fp (List Fp) Fp) :=
  redshift_prover.process_run 2 1 dense evaluations_commitment running_transcript
    (fun _ => 1) (fun _ _ => 0) toy_data_quartic (fun assignments => assignments) [[3], [3]] []

end samples

/-! ### Runs of the accumulative transcript -/

namespace fiat_shamir_heuristic_accumulative

/-- The transcript after the calls `operator()(data)` for each element of `history`, in
order. -/
def absorb_all {B TAny : Type} (pack : TAny → List B) (t : transcript B)
    (history : List TAny) : transcript B :=
  history.foldl (absorb pack) t

end fiat_shamir_heuristic_accumulative

/-! ### Further inputs of the prover -/

namespace samples

/-- The data `toy_data` with a third identity-permutation polynomial, for two permutation
polynomials. -/
def toy_data_extra_identity : redshift_prover.preprocessed_data_type Fp (List Fp) :=
  { toy_data with identity_permutations := [[0, 1], [0, 2], [0, 3]] }

/-- The run of `process` on `toy_data_extra_identity`, with the other inputs of `toy_run`. -/
def toy_run_extra_identity : Except redshift_prover.undefined_behaviour
    (redshift_prover.locals Fp (List Fp) (List Fp) Fp (List Fp) Fp) :=
  redshift_prover.process_run 2 1 dense evaluations_commitment running_transcript
    (fun _ => 1) (fun _ _ => 0) toy_data_extra_identity (fun assignments => assignments)
    [[3], [3]] []

/-- The data `toy_data` without selectors. -/
def toy_data_no_selectors : redshift_prover.preprocessed_data_type Fp (List Fp) :=
  { toy_data with selectors := [] }

/-- The run of `process` on `toy_data_no_selectors`, with the other inputs of `toy_run`. -/
def toy_run_no_selectors : Except redshift_prover.undefined_behaviour
    (redshift_prover.locals Fp (List Fp) (List Fp) Fp (List Fp) Fp) :=
  redshift_prover.process_run 2 1 dense evaluations_commitment running_transcript
    (fun _ => 1) (fun _ _ => 0) toy_data_no_selectors (fun assignments => assignments)
    [[3], [3]] []

/-- The data `toy_data` with the permutation that exchanges the two wires: the cell of wire 0
is copy-constrained to the cell of wire 1. -/
def toy_data_swap : redshift_prover.preprocessed_data_type Fp (List Fp) :=
  { toy_data with permutations := [[0, 2], [0, 1]] }

/-- The run of `process` on `toy_data_swap` with the given assignment and the other inputs of
`toy_run`. -/
def toy_run_swap (assignments : List (List Fp)) : Except redshift_prover.undefined_behaviour
    (redshift_prover.locals Fp (List Fp) (List Fp) Fp (List Fp) Fp) :=
  redshift_prover.process_run 2 1 dense evaluations_commitment running_transcript
    (fun _ => 1) (fun _ _ => 0) toy_data_swap (fun assignments => assignments) assignments []

/-- The polynomial `X^(i n)`, as a coefficient list. -/
def dense_monomial (e : Nat) : List Fp := List.replicate e 0 ++ [1]

/-- The recombination `sum over i of X^(i n) * T[i]` of the pieces `T`, from piece `i` on. -/
def recombine (n : Nat) : Nat → List (List Fp) → List Fp
  | _, [] => []
  | i, T_i :: T => dense_add (dense_mul (dense_monomial (i * n)) T_i) (recombine n (i + 1) T)

end samples

/-! ### The SHA-256 round function gadget (sha256_components.hpp, lines 54-106, 211-304) -/

namespace sha256_components

/-- Modelled from the spec: the protoboard of the gadget library is not among the sources.  It
holds the index of the next free variable, the value assigned to each variable, and the R1CS
constraints added so far; the index `0` stands for the constant one. -/
structure protoboard (F : Type) where
  next_free_var : Nat
  val : Nat → F
  constraints : List ((List (F × Nat)) × (List (F × Nat)) × (List (F × Nat)))

/-- Modelled from the spec: a linear combination of the gadget library (not among the
sources), as its list of terms `coefficient * variable`. -/
abbrev linear_combination (F : Type) := List (F × Nat)

/-- Modelled from the spec: the value of a linear combination under an assignment of the
variables, the variable of index `0` being the constant one. -/
def linear_combination.evaluate {F : Type} [Field F] (val : Nat → F)
    (lc : linear_combination F) : F :=
  (lc.map (fun t => t.1 * (if t.2 = 0 then 1 else val t.2))).sum

/-- Modelled from the spec: `r1cs_constraint<FieldType>(a, b, c)` of the gadget library (not
among the sources) stands for `<a, x> * <b, x> = <c, x>`. -/
abbrev r1cs_constraint (F : Type) :=
  linear_combination F × linear_combination F × linear_combination F

/-- Modelled from the spec: an assignment satisfies the constraint `(a, b, c)` when the
product of the values of `a` and `b` is the value of `c`. -/
def r1cs_constraint.is_satisfied {F : Type} [Field F] (val : Nat → F)
    (c : r1cs_constraint F) : Prop :=
  linear_combination.evaluate val c.1 * linear_combination.evaluate val c.2.1
    = linear_combination.evaluate val c.2.2

/-- Modelled from the spec: `pb_variable::allocate(pb)` of the gadget library (not among the
sources) takes the next free variable index. -/
def allocate {F : Type} (pb : protoboard F) : Nat × protoboard F :=
  (pb.next_free_var, { pb with next_free_var := pb.next_free_var + 1 })

/-- Modelled from the spec: `pb.add_r1cs_constraint(c)`. -/
def add_r1cs_constraint {F : Type} (pb : protoboard F) (c : r1cs_constraint F) :
    protoboard F :=
  { pb with constraints := pb.constraints ++ [c] }

/-- Modelled from the spec: the assignment `pb.val(v) = x`. -/
def set_val {F : Type} (pb : protoboard F) (v : Nat) (x : F) : protoboard F :=
  { pb with val := Function.update pb.val v x }

/-- A component gadget of the gadget library (`big_sigma_gadget`, `choice_gadget`,
`majority_gadget`, `packing_gadget`, `lastbits_gadget`; none is among the sources), as
constructed on its arguments: the number of variables its constructor allocates, the
constraints that its `generate_r1cs_constraints` adds, and the effect of its
`generate_r1cs_witness` on the assignment. -/
structure component (F : Type) where
  allocates : Nat
  constraints : List (r1cs_constraint F)
  witness : (Nat → F) → (Nat → F)

/-- The construction of a component: its variables are allocated. -/
def component.construct {F : Type} (c : component F) (pb : protoboard F) : protoboard F :=
  { pb with next_free_var := pb.next_free_var + c.allocates }

/-- The call `c->generate_r1cs_constraints()` on a component. -/
def component.generate_r1cs_constraints {F : Type} (c : component F) (pb : protoboard F) :
    protoboard F :=
  { pb with constraints := pb.constraints ++ c.constraints }

/-- The call `c->generate_r1cs_witness()` on a component. -/
def component.generate_r1cs_witness {F : Type} (c : component F) (pb : protoboard F) :
    protoboard F :=
  { pb with val := c.witness pb.val }

/-- The eight components of a round function gadget, in the order of their construction. -/
structure round_components (F : Type) where
  compute_sigma0 : component F
  compute_sigma1 : component F
  compute_choice : component F
  compute_majority : component F
  pack_d : component F
  pack_h : component F
  mod_reduce_new_a : component F
  mod_reduce_new_e : component F

/-- The members of `sha256_round_function_gadget` that the gadget itself reads: its ten
variables, `W`, `K`, and its components.  The arrays `a, ..., h`, `new_a`, `new_e` are only
handed to the components. -/
structure sha256_round_function_gadget (F : Type) where
  sigma0 : Nat
  sigma1 : Nat
  choice : Nat
  majority : Nat
  packed_d : Nat
  packed_h : Nat
  unreduced_new_a : Nat
  unreduced_new_e : Nat
  packed_new_a : Nat
  packed_new_e : Nat
  W : Nat
  K : Int
  components : round_components F

/-- The constructor of `sha256_round_function_gadget` (lines 211-261): the gadget and the
protoboard after the allocations. -/
def sha256_round_function_gadget.construct {F : Type} (pb : protoboard F)
    (cs : round_components F) (W : Nat) (K : Int) :
    sha256_round_function_gadget F × protoboard F :=
  let (sigma0, pb) := allocate pb
  let (sigma1, pb) := allocate pb
  let pb := cs.compute_sigma0.construct pb
  let pb := cs.compute_sigma1.construct pb
  let (choice, pb) := allocate pb
  let pb := cs.compute_choice.construct pb
  let (majority, pb) := allocate pb
  let pb := cs.compute_majority.construct pb
  let (packed_d, pb) := allocate pb
  let pb := cs.pack_d.construct pb
  let (packed_h, pb) := allocate pb
  let pb := cs.pack_h.construct pb
  let (unreduced_new_a, pb) := allocate pb
  let (unreduced_new_e, pb) := allocate pb
  let (packed_new_a, pb) := allocate pb
  let (packed_new_e, pb) := allocate pb
  let pb := cs.mod_reduce_new_a.construct pb
  let pb := cs.mod_reduce_new_e.construct pb
  ({ sigma0 := sigma0, sigma1 := sigma1, choice := choice, majority := majority,
     packed_d := packed_d, packed_h := packed_h, unreduced_new_a := unreduced_new_a,
     unreduced_new_e := unreduced_new_e, packed_new_a := packed_new_a,
     packed_new_e := packed_new_e, W := W, K := K, components := cs }, pb)

/-- The first linear constraint of lines 274-275:
`1 * (packed_h + sigma1 + choice + K + W + sigma0 + majority) = unreduced_new_a`. -/
def sha256_round_function_gadget.new_a_constraint {F : Type} [Field F]
    (g : sha256_round_function_gadget F) : r1cs_constraint F :=
  ([(1, 0)],
   [(1, g.packed_h), (1, g.sigma1), (1, g.choice), ((g.K : F), 0), (1, g.W), (1, g.sigma0),
    (1, g.majority)],
   [(1, g.unreduced_new_a)])

/-- The second linear constraint of lines 277-278:
`1 * (packed_d + packed_h + sigma1 + choice + K + W) = unreduced_new_e`. -/
def sha256_round_function_gadget.new_e_constraint {F : Type} [Field F]
    (g : sha256_round_function_gadget F) : r1cs_constraint F :=
  ([(1, 0)],
   [(1, g.packed_d), (1, g.packed_h), (1, g.sigma1), (1, g.choice), ((g.K : F), 0), (1, g.W)],
   [(1, g.unreduced_new_e)])

/-- The method `generate_r1cs_constraints` (lines 263-282). -/
def sha256_round_function_gadget.generate_r1cs_constraints {F : Type} [Field F]
    (g : sha256_round_function_gadget F) (pb : protoboard F) : protoboard F :=
  let pb := g.components.compute_sigma0.generate_r1cs_constraints pb
  let pb := g.components.compute_sigma1.generate_r1cs_constraints pb
  let pb := g.components.compute_choice.generate_r1cs_constraints pb
  let pb := g.components.compute_majority.generate_r1cs_constraints pb
  let pb := g.components.pack_d.generate_r1cs_constraints pb
  let pb := g.components.pack_h.generate_r1cs_constraints pb
  let pb := add_r1cs_constraint pb g.new_a_constraint
  let pb := add_r1cs_constraint pb g.new_e_constraint
  let pb := g.components.mod_reduce_new_a.generate_r1cs_constraints pb
  let pb := g.components.mod_reduce_new_e.generate_r1cs_constraints pb
  pb

/-- The method `generate_r1cs_witness` (lines 284-304). -/
def sha256_round_function_gadget.generate_r1cs_witness {F : Type} [Field F]
    (g : sha256_round_function_gadget F) (pb : protoboard F) : protoboard F :=
  let pb := g.components.compute_sigma0.generate_r1cs_witness pb
  let pb := g.components.compute_sigma1.generate_r1cs_witness pb
  let pb := g.components.compute_choice.generate_r1cs_witness pb
  let pb := g.components.compute_majority.generate_r1cs_witness pb
  let pb := g.components.pack_d.generate_r1cs_witness pb
  let pb := g.components.pack_h.generate_r1cs_witness pb
  let pb := set_val pb g.unreduced_new_a
    (pb.val g.packed_h + pb.val g.sigma1 + pb.val g.choice + (g.K : F) + pb.val g.W
      + pb.val g.sigma0 + pb.val g.majority)
  let pb := set_val pb g.unreduced_new_e
    (pb.val g.packed_d + pb.val g.packed_h + pb.val g.sigma1 + pb.val g.choice + (g.K : F)
      + pb.val g.W)
  let pb := g.components.mod_reduce_new_a.generate_r1cs_witness pb
  let pb := g.components.mod_reduce_new_e.generate_r1cs_witness pb
  pb

/-- The variables that the two sums of `generate_r1cs_witness` read or write. -/
def sha256_round_function_gadget.sum_variables {F : Type}
    (g : sha256_round_function_gadget F) : List Nat :=
  [g.sigma0, g.sigma1, g.choice, g.majority, g.packed_d, g.packed_h, g.unreduced_new_a,
   g.unreduced_new_e, g.W]

end sha256_components

/-! ### A concrete round function gadget -/

namespace samples

/-- Eight components over `Fp` for the protoboard whose next free variable is `2`: the first
allocates one variable, the six computing components write fixed values to the variables
`2, 3, 5, 6, 7, 8` of the gadget, and the two reducing components copy the unreduced sums
`9`, `10` to the packed results `11`, `12`. -/
def round_components_sample : sha256_components.round_components Fp where
  compute_sigma0 := { allocates := 1, constraints := [],
                      witness := fun val => Function.update val 2 3 }
  compute_sigma1 := { allocates := 0, constraints := [],
                      witness := fun val => Function.update val 3 4 }
  compute_choice := { allocates := 0, constraints := [],
                      witness := fun val => Function.update val 5 2 }
  compute_majority := { allocates := 0, constraints := [],
                        witness := fun val => Function.update val 6 6 }
  pack_d := { allocates := 0, constraints := [], witness := fun val => Function.update val 7 5 }
  pack_h := { allocates := 0, constraints := [], witness := fun val => Function.update val 8 1 }
  mod_reduce_new_a := { allocates := 0, constraints := [],
                        witness := fun val => Function.update val 11 (val 9) }
  mod_reduce_new_e := { allocates := 0, constraints := [],
                        witness := fun val => Function.update val 12 (val 10) }

/-- A protoboard with one allocated variable, `W`, of index `1` and value `2`. -/
def round_protoboard : sha256_components.protoboard Fp where
  next_free_var := 2
  val := fun v => if v = 1 then 2 else 0
  constraints := []

/-- The round function gadget constructed on `round_protoboard` with `W` the variable `1` and
the first round constant `K = 0x428a2f98`. -/
def round_gadget : sha256_components.sha256_round_function_gadget Fp :=
  (sha256_components.sha256_round_function_gadget.construct round_protoboard
    round_components_sample 1 1116352408).1

end samples

/-! ### The initial vector, the bit widths and the message schedule gadget
(sha256_components.hpp, lines 25-26, 108-209, 257-260) -/

namespace sha256_components

/-- The constant `SHA256_digest_size` of line 25. -/
def SHA256_digest_size : Nat := 256

/-- The constant `SHA256_block_size` of line 26. -/
def SHA256_block_size : Nat := 512

/-- The local `iv_val` of line 119, `(iv[i / 32] >> (31 - (i % 32))) & 1`, for the state `iv`
that the hash library returns (`sha2_policy<256>::iv_generator`, not among the sources). -/
def iv_val (iv : Nat → Nat) (i : Nat) : Nat :=
  (iv (i / 32) >>> (31 - (i % 32))) &&& 1

/-- The function `SHA256_default_IV` (lines 108-129): for each `i` below `SHA256_digest_size`
the linear combination `iv_val * pb_variable(0)` is appended to the result.  The storage that
`assign` and `evaluate` use on the protoboard is not part of the result and is left out. -/
def SHA256_default_IV {F : Type} [Field F] (iv : Nat → Nat) : List (linear_combination F) :=
  redshift_prover.pure_loop 0 SHA256_digest_size
    (fun i result => result ++ [[(((iv_val iv i : Nat) : F), 0)]]) []

/-- The number read from a list of bits, most significant bit first. -/
def read_msb_first (bits : List Nat) : Nat :=
  bits.foldl (fun acc b => 2 * acc + b) 0

/-- The third argument of the `lastbits_gadget` constructed at lines 173-174 for the message
schedule: the number of bits of `unreduced_W[i]`. -/
def sha256_message_schedule_gadget.mod_reduce_X_bits : Nat := 32 + 2

/-- The third argument of the two `lastbits_gadget`s constructed at lines 257-260 for the
round function: the number of bits of `unreduced_new_a` and of `unreduced_new_e`. -/
def sha256_round_function_gadget.mod_reduce_X_bits : Nat := 32 + 3

/-- The sum of lines 205-206, `sigma0 + sigma1 + packed_W[i - 16] + packed_W[i - 7]`. -/
def unreduced_W_sum {α : Type} [Add α] (sigma0 sigma1 W16 W7 : α) : α :=
  sigma0 + sigma1 + W16 + W7

/-- The sum of lines 295-297,
`packed_h + sigma1 + choice + K + W + sigma0 + majority`. -/
def unreduced_new_a_sum {α : Type} [Add α] (packed_h sigma1 choice K W sigma0 majority : α) :
    α :=
  packed_h + sigma1 + choice + K + W + sigma0 + majority

/-- The sum of lines 298-300, `packed_d + packed_h + sigma1 + choice + K + W`. -/
def unreduced_new_e_sum {α : Type} [Add α] (packed_d packed_h sigma1 choice K W : α) : α :=
  packed_d + packed_h + sigma1 + choice + K + W

/-- The first `n` bits of `X`, least significant bit first. -/
def bits_of (n X : Nat) : List Nat :=
  (List.range n).map (fun k => X / 2 ^ k % 2)

/-- The number packed from a list of bits, least significant bit first. -/
def pack_bits (bits : List Nat) : Nat :=
  bits.foldr (fun b acc => b + 2 * acc) 0

/-- Modelled from the spec: `lastbits_gadget(pb, X, X_bits, result, result_bits)` of the gadget
library (not among the sources) unpacks `X` into `X_bits` bits, of which the lowest
`result_bits.size()` are packed into `result`.  The unpacking constraint holds when the
`X_bits` bits pack back to `X`; the value is then the packed result. -/
def lastbits (X X_bits result_bits_size : Nat) : Option Nat :=
  if pack_bits (bits_of X_bits X) = X then
    some (pack_bits ((bits_of X_bits X).take result_bits_size))
  else none

end sha256_components

namespace samples

/-- The initial state of SHA-256, the eight words that `sha2_policy<256>::iv_generator`
stands for. -/
def sha256_iv (j : Nat) : Nat :=
  [0x6a09e667, 0xbb67ae85, 0x3c6ef372, 0xa54ff53a, 0x510e527f, 0x9b05688c, 0x1f83d9ab,
   0x5be0cd19].getD j 0

end samples

namespace sha256_components

/-- Modelled from the spec: `pb_variable_array::allocate(pb, n)` of the gadget library (not
among the sources) takes the next `n` free variable indices, in increasing order. -/
def allocate_array {F : Type} (pb : protoboard F) (n : Nat) : List Nat × protoboard F :=
  ((List.range n).map (fun k => pb.next_free_var + k),
   { pb with next_free_var := pb.next_free_var + n })

/-- The arguments of a construction `packing_gadget(pb, bits, packed)`. -/
structure packing_gadget_call where
  bits : List Nat
  packed : Nat
deriving DecidableEq

/-- The arguments of a construction `small_sigma_gadget(pb, W, result, rot1, rot2, shift)`. -/
structure small_sigma_gadget_call where
  W : List Nat
  result : Nat
  rot1 : Nat
  rot2 : Nat
  shift : Nat
deriving DecidableEq

/-- The arguments of a construction `lastbits_gadget(pb, X, X_bits, result, result_bits)`. -/
structure lastbits_gadget_call where
  X : Nat
  X_bits : Nat
  result : Nat
  result_bits : List Nat
deriving DecidableEq

/-- The three component classes that the message schedule gadget constructs
(`packing_gadget`, `small_sigma_gadget`, `lastbits_gadget`; none is among the sources): the
component that each construction gives on its arguments. -/
structure schedule_components (F : Type) where
  packing_gadget : packing_gadget_call → component F
  small_sigma_gadget : small_sigma_gadget_call → component F
  lastbits_gadget : lastbits_gadget_call → component F

/-- The members of `sha256_message_schedule_gadget`.  The vectors are functions of the index;
an entry that is not set holds the default value of its type: the empty array, the variable
of index `0`, the null pointer.  A pointer holds the arguments of the construction that it
was reset with. -/
structure sha256_message_schedule_gadget (F : Type) where
  W_bits : Nat → List Nat
  pack_W : Nat → Option packing_gadget_call
  sigma0 : Nat → Nat
  sigma1 : Nat → Nat
  compute_sigma0 : Nat → Option small_sigma_gadget_call
  compute_sigma1 : Nat → Option small_sigma_gadget_call
  unreduced_W : Nat → Nat
  mod_reduce_W : Nat → Option lastbits_gadget_call
  M : List Nat
  packed_W : List Nat
  components : schedule_components F

/-- The array of line 142-143,
`pb_variable_array(M.rbegin() + (15 - i) * 32, M.rbegin() + (16 - i) * 32)`: the entries of
the reversed `M` from the first position up to the second.  The positions lie within `M`
when `M` has `SHA256_block_size` entries. -/
def sha256_message_schedule_gadget.block_word (M : List Nat) (i : Nat) : List Nat :=
  (M.reverse.drop ((15 - i) * 32)).take ((16 - i) * 32 - (15 - i) * 32)

/-- The body of the loop of lines 141-145.  The entry `packed_W[i]` exists when `packed_W`
has 64 entries. -/
def sha256_message_schedule_gadget.first_loop_body {F : Type} (i : Nat)
    (s : sha256_message_schedule_gadget F × protoboard F) :
    sha256_message_schedule_gadget F × protoboard F :=
  let g := s.1
  let pb := s.2
  let W_bits_i := sha256_message_schedule_gadget.block_word g.M i
  let call : packing_gadget_call := { bits := W_bits_i, packed := g.packed_W.getD i 0 }
  let pb := (g.components.packing_gadget call).construct pb
  ({ g with W_bits := Function.update g.W_bits i W_bits_i,
            pack_W := Function.update g.pack_W i (some call) }, pb)

/-- The body of the loop of lines 155-175. -/
def sha256_message_schedule_gadget.second_loop_body {F : Type} (i : Nat)
    (s : sha256_message_schedule_gadget F × protoboard F) :
    sha256_message_schedule_gadget F × protoboard F :=
  let g := s.1
  let pb := s.2
  let (sigma0_i, pb) := allocate pb
  let (sigma1_i, pb) := allocate pb
  let call0 : small_sigma_gadget_call :=
    { W := g.W_bits (i - 15), result := sigma0_i, rot1 := 7, rot2 := 18, shift := 3 }
  let pb := (g.components.small_sigma_gadget call0).construct pb
  let call1 : small_sigma_gadget_call :=
    { W := g.W_bits (i - 2), result := sigma1_i, rot1 := 17, rot2 := 19, shift := 10 }
  let pb := (g.components.small_sigma_gadget call1).construct pb
  let (unreduced_W_i, pb) := allocate pb
  let (W_bits_i, pb) := allocate_array pb 32
  let call2 : lastbits_gadget_call :=
    { X := unreduced_W_i, X_bits := sha256_message_schedule_gadget.mod_reduce_X_bits,
      result := g.packed_W.getD i 0,
      result_bits := W_bits_i }
  let pb := (g.components.lastbits_gadget call2).construct pb
  ({ g with sigma0 := Function.update g.sigma0 i sigma0_i,
            sigma1 := Function.update g.sigma1 i sigma1_i,
            compute_sigma0 := Function.update g.compute_sigma0 i (some call0),
            compute_sigma1 := Function.update g.compute_sigma1 i (some call1),
            unreduced_W := Function.update g.unreduced_W i unreduced_W_i,
            W_bits := Function.update g.W_bits i W_bits_i,
            mod_reduce_W := Function.update g.mod_reduce_W i (some call2) }, pb)

/-- The constructor of `sha256_message_schedule_gadget` (lines 131-176): the gadget and the
protoboard after the allocations. -/
def sha256_message_schedule_gadget.construct {F : Type} (pb : protoboard F)
    (cs : schedule_components F) (M packed_W : List Nat) :
    sha256_message_schedule_gadget F × protoboard F :=
  let g : sha256_message_schedule_gadget F :=
    { W_bits := fun _ => [], pack_W := fun _ => none, sigma0 := fun _ => 0,
      sigma1 := fun _ => 0, compute_sigma0 := fun _ => none, compute_sigma1 := fun _ => none,
      unreduced_W := fun _ => 0, mod_reduce_W := fun _ => none, M := M,
      packed_W := packed_W, components := cs }
  let s := redshift_prover.pure_loop 0 16 sha256_message_schedule_gadget.first_loop_body
    (g, pb)
  redshift_prover.pure_loop 16 64 sha256_message_schedule_gadget.second_loop_body s

/-- The component behind a pointer.  The constructor resets every pointer that the methods
dereference; a null pointer is given the component without effect. -/
def pointee {F C : Type} (construction : C → component F) (pointer : Option C) :
    component F :=
  match pointer with
  | some call => construction call
  | none => { allocates := 0, constraints := [], witness := fun val => val }

/-- The linear constraint of lines 188-189:
`1 * (sigma0[i] + sigma1[i] + packed_W[i - 16] + packed_W[i - 7]) = unreduced_W[i]`. -/
def sha256_message_schedule_gadget.W_constraint {F : Type} [Field F]
    (g : sha256_message_schedule_gadget F) (i : Nat) : r1cs_constraint F :=
  ([(1, 0)],
   [(1, g.sigma0 i), (1, g.sigma1 i), (1, g.packed_W.getD (i - 16) 0),
    (1, g.packed_W.getD (i - 7) 0)],
   [(1, g.unreduced_W i)])

/-- The method `generate_r1cs_constraints` (lines 178-193). -/
def sha256_message_schedule_gadget.generate_r1cs_constraints {F : Type} [Field F]
    (g : sha256_message_schedule_gadget F) (pb : protoboard F) : protoboard F :=
  let pb := redshift_prover.pure_loop 0 16
    (fun i pb => (pointee g.components.packing_gadget (g.pack_W i)).generate_r1cs_constraints pb)
    pb
  redshift_prover.pure_loop 16 64
    (fun i pb =>
      let pb :=
        (pointee g.components.small_sigma_gadget (g.compute_sigma0 i)).generate_r1cs_constraints
          pb
      let pb :=
        (pointee g.components.small_sigma_gadget (g.compute_sigma1 i)).generate_r1cs_constraints
          pb
      let pb := add_r1cs_constraint pb (g.W_constraint i)
      (pointee g.components.lastbits_gadget (g.mod_reduce_W i)).generate_r1cs_constraints pb)
    pb

/-- The method `generate_r1cs_witness` (lines 195-209). -/
def sha256_message_schedule_gadget.generate_r1cs_witness {F : Type} [Field F]
    (g : sha256_message_schedule_gadget F) (pb : protoboard F) : protoboard F :=
  let pb := redshift_prover.pure_loop 0 16
    (fun i pb => (pointee g.components.packing_gadget (g.pack_W i)).generate_r1cs_witness pb)
    pb
  redshift_prover.pure_loop 16 64
    (fun i pb =>
      let pb :=
        (pointee g.components.small_sigma_gadget (g.compute_sigma0 i)).generate_r1cs_witness pb
      let pb :=
        (pointee g.components.small_sigma_gadget (g.compute_sigma1 i)).generate_r1cs_witness pb
      let pb := set_val pb (g.unreduced_W i)
        (unreduced_W_sum (pb.val (g.sigma0 i)) (pb.val (g.sigma1 i))
          (pb.val (g.packed_W.getD (i - 16) 0)) (pb.val (g.packed_W.getD (i - 7) 0)))
      (pointee g.components.lastbits_gadget (g.mod_reduce_W i)).generate_r1cs_witness pb)
    pb

end sha256_components

namespace samples

/-- Components over `Fp` for the message schedule: a packing component allocates nothing, a
sigma component allocates one variable, a reducing component allocates two; none adds a
constraint or changes the assignment. -/
def schedule_components_sample : sha256_components.schedule_components Fp where
  packing_gadget := fun _ => { allocates := 0, constraints := [], witness := fun val => val }
  small_sigma_gadget := fun _ =>
    { allocates := 1, constraints := [], witness := fun val => val }
  lastbits_gadget := fun _ => { allocates := 2, constraints := [], witness := fun val => val }

/-- A block of 512 variables, of indices `1, ..., 512`. -/
def block_variables : List Nat := (List.range 512).map (fun k => k + 1)

/-- The 64 variables of the packed words, of indices `513, ..., 576`. -/
def packed_variables : List Nat := (List.range 64).map (fun k => k + 513)

/-- A protoboard on which the variables `1, ..., 576` are allocated. -/
def schedule_protoboard : sha256_components.protoboard Fp where
  next_free_var := 577
  val := fun _ => 0
  constraints := []

end samples

/-! ### A circuit of three wires and four rows -/

namespace samples

/-- Preprocessed data for three wires with the identity permutation
(`S_id == S_sigma`) and one gate. -/
def scenario_data : redshift_prover.preprocessed_data_type Fp (List Fp) where
  omega := 3
  permutations := [[0, 1], [0, 2], [0, 3]]
  identity_permutations := [[0, 1], [0, 2], [0, 3]]
  selectors := [[1]]
  constraints := [[0, 0, 0, 1]]
  Z := [6, 0, 0, 0, 1]

/-- An assignment of four rows to three wires, with `w0 + w1 = w2` on every row. -/
def scenario_assignments : List (List Fp) := [[1, 2, 3, 4], [2, 3, 4, 5], [3, 5, 0, 2]]

/-- The run of `process` on `scenario_data` with three wires, `k = 1`, the assignment
`scenario_assignments` (each wire polynomial has the four values as coefficients) and no public
input; the uninitialised `n_i` holds `1` and `d_i_j` holds `0`. -/
def scenario_run : Except redshift_prover.undefined_behaviour
    (redshift_prover.locals Fp (List Fp) (List Fp) Fp (List Fp) Fp) :=
  redshift_prover.process_run 3 1 dense evaluations_commitment running_transcript
    (fun _ => 1) (fun _ _ => 0) scenario_data (fun assignments => assignments)
    scenario_assignments []

end samples

/-! ## Part II. Theorems -/

/-! ### The sequential transcripts -/

namespace fiat_shamir_heuristic_sequential

theorem step_fed {B : Type} (h : hash_type B) (t : transcript B) (c : call B) :
    step h t c.fed = step h t c := by
  cases c <;> rfl

theorem run_congr_fed {B : Type} (h : hash_type B) (calls1 calls2 : List (call B))
    (hfed : calls1.map call.fed = calls2.map call.fed) (t : transcript B) :
    run h t calls1 = run h t calls2 := by
  induction calls1 generalizing calls2 t with
  | nil =>
    cases calls2 with
    | nil => rfl
    | cons c cs => simp at hfed
  | cons c cs ih =>
    cases calls2 with
    | nil => simp at hfed
    | cons c2 cs2 =>
      simp only [List.map_cons, List.cons.injEq] at hfed
      have hstep : step h t c = step h t c2 := by
        rw [← step_fed h t c, ← step_fed h t c2, hfed.1]
      simp only [run, hstep]
      rw [ih cs2 hfed.2]

end fiat_shamir_heuristic_sequential

namespace fiat_shamir_heuristic_sequential_poseidon

theorem poseidon_step_fed {F B : Type} [Zero F] (h : hash_type F) (t : transcript F) (c : call F B) :
    step h t c.fed = step h t c := by
  cases c <;> rfl

theorem poseidon_run_congr_fed {F B : Type} [Zero F] (h : hash_type F) (calls1 calls2 : List (call F B))
    (hfed : calls1.map call.fed = calls2.map call.fed) (t : transcript F) :
    run h t calls1 = run h t calls2 := by
  induction calls1 generalizing calls2 t with
  | nil =>
    cases calls2 with
    | nil => rfl
    | cons c cs => simp at hfed
  | cons c cs ih =>
    cases calls2 with
    | nil => simp at hfed
    | cons c2 cs2 =>
      simp only [List.map_cons, List.cons.injEq] at hfed
      have hstep : step h t c = step h t c2 := by
        rw [← poseidon_step_fed h t c, ← poseidon_step_fed h t c2, hfed.1]
      simp only [run, hstep]
      cases step h t c2 with
      | error e => rfl
      | ok r => simp only [ih cs2 hfed.2]

end fiat_shamir_heuristic_sequential_poseidon

/-- C1. Determinism of the sequential transcripts: two transcripts constructed independently
with the same constructor arguments and fed the same sequence of absorbed inputs and
derivation requests give the same replies (hence the same challenge sequences) and end in the
same state, for every hash function, in the byte-oriented and in the Poseidon variant. -/
theorem sequential_transcripts_deterministic {B F R : Type} [Zero F]
    (h : fiat_shamir_heuristic_sequential.hash_type B)
    (hp : fiat_shamir_heuristic_sequential_poseidon.hash_type F)
    (args : fiat_shamir_heuristic_sequential.constructor_call B)
    (pargs : fiat_shamir_heuristic_sequential_poseidon.constructor_call F)
    (t1 t2 : fiat_shamir_heuristic_sequential.transcript B)
    (pt1 pt2 : fiat_shamir_heuristic_sequential_poseidon.transcript F)
    (calls1 calls2 : List (fiat_shamir_heuristic_sequential.call B))
    (pcalls1 pcalls2 : List (fiat_shamir_heuristic_sequential_poseidon.call F R))
    (ht1 : t1 = fiat_shamir_heuristic_sequential.construct h args)
    (ht2 : t2 = fiat_shamir_heuristic_sequential.construct h args)
    (hpt1 : pt1 = fiat_shamir_heuristic_sequential_poseidon.construct hp pargs)
    (hpt2 : pt2 = fiat_shamir_heuristic_sequential_poseidon.construct hp pargs)
    (hfed : calls1.map fiat_shamir_heuristic_sequential.call.fed
      = calls2.map fiat_shamir_heuristic_sequential.call.fed)
    (hpfed : pcalls1.map fiat_shamir_heuristic_sequential_poseidon.call.fed
      = pcalls2.map fiat_shamir_heuristic_sequential_poseidon.call.fed) :
    fiat_shamir_heuristic_sequential.run h t1 calls1
      = fiat_shamir_heuristic_sequential.run h t2 calls2
    ∧ fiat_shamir_heuristic_sequential_poseidon.run hp pt1 pcalls1
      = fiat_shamir_heuristic_sequential_poseidon.run hp pt2 pcalls2 := by
  subst ht1 ht2 hpt1 hpt2
  exact ⟨fiat_shamir_heuristic_sequential.run_congr_fed h calls1 calls2 hfed _,
    fiat_shamir_heuristic_sequential_poseidon.poseidon_run_congr_fed hp pcalls1 pcalls2 hpfed _⟩

/-- Witness for C1: two runs over the sample collaborators that absorb the same inputs through
different overloads. -/
theorem sequential_transcripts_deterministic_witness :
    fiat_shamir_heuristic_sequential.run samples.byte_hash
        (fiat_shamir_heuristic_sequential.construct samples.byte_hash (.range [1, 2]))
        [.absorb_range [3, 4], .challenge 97, .absorb_iterators [5], .challenges 97 2]
      = fiat_shamir_heuristic_sequential.run samples.byte_hash
        (fiat_shamir_heuristic_sequential.construct samples.byte_hash (.range [1, 2]))
        [.absorb_iterators [3, 4], .challenge 97, .absorb_range [5], .challenges 97 2]
    ∧ fiat_shamir_heuristic_sequential_poseidon.run samples.poseidon
        (fiat_shamir_heuristic_sequential_poseidon.construct samples.poseidon .default)
        ([.absorb 3, .challenge, .absorb 5, .challenges 2] :
          List (fiat_shamir_heuristic_sequential_poseidon.call (ZMod 7) Nat))
      = fiat_shamir_heuristic_sequential_poseidon.run samples.poseidon
        (fiat_shamir_heuristic_sequential_poseidon.construct samples.poseidon .default)
        ([.absorb 3, .challenge, .absorb 5, .challenges 2] :
          List (fiat_shamir_heuristic_sequential_poseidon.call (ZMod 7) Nat)) :=
  sequential_transcripts_deterministic samples.byte_hash samples.poseidon (.range [1, 2])
    .default _ _ _ _ _ _ _ _ rfl rfl rfl rfl (by decide) (by decide)

/-- C4. In the Poseidon transcript, absorbing the digest `x` in state `s` leaves the state
`pair_hash(x, pair_hash(s, s))`, where `pair_hash(a, b)` is the element of index 2 of the
permutation applied to the state `(0, a, b)`. -/
theorem poseidon_absorb_state {F : Type} [Zero F]
    (h : fiat_shamir_heuristic_sequential_poseidon.hash_type F) (s x : F) :
    (fiat_shamir_heuristic_sequential_poseidon.absorb h { state := s } x).state
      = fiat_shamir_heuristic_sequential_poseidon.pair_hash h x
          (fiat_shamir_heuristic_sequential_poseidon.pair_hash h s s)
    ∧ ∀ a b : F, fiat_shamir_heuristic_sequential_poseidon.pair_hash h a b
        = (h.permute (0, a, b)).2.2 :=
  ⟨rfl, fun _ _ => rfl⟩

/-- C5. In the Poseidon transcript, `challenge<Field>()` called in state `s` sets the state to
`pair_hash(s, s)` and returns exactly that new state. -/
theorem poseidon_challenge_state {F : Type} [Zero F]
    (h : fiat_shamir_heuristic_sequential_poseidon.hash_type F) (s : F) :
    (fiat_shamir_heuristic_sequential_poseidon.challenge h { state := s }).2.state
      = fiat_shamir_heuristic_sequential_poseidon.pair_hash h s s
    ∧ (fiat_shamir_heuristic_sequential_poseidon.challenge h { state := s }).1
      = (fiat_shamir_heuristic_sequential_poseidon.challenge h { state := s }).2.state :=
  ⟨rfl, rfl⟩

/-- C6. In the byte-oriented transcript, absorbing the input `r` in state `s` sets the state to
the hash of the bytes of `s` followed by `r`, and the iterator-pair overload gives the same
transcript as the range overload for the same byte sequence. -/
theorem byte_absorb_state {B : Type} (h : fiat_shamir_heuristic_sequential.hash_type B)
    (s r : List B) :
    (fiat_shamir_heuristic_sequential.absorb_range h { state := s } r).state = h.hash (s ++ r)
    ∧ fiat_shamir_heuristic_sequential.absorb_iterators h { state := s } r
      = fiat_shamir_heuristic_sequential.absorb_range h { state := s } r :=
  ⟨rfl, rfl⟩

/-- C7. In the byte-oriented transcript, `challenge<Field>()` called in state `s`, for a field
of characteristic `p`, sets the state to `hash(s)` and returns the integer packed from that
digest reduced modulo `p`: a canonical field element, equal to the packed integer itself when
that is below `p`. -/
theorem byte_challenge_value {B : Type} (h : fiat_shamir_heuristic_sequential.hash_type B)
    (p : Nat) (s : List B) (hpos : 0 < p) :
    (fiat_shamir_heuristic_sequential.challenge h p { state := s }).2.state = h.hash s
    ∧ (fiat_shamir_heuristic_sequential.challenge h p { state := s }).1
      = h.pack (h.hash s) % p
    ∧ (fiat_shamir_heuristic_sequential.challenge h p { state := s }).1 < p
    ∧ (h.pack (h.hash s) < p →
        (fiat_shamir_heuristic_sequential.challenge h p { state := s }).1
          = h.pack (h.hash s)) :=
  ⟨rfl, rfl, Nat.mod_lt _ hpos, fun hlt => Nat.mod_eq_of_lt hlt⟩

/-- Witness for C7: the sample hash in state `[1, 2]`, once with a characteristic below the
packed digest and once above it. -/
theorem byte_challenge_value_witness :
    (0 < 97
      ∧ (fiat_shamir_heuristic_sequential.challenge samples.byte_hash 97 { state := [1, 2] }).1
        = 11)
    ∧ (fiat_shamir_heuristic_sequential.challenge samples.byte_hash 65537
        { state := [1, 2] }).1 = 49675 :=
  ⟨⟨by decide, ((byte_challenge_value samples.byte_hash 97 [1, 2] (by decide)).2.1).trans
      (by decide)⟩,
    ((byte_challenge_value samples.byte_hash 65537 [1, 2] (by decide)).2.2.2
      (by decide)).trans (by decide)⟩

/-! ### The Redshift prover -/

namespace redshift_prover

theorem bind_eq_ok {ε α β : Type} (x : Except ε α) (f : α → Except ε β) (b : β) :
    (x >>= f) = .ok b ↔ ∃ a, x = .ok a ∧ f a = .ok b := by
  cases x with
  | error e => simp [bind, Except.bind]
  | ok a => simp [bind, Except.bind]

theorem at_index_eq_ok {α : Type} (v : vector_name) (xs : List α) (i : Nat) (x : α) :
    at_index v xs i = .ok x ↔ xs[i]? = some x := by
  unfold at_index
  cases h : xs[i]? with
  | none => simp
  | some y => simp

/-- Invariants of a `for` loop: a property that holds on entry and is carried by every
iteration that completes holds when the loop completes. -/
theorem foldlM_range_invariant {σ : Type} (Inv : Nat → σ → Prop)
    (body : Nat → σ → Except undefined_behaviour σ) (count : Nat) :
    ∀ (lo : Nat) (s s1 : σ), Inv lo s →
      (∀ i t t1, lo ≤ i → i < lo + count → Inv i t → body i t = .ok t1 → Inv (i + 1) t1) →
      (List.range' lo count).foldlM (fun s i => body i s) s = .ok s1 → Inv (lo + count) s1 := by
  induction count with
  | zero =>
    intro lo s s1 h0 _ hrun
    simp only [List.range'_zero, List.foldlM_nil, pure, Except.pure, Except.ok.injEq] at hrun
    subst hrun
    simpa using h0
  | succ c ih =>
    intro lo s s1 h0 hstep hrun
    rw [List.range'_succ, List.foldlM_cons, bind_eq_ok] at hrun
    obtain ⟨t, ht, hrest⟩ := hrun
    have h1 : Inv (lo + 1) t := hstep lo s t (Nat.le_refl _) (by omega) h0 ht
    have h2 := ih (lo + 1) t s1 h1
      (fun i u u1 hi hlt => hstep i u u1 (by omega) (by omega)) hrest
    have e : lo + 1 + c = lo + (c + 1) := by omega
    rw [e] at h2
    exact h2

theorem for_loop_invariant {σ : Type} (Inv : Nat → σ → Prop)
    (body : Nat → σ → Except undefined_behaviour σ) (lo hi : Nat) (hle : lo ≤ hi) (s s1 : σ)
    (h0 : Inv lo s)
    (hstep : ∀ i t t1, lo ≤ i → i < hi → Inv i t → body i t = .ok t1 → Inv (i + 1) t1)
    (hrun : for_loop lo hi body s = .ok s1) : Inv hi s1 := by
  have h := foldlM_range_invariant Inv body (hi - lo) lo s s1 h0
    (fun i t t1 hi1 hlt => hstep i t t1 hi1 (by omega)) hrun
  have e : lo + (hi - lo) = hi := by omega
  rw [e] at h
  exact h

/-- The loop of lines 102-106, when it completes, has read `w[0], ..., w[N_wires - 1]` and has
appended to the record the absorption of each `root(commit(w[i], D_0))`, in increasing order. -/
theorem wire_loop_log {F Poly Tree D LProof TS : Type}
    (L : list_polynomial_commitment_scheme F Poly Tree D LProof)
    (FS : fiat_shamir_heuristic TS D F) (w : List Poly) (D_0 : List F) (dflt : Poly)
    (N_wires : Nat) (t0 : transcript TS D) (s1 : wire_loop_state Tree D TS)
    (hrun : for_loop 0 N_wires (wire_loop_body L FS w D_0)
      { w_trees := [], w_commitments := [], transcript := t0 } = .ok s1) :
    N_wires ≤ w.length
    ∧ s1.w_commitments = (List.range N_wires).map (fun i => L.root (L.commit (w.getD i dflt) D_0))
    ∧ s1.transcript.log = t0.log ++ (List.range N_wires).map
        (fun i => event.absorb (.w i) (L.root (L.commit (w.getD i dflt) D_0))) := by
  have h := for_loop_invariant
    (fun i (s : wire_loop_state Tree D TS) =>
      i ≤ w.length ∧ s.w_trees.length = i
      ∧ s.w_commitments = (List.range i).map (fun i => L.root (L.commit (w.getD i dflt) D_0))
      ∧ s.transcript.log = t0.log ++ (List.range i).map
          (fun i => event.absorb (.w i) (L.root (L.commit (w.getD i dflt) D_0))))
    (wire_loop_body L FS w D_0) 0 N_wires (Nat.zero_le _) _ s1
    (by simp) ?_ hrun
  · exact ⟨h.1, h.2.2.1, h.2.2.2⟩
  · intro i t t1 _ _ hinv hbody
    obtain ⟨_, htrees, hcomms, hlog⟩ := hinv
    simp only [wire_loop_body, bind_eq_ok, at_index_eq_ok, pure, Except.pure,
      Except.ok.injEq] at hbody
    obtain ⟨w_i, hwi, tree, htree, c, hc, ht1⟩ := hbody
    have hlt : i < w.length := by
      rcases Nat.lt_or_ge i w.length with hlt | hge
      · exact hlt
      · rw [List.getElem?_eq_none hge] at hwi
        exact absurd hwi (by simp)
    have hget : w.getD i dflt = w_i := by
      rw [List.getD_eq_getElem?_getD, hwi]
      rfl
    have htree1 : tree = L.commit w_i D_0 := by
      rw [← htrees, List.getElem?_concat_length] at htree
      exact (Option.some.inj htree).symm
    have hclen : t.w_commitments.length = i := by
      rw [hcomms]
      simp
    have hc1 : c = L.root (L.commit w_i D_0) := by
      rw [← hclen, List.getElem?_concat_length, htree1] at hc
      exact (Option.some.inj hc).symm
    subst ht1
    refine ⟨hlt, ?_, ?_, ?_⟩
    · simp [htrees]
    · simp only [List.range_succ, List.map_append, List.map_cons, List.map_nil, hget, hcomms,
        htree1]
    · simp only [transcript.absorb, hlog, List.range_succ, List.map_append, List.map_cons,
        List.map_nil, hget, hc1, List.append_assoc]

/-- The record of transcript calls of a completed run of `process`: the absorptions of the
wire commitments in wire order, then the fixed sequence of the remaining rounds. -/
theorem process_run_log {F Poly Tree D LProof TS : Type} [Field F] (WiresAmount k : Nat)
    (P : polynomial_ops F Poly) (L : list_polynomial_commitment_scheme F Poly Tree D LProof)
    (FS : fiat_shamir_heuristic TS D F) (n_i : Nat → Nat) (d_i_j : Nat → Nat → Nat)
    (preprocessed_data : preprocessed_data_type F Poly)
    (polynoms : List (List F) → List Poly) (assignments : List (List F)) (PI : List F)
    (r : locals F Poly Tree D LProof TS)
    (hrun : process_run WiresAmount k P L FS n_i d_i_j preprocessed_data polynoms
      assignments PI = .ok r) :
    WiresAmount ≤ r.w.length ∧ r.w = polynoms assignments
    ∧ r.transcript.log
      = (List.range WiresAmount).map
          (fun i => event.absorb (.w i) (L.root (L.commit (r.w.getD i P.empty) r.D_0)))
        ++ [.get_challenge .beta, .get_challenge .gamma,
            .absorb .V_P (L.root (L.commit P.empty r.D_0)), .get_challenge .teta,
            .absorb .A1 (L.root (L.commit P.empty r.D_0)),
            .absorb .S1 (L.root (L.commit P.empty r.D_0)),
            .absorb .P (L.root (L.commit P.empty r.D_0)),
            .absorb .Q (L.root (L.commit P.empty r.D_0)),
            .absorb .V (L.root (L.commit P.empty r.D_0)),
            .get_challenges .alpha 11, .get_challenge .tau, .get_challenge .upsilon] := by
  simp only [process_run, bind_eq_ok] at hrun
  obtain ⟨wires, hw, h2⟩ := hrun
  split at h2
  · simp only [pure_bind, bind_eq_ok] at h2
    obtain ⟨gh, _, pq, _, gt, _, F_, _, tc, _, tp, _, hr⟩ := h2
    simp only [pure, Except.pure, Except.ok.injEq] at hr
    have hwl := wire_loop_log L FS _ _ P.empty _ _ _ hw
    subst hr
    simp only [transcript.get_challenge, transcript.get_challenges, transcript.absorb]
    refine ⟨hwl.1, trivial, ?_⟩
    rw [hwl.2.2]
    simp only [List.nil_append, List.append_assoc, List.cons_append]
  · rw [bind_eq_ok] at h2
    obtain ⟨_, h, _⟩ := h2
    cases h

theorem derived_challenges_append {D : Type} (l1 l2 : List (event D)) :
    derived_challenges (l1 ++ l2) = derived_challenges l1 ++ derived_challenges l2 := by
  induction l1 with
  | nil => rfl
  | cons e es ih =>
    change derived_challenges (e :: (es ++ l2)) = _
    simp only [derived_challenges, ih, List.append_assoc]

theorem derived_challenges_absorptions {D ι : Type} (c : ι → committed) (d : ι → D)
    (l : List ι) :
    derived_challenges (l.map (fun i => event.absorb (c i) (d i))) = [] := by
  induction l with
  | nil => rfl
  | cons e es ih => simp only [List.map_cons, derived_challenges, event.derived, ih,
      List.append_nil]

theorem absorbed_before_absorptions {D ι : Type} (id : challenges_ids) (c : ι → committed)
    (d : ι → D) (l : List ι) (rest : List (event D)) :
    absorbed_before id (l.map (fun i => event.absorb (c i) (d i)) ++ rest)
      = (absorbed_before id rest).map (fun a => l.map (fun i => (c i, d i)) ++ a) := by
  induction l with
  | nil => simp
  | cons e es ih =>
    change absorbed_before id
      (event.absorb (c e) (d e) :: (es.map (fun i => event.absorb (c i) (d i)) ++ rest)) = _
    simp only [absorbed_before, ih, Option.map_map, List.map_cons, List.cons_append]
    rfl

theorem isOk_elim {ε α : Type} (x : Except ε α) (h : x.isOk = true) : ∃ a, x = .ok a := by
  cases x with
  | error e => cases h
  | ok a => exact ⟨a, rfl⟩

/-- The quotient-piece loop of lines 299-302, when it completes, has pushed one tree and one
commitment per iteration. -/
theorem T_commit_loop_length {F Poly Tree D LProof : Type}
    (L : list_polynomial_commitment_scheme F Poly Tree D LProof) (T : List Poly)
    (D_0 : List F) (count : Nat) (s1 : List Tree × List D)
    (hrun : for_loop 0 count (T_commit_body L T D_0) ([], []) = .ok s1) :
    s1.1.length = count ∧ s1.2.length = count := by
  refine for_loop_invariant
    (fun i (s : List Tree × List D) => s.1.length = i ∧ s.2.length = i)
    (T_commit_body L T D_0) 0 count (Nat.zero_le _) _ s1 (by simp) ?_ hrun
  intro i t t1 _ _ hinv hbody
  simp only [T_commit_body, bind_eq_ok, pure, Except.pure, Except.ok.injEq] at hbody
  obtain ⟨_, _, _, _, ht1⟩ := hbody
  subst ht1
  simp [hinv.1, hinv.2]

/-- In a completed run, `T_consolidated` is the library quotient of `F_consolidated` by `Z`,
and there are `N_perm + 1` quotient commitments. -/
theorem process_run_quotient {F Poly Tree D LProof TS : Type} [Field F] (WiresAmount k : Nat)
    (P : polynomial_ops F Poly) (L : list_polynomial_commitment_scheme F Poly Tree D LProof)
    (FS : fiat_shamir_heuristic TS D F) (n_i : Nat → Nat) (d_i_j : Nat → Nat → Nat)
    (preprocessed_data : preprocessed_data_type F Poly)
    (polynoms : List (List F) → List Poly) (assignments : List (List F)) (PI : List F)
    (r : locals F Poly Tree D LProof TS)
    (hrun : process_run WiresAmount k P L FS n_i d_i_j preprocessed_data polynoms
      assignments PI = .ok r) :
    r.T_consolidated = P.div r.F_consolidated preprocessed_data.Z
    ∧ r.T_commitments.length = preprocessed_data.permutations.length + 1
    ∧ r.proof.T_commitments = r.T_commitments := by
  simp only [process_run, bind_eq_ok] at hrun
  obtain ⟨wires, _, h2⟩ := hrun
  split at h2
  · simp only [pure_bind, bind_eq_ok] at h2
    obtain ⟨gh, _, pq, _, gt, _, F_, _, tc, htc, tp, _, hr⟩ := h2
    simp only [pure, Except.pure, Except.ok.injEq] at hr
    have hlen := T_commit_loop_length L _ _ _ _ htc
    subst hr
    exact ⟨rfl, hlen.2, rfl⟩
  · rw [bind_eq_ok] at h2
    obtain ⟨_, h, _⟩ := h2
    cases h

/-- In every completed run of `process`, the challenge slots derived from the transcript are,
in order, beta, gamma, theta, alpha[0], ..., alpha[10], tau, upsilon, each exactly once. -/
theorem challenges_derived_once_in_order {F Poly Tree D LProof TS : Type} [Field F]
    (WiresAmount k : Nat) (P : polynomial_ops F Poly)
    (L : list_polynomial_commitment_scheme F Poly Tree D LProof)
    (FS : fiat_shamir_heuristic TS D F) (n_i : Nat → Nat) (d_i_j : Nat → Nat → Nat)
    (preprocessed_data : preprocessed_data_type F Poly)
    (polynoms : List (List F) → List Poly) (assignments : List (List F)) (PI : List F)
    (r : locals F Poly Tree D LProof TS)
    (hrun : process_run WiresAmount k P L FS n_i d_i_j preprocessed_data polynoms
      assignments PI = .ok r) :
    derived_challenges r.transcript.log
      = [(.beta, 0), (.gamma, 0), (.teta, 0)]
        ++ (List.range 11).map (fun i => (challenges_ids.alpha, i))
        ++ [(.tau, 0), (.upsilon, 0)]
    ∧ (derived_challenges r.transcript.log).Nodup := by
  have hlog := (process_run_log WiresAmount k P L FS n_i d_i_j preprocessed_data polynoms
    assignments PI r hrun).2.2
  have h : derived_challenges r.transcript.log
      = [(.beta, 0), (.gamma, 0), (.teta, 0)]
        ++ (List.range 11).map (fun i => (challenges_ids.alpha, i))
        ++ [(.tau, 0), (.upsilon, 0)] := by
    rw [hlog, derived_challenges_append, derived_challenges_absorptions]
    rfl
  refine ⟨h, ?_⟩
  rw [h]
  decide

theorem ok_bind {ε α β : Type} (a : α) (f : α → Except ε β) :
    (Except.ok a >>= f) = f a := rfl

theorem error_bind {ε α β : Type} (e : ε) (f : α → Except ε β) :
    ((Except.error e : Except ε α) >>= f) = .error e := rfl

/-- A loop completes when each iteration completes from every state that the invariant
allows, and the invariant then holds at the end. -/
theorem foldlM_range_total {σ : Type} (Inv : Nat → σ → Prop)
    (body : Nat → σ → Except undefined_behaviour σ) (count : Nat) :
    ∀ (lo : Nat) (s : σ), Inv lo s →
      (∀ i t, lo ≤ i → i < lo + count → Inv i t → ∃ t1, body i t = .ok t1 ∧ Inv (i + 1) t1) →
      ∃ s1, (List.range' lo count).foldlM (fun s i => body i s) s = .ok s1
        ∧ Inv (lo + count) s1 := by
  induction count with
  | zero =>
    intro lo s h0 _
    exact ⟨s, rfl, by simpa using h0⟩
  | succ c ih =>
    intro lo s h0 hstep
    obtain ⟨t1, hb, hinv⟩ := hstep lo s (Nat.le_refl lo) (by omega) h0
    obtain ⟨s1, hrun, hend⟩ := ih (lo + 1) t1 hinv
      (fun i t h1 h2 => hstep i t (by omega) (by omega))
    refine ⟨s1, ?_, ?_⟩
    · rw [List.range'_succ, List.foldlM_cons, hb]
      exact hrun
    · have e : lo + (c + 1) = lo + 1 + c := by omega
      rw [e]
      exact hend

/-- The totality rule for `for_loop`. -/
theorem for_loop_total {σ : Type} (Inv : Nat → σ → Prop)
    (body : Nat → σ → Except undefined_behaviour σ) (lo hi : Nat) (hle : lo ≤ hi) (s : σ)
    (h0 : Inv lo s)
    (hstep : ∀ i t, lo ≤ i → i < hi → Inv i t → ∃ t1, body i t = .ok t1 ∧ Inv (i + 1) t1) :
    ∃ s1, for_loop lo hi body s = .ok s1 ∧ Inv hi s1 := by
  have h := foldlM_range_total Inv body (hi - lo) lo s h0
    (fun i t h1 h2 => hstep i t h1 (by omega))
  have e : lo + (hi - lo) = hi := by omega
  rw [e] at h
  exact h

/-- A loop that completes has completed each of its iterations. -/
theorem foldlM_range_body_ok {σ : Type} (body : Nat → σ → Except undefined_behaviour σ)
    (count : Nat) :
    ∀ (lo : Nat) (s s1 : σ),
      (List.range' lo count).foldlM (fun s i => body i s) s = .ok s1 →
      ∀ i, lo ≤ i → i < lo + count → ∃ t t1, body i t = .ok t1 := by
  induction count with
  | zero =>
    intro lo s s1 _ i h1 h2
    omega
  | succ c ih =>
    intro lo s s1 hrun i h1 h2
    rw [List.range'_succ, List.foldlM_cons, bind_eq_ok] at hrun
    obtain ⟨t1, hb, hrest⟩ := hrun
    rcases Nat.eq_or_lt_of_le h1 with h | h
    · subst h
      exact ⟨s, t1, hb⟩
    · exact ih (lo + 1) t1 s1 hrest i (by omega) (by omega)

theorem concat_getElem_of_length {α : Type} (l : List α) (i : Nat) (a : α)
    (h : l.length = i) : (l ++ [a])[i]? = some a := by
  subst h
  exact List.getElem?_concat_length l a

/-- The loop of lines 102-106 completes when `w` holds a polynomial for every wire, and the
state of the transcript is then the one reached by absorbing the wire commitments in
order. -/
theorem wire_loop_total {F Poly Tree D LProof TS : Type}
    (L : list_polynomial_commitment_scheme F Poly Tree D LProof)
    (FS : fiat_shamir_heuristic TS D F) (w : List Poly) (D_0 : List F) (dflt : Poly)
    (N_wires : Nat) (t0 : transcript TS D) (hw : N_wires ≤ w.length) :
    ∃ s1, for_loop 0 N_wires (wire_loop_body L FS w D_0)
        { w_trees := [], w_commitments := [], transcript := t0 } = .ok s1
      ∧ s1.transcript.st
        = ((List.range N_wires).map (fun i => L.root (L.commit (w.getD i dflt) D_0))).foldl
            FS.absorb t0.st := by
  have h := for_loop_total
    (fun i (s : wire_loop_state Tree D TS) =>
      s.w_trees.length = i ∧ s.w_commitments.length = i
      ∧ s.transcript.st
        = ((List.range i).map (fun i => L.root (L.commit (w.getD i dflt) D_0))).foldl
            FS.absorb t0.st)
    (wire_loop_body L FS w D_0) 0 N_wires (Nat.zero_le _)
    { w_trees := [], w_commitments := [], transcript := t0 }
    ⟨rfl, rfl, rfl⟩ ?_
  · obtain ⟨s1, hrun, hinv⟩ := h
    exact ⟨s1, hrun, hinv.2.2⟩
  · intro i t _ hlt hinv
    obtain ⟨htrees, hcomms, hst⟩ := hinv
    have hlt1 : i < w.length := by omega
    have hwi : w[i]? = some (w.getD i dflt) := by
      rw [List.getD_eq_getElem?_getD, List.getElem?_eq_getElem hlt1]
      rfl
    refine ⟨{ w_trees := t.w_trees ++ [L.commit (w.getD i dflt) D_0],
              w_commitments := t.w_commitments ++ [L.root (L.commit (w.getD i dflt) D_0)],
              transcript := t.transcript.absorb FS (.w i)
                (L.root (L.commit (w.getD i dflt) D_0)) }, ?_, ?_⟩
    · simp only [wire_loop_body, at_index, hwi, concat_getElem_of_length _ _ _ htrees,
        concat_getElem_of_length _ _ _ hcomms, ok_bind]
      rfl
    · refine ⟨by simp [htrees], by simp [hcomms], ?_⟩
      simp only [transcript.absorb, hst, List.range_succ, List.map_append, List.map_cons,
        List.map_nil, List.foldl_append, List.foldl_cons, List.foldl_nil]

/-- The locals after line 115, from the state in which the loop of lines 102-106 ends. -/
theorem process_until_gamma_of_wires {F Poly Tree D LProof TS : Type} [Field F]
    (WiresAmount : Nat) (L : list_polynomial_commitment_scheme F Poly Tree D LProof)
    (FS : fiat_shamir_heuristic TS D F) (preprocessed_data : preprocessed_data_type F Poly)
    (polynoms : List (List F) → List Poly) (assignments : List (List F)) (PI : List F)
    (wires : wire_loop_state Tree D TS)
    (hw : for_loop 0 WiresAmount
      (wire_loop_body L FS (polynoms assignments)
        (pure_loop 1
          (assignments.foldl (fun n wire_assignments => max n wire_assignments.length) 0 + 1)
          (fun power D_0 => D_0 ++ [preprocessed_data.omega ^ power])
          (List.replicate
            (assignments.foldl (fun n wire_assignments => max n wire_assignments.length) 0) 0)))
      { w_trees := [], w_commitments := [], transcript := { st := FS.init, log := [] } }
      = .ok wires) :
    process_until_gamma WiresAmount L FS preprocessed_data polynoms assignments PI
      = .ok { N_perm := preprocessed_data.permutations.length, N_PI := PI.length,
              n := assignments.foldl
                (fun n wire_assignments => max n wire_assignments.length) 0,
              D_0 := pure_loop 1
                (assignments.foldl
                  (fun n wire_assignments => max n wire_assignments.length) 0 + 1)
                (fun power D_0 => D_0 ++ [preprocessed_data.omega ^ power])
                (List.replicate
                  (assignments.foldl
                    (fun n wire_assignments => max n wire_assignments.length) 0) 0),
              w := polynoms assignments, w_trees := wires.w_trees,
              w_commitments := wires.w_commitments,
              transcript_before_beta := wires.transcript,
              beta := (wires.transcript.get_challenge FS .beta).1,
              gamma := ((wires.transcript.get_challenge FS .beta).2.get_challenge FS .gamma).1,
              transcript :=
                ((wires.transcript.get_challenge FS .beta).2.get_challenge FS .gamma).2 } := by
  simp only [process_until_gamma, hw, ok_bind]
  rfl

/-- A completed run of `process` has passed line 115 with the locals of
`process_until_gamma`. -/
theorem process_run_until_gamma {F Poly Tree D LProof TS : Type} [Field F]
    (WiresAmount k : Nat) (P : polynomial_ops F Poly)
    (L : list_polynomial_commitment_scheme F Poly Tree D LProof)
    (FS : fiat_shamir_heuristic TS D F) (n_i : Nat → Nat) (d_i_j : Nat → Nat → Nat)
    (preprocessed_data : preprocessed_data_type F Poly)
    (polynoms : List (List F) → List Poly) (assignments : List (List F)) (PI : List F)
    (r : locals F Poly Tree D LProof TS)
    (hrun : process_run WiresAmount k P L FS n_i d_i_j preprocessed_data polynoms
      assignments PI = .ok r) :
    ∃ s, process_until_gamma WiresAmount L FS preprocessed_data polynoms assignments PI = .ok s
      ∧ r.beta = s.beta ∧ r.gamma = s.gamma ∧ r.w = s.w ∧ r.D_0 = s.D_0
      ∧ r.w_commitments = s.w_commitments ∧ r.w_trees = s.w_trees ∧ r.n = s.n := by
  simp only [process_run, bind_eq_ok] at hrun
  obtain ⟨wires, hw, h2⟩ := hrun
  split at h2
  · simp only [pure_bind, bind_eq_ok] at h2
    obtain ⟨gh, _, pq, _, gt, _, F_, _, tc, _, tp, _, hr⟩ := h2
    simp only [pure, Except.pure, Except.ok.injEq] at hr
    subst hr
    exact ⟨_, process_until_gamma_of_wires WiresAmount L FS preprocessed_data polynoms
      assignments PI wires hw, rfl, rfl, rfl, rfl, rfl, rfl, rfl⟩
  · rw [bind_eq_ok] at h2
    obtain ⟨_, h, _⟩ := h2
    cases h

/-- A run of `process` that reaches undefined behaviour before line 115 stops with that
undefined behaviour. -/
theorem process_run_stops_before_gamma {F Poly Tree D LProof TS : Type} [Field F]
    (WiresAmount k : Nat) (P : polynomial_ops F Poly)
    (L : list_polynomial_commitment_scheme F Poly Tree D LProof)
    (FS : fiat_shamir_heuristic TS D F) (n_i : Nat → Nat) (d_i_j : Nat → Nat → Nat)
    (preprocessed_data : preprocessed_data_type F Poly)
    (polynoms : List (List F) → List Poly) (assignments : List (List F)) (PI : List F)
    (e : undefined_behaviour)
    (hs : (process_until_gamma WiresAmount L FS preprocessed_data polynoms assignments PI :
      Except undefined_behaviour (gamma_locals F Poly Tree D TS)) = .error e) :
    (process_run WiresAmount k P L FS n_i d_i_j preprocessed_data polynoms assignments PI :
      Except undefined_behaviour (locals F Poly Tree D LProof TS)) = .error e := by
  simp only [process_until_gamma] at hs
  simp only [process_run]
  generalize for_loop 0 _ (wire_loop_body L FS _ _) _ = res at hs ⊢
  cases res with
  | error e1 =>
    simp only [error_bind] at hs ⊢
    cases hs
    rfl
  | ok wires =>
    simp only [ok_bind] at hs
    cases hs

/-- A run of `process` that passes line 115 and reaches undefined behaviour in lines 118-140
stops with that undefined behaviour. -/
theorem process_run_stops_in_rows {F Poly Tree D LProof TS : Type} [Field F]
    (WiresAmount k : Nat) (P : polynomial_ops F Poly)
    (L : list_polynomial_commitment_scheme F Poly Tree D LProof)
    (FS : fiat_shamir_heuristic TS D F) (n_i : Nat → Nat) (d_i_j : Nat → Nat → Nat)
    (preprocessed_data : preprocessed_data_type F Poly)
    (polynoms : List (List F) → List Poly) (assignments : List (List F)) (PI : List F)
    (s : gamma_locals F Poly Tree D TS) (e : undefined_behaviour)
    (hs : process_until_gamma WiresAmount L FS preprocessed_data polynoms assignments PI
      = .ok s)
    (he : permutation_rows P preprocessed_data s = .error e) :
    (process_run WiresAmount k P L FS n_i d_i_j preprocessed_data polynoms assignments PI :
      Except undefined_behaviour (locals F Poly Tree D LProof TS)) = .error e := by
  simp only [process_until_gamma, bind_eq_ok] at hs
  obtain ⟨wires, hw, hs⟩ := hs
  simp only [pure, Except.pure, Except.ok.injEq] at hs
  subst hs
  simp only [permutation_rows] at he
  simp only [process_run, hw, ok_bind]
  split at he
  · rename_i hle
    simp only [pure_bind] at he
    rw [if_pos hle]
    simp only [pure_bind]
    generalize for_loop 1 _ (gh_body P _ _ _ _ _ _ _ _) _ = res at he ⊢
    cases res with
    | error e1 =>
      simp only [error_bind] at he ⊢
      cases he
      rfl
    | ok gh =>
      simp only [ok_bind] at he
      cases he
  · rename_i hle
    rw [if_neg hle]
    simp only [error_bind] at he ⊢
    cases he
    rfl

/-- The rule `foldlM_range_body_ok` for `for_loop`. -/
theorem for_loop_body_ok {σ : Type} (body : Nat → σ → Except undefined_behaviour σ)
    (lo hi : Nat) (s s1 : σ) (hrun : for_loop lo hi body s = .ok s1) (i : Nat) (h1 : lo ≤ i)
    (h2 : i < hi) : ∃ t t1, body i t = .ok t1 :=
  foldlM_range_body_ok body (hi - lo) lo s s1 hrun i h1 (by omega)

/-- The loops of lines 132-140 read `f[j]` for every row `j`: when there are at least as many
rows as entries of `f`, and `f` is not empty, lines 118-140 reach undefined behaviour. -/
theorem permutation_rows_stop {F Poly Tree D TS : Type} [Field F] (P : polynomial_ops F Poly)
    (preprocessed_data : preprocessed_data_type F Poly) (s : gamma_locals F Poly Tree D TS)
    (hpos : 0 < s.N_perm + s.N_PI) (hrows : s.N_perm + s.N_PI ≤ s.n) :
    ∃ e, permutation_rows P preprocessed_data s = .error e := by
  cases h : permutation_rows P preprocessed_data s with
  | error e => exact ⟨e, rfl⟩
  | ok r =>
    exfalso
    simp only [permutation_rows] at h
    split at h
    · rename_i hle
      simp only [pure_bind, bind_eq_ok] at h
      obtain ⟨gh, hgh, _⟩ := h
      obtain ⟨t, t1, hb⟩ := for_loop_body_ok _ _ _ _ _ hgh (s.N_perm + s.N_PI) (by omega)
        (by omega)
      simp only [gh_body] at hb
      obtain ⟨u, u1, hi⟩ := for_loop_body_ok _ _ _ _ _ hb 0 (Nat.le_refl 0) hpos
      simp only [gh_inner_body, bind_eq_ok, at_index_eq_ok] at hi
      obtain ⟨f_j, hf, _⟩ := hi
      have hlen : (s.w ++ (List.replicate (s.N_perm + s.N_PI) P.empty).drop s.w.length).length
          = s.N_perm + s.N_PI := by
        simp only [List.length_append, List.length_drop, List.length_replicate] at hle ⊢
        omega
      rw [List.getElem?_eq_none (by rw [hlen])] at hf
      cases hf
    · rw [bind_eq_ok] at h
      obtain ⟨_, h, _⟩ := h
      cases h

/-- C8. Whenever `constraint_system.polynoms` gives a polynomial for each of the `WiresAmount`
wires, the run of `process` reaches the derivation of beta, whether or not it completes
afterwards, and at that point the transcript has been fed exactly the roots
`root(commit(w[i], D_0))` of the wires `i = 0, ..., WiresAmount - 1`, in increasing order: its
state is the initial state after these absorptions and no other, beta is the challenge
derived from that state, and the record of calls holds these absorptions only.  A run that
completes returns locals with this beta, these commitments and this `D_0`. -/
theorem wire_commitments_absorbed_before_beta {F Poly Tree D LProof TS : Type} [Field F]
    (WiresAmount k : Nat) (P : polynomial_ops F Poly)
    (L : list_polynomial_commitment_scheme F Poly Tree D LProof)
    (FS : fiat_shamir_heuristic TS D F) (n_i : Nat → Nat) (d_i_j : Nat → Nat → Nat)
    (preprocessed_data : preprocessed_data_type F Poly)
    (polynoms : List (List F) → List Poly) (assignments : List (List F)) (PI : List F)
    (hw : WiresAmount ≤ (polynoms assignments).length) :
    ∃ s : gamma_locals F Poly Tree D TS,
      process_until_gamma WiresAmount L FS preprocessed_data polynoms assignments PI = .ok s
      ∧ s.w = polynoms assignments
      ∧ s.w_commitments
        = (List.range WiresAmount).map (fun i => L.root (L.commit (s.w.getD i P.empty) s.D_0))
      ∧ s.transcript_before_beta.st = s.w_commitments.foldl FS.absorb FS.init
      ∧ s.transcript_before_beta.log
        = (List.range WiresAmount).map
            (fun i => event.absorb (.w i) (L.root (L.commit (s.w.getD i P.empty) s.D_0)))
      ∧ s.beta = (FS.get_challenge (s.w_commitments.foldl FS.absorb FS.init) .beta).1
      ∧ absorbed_before .beta s.transcript.log
        = some ((List.range WiresAmount).map
            (fun i => (committed.w i, L.root (L.commit (s.w.getD i P.empty) s.D_0))))
      ∧ ∀ r : locals F Poly Tree D LProof TS,
          process_run WiresAmount k P L FS n_i d_i_j preprocessed_data polynoms assignments PI
            = .ok r →
          r.beta = s.beta ∧ r.w_commitments = s.w_commitments ∧ r.D_0 = s.D_0
          ∧ absorbed_before .beta r.transcript.log
            = some ((List.range WiresAmount).map
                (fun i => (committed.w i, L.root (L.commit (s.w.getD i P.empty) s.D_0)))) := by
  obtain ⟨wires, hwires, hst⟩ := wire_loop_total L FS (polynoms assignments)
    (pure_loop 1
      (assignments.foldl (fun n wire_assignments => max n wire_assignments.length) 0 + 1)
      (fun power D_0 => D_0 ++ [preprocessed_data.omega ^ power])
      (List.replicate
        (assignments.foldl (fun n wire_assignments => max n wire_assignments.length) 0) 0))
    P.empty WiresAmount { st := FS.init, log := [] } hw
  have hlog := wire_loop_log L FS _ _ P.empty _ _ _ hwires
  have hs := process_until_gamma_of_wires WiresAmount L FS preprocessed_data polynoms
    assignments PI wires hwires
  refine ⟨_, hs, rfl, hlog.2.1, ?_, ?_, ?_, ?_, ?_⟩
  · simp only [hst, hlog.2.1]
  · simp only [hlog.2.2, List.nil_append]
  · simp only [transcript.get_challenge, hst, hlog.2.1]
  · simp only [transcript.get_challenge, hlog.2.2, List.nil_append, List.append_assoc]
    rw [absorbed_before_absorptions]
    simp [absorbed_before]
  · intro r hrun
    obtain ⟨s1, hs1, hb, _, _, hD, hc, _, _⟩ := process_run_until_gamma WiresAmount k P L FS
      n_i d_i_j preprocessed_data polynoms assignments PI r hrun
    have e := hs.symm.trans hs1
    simp only [Except.ok.injEq] at e
    subst e
    have hold := process_run_log WiresAmount k P L FS n_i d_i_j preprocessed_data polynoms
      assignments PI r hrun
    refine ⟨hb, hc, hD, ?_⟩
    rw [hold.2.2, absorbed_before_absorptions, hold.2.1, hD]
    simp [absorbed_before]

/-- Witness for C8: the circuit of three wires and four rows, on which the run does not
complete; before beta is derived the state of the transcript is `3`, the initial state `1`
after the absorption of the three wire roots `6`, `4`, `2`, and beta is `3`. -/
theorem wire_commitments_absorbed_before_beta_witness :
    ∃ s : gamma_locals samples.Fp (List samples.Fp) (List samples.Fp) samples.Fp samples.Fp,
      process_until_gamma 3 samples.evaluations_commitment samples.running_transcript
        samples.scenario_data (fun assignments => assignments) samples.scenario_assignments []
        = .ok s
      ∧ s.w_commitments = [6, 4, 2]
      ∧ s.transcript_before_beta.st = 3
      ∧ s.transcript_before_beta.st
        = s.w_commitments.foldl samples.running_transcript.absorb
            samples.running_transcript.init
      ∧ s.beta = 3
      ∧ s.beta = (samples.running_transcript.get_challenge
          (s.w_commitments.foldl samples.running_transcript.absorb
            samples.running_transcript.init) .beta).1
      ∧ samples.scenario_run = .error (.out_of_range .f 3) := by
  obtain ⟨s, hs, _, _, hst, _, hbeta, _, _⟩ := wire_commitments_absorbed_before_beta 3 1
    samples.dense samples.evaluations_commitment samples.running_transcript (fun _ => 1)
    (fun _ _ => 0) samples.scenario_data (fun assignments => assignments)
    samples.scenario_assignments [] (by decide)
  have h : (process_until_gamma 3 samples.evaluations_commitment samples.running_transcript
      samples.scenario_data (fun assignments => assignments) samples.scenario_assignments []
      : Except undefined_behaviour
          (gamma_locals samples.Fp (List samples.Fp) (List samples.Fp) samples.Fp
            samples.Fp)).map
      (fun s => (s.w_commitments, s.transcript_before_beta.st, s.beta))
      = .ok ([6, 4, 2], 3, 3) := by rfl
  rw [hs] at h
  simp only [Except.map, Except.ok.injEq, Prod.mk.injEq] at h
  exact ⟨s, hs, h.1, h.2.1, hst, h.2.2, hbeta, by rfl⟩

/-- C2, the run that stops. Whenever `constraint_system.polynoms` gives a polynomial for each
wire, `f` is not empty, and the assignment has at least as many rows as `f` has entries, the
run of `process` derives beta and gamma, then reaches undefined behaviour in lines 118-140 (in
the copy into `f`, or in the loops of lines 132-140, which read `f[j]` for the row `j`) and
stops there: theta, the alphas, tau and upsilon are not derived. -/
theorem challenges_after_gamma_not_reached {F Poly Tree D LProof TS : Type} [Field F]
    (WiresAmount k : Nat) (P : polynomial_ops F Poly)
    (L : list_polynomial_commitment_scheme F Poly Tree D LProof)
    (FS : fiat_shamir_heuristic TS D F) (n_i : Nat → Nat) (d_i_j : Nat → Nat → Nat)
    (preprocessed_data : preprocessed_data_type F Poly)
    (polynoms : List (List F) → List Poly) (assignments : List (List F)) (PI : List F)
    (hw : WiresAmount ≤ (polynoms assignments).length)
    (hpos : 0 < preprocessed_data.permutations.length + PI.length)
    (hrows : preprocessed_data.permutations.length + PI.length
      ≤ assignments.foldl (fun n wire_assignments => max n wire_assignments.length) 0) :
    ∃ (s : gamma_locals F Poly Tree D TS) (e : undefined_behaviour),
      process_until_gamma WiresAmount L FS preprocessed_data polynoms assignments PI = .ok s
      ∧ derived_challenges s.transcript.log = [(.beta, 0), (.gamma, 0)]
      ∧ permutation_rows P preprocessed_data s = .error e
      ∧ (process_run WiresAmount k P L FS n_i d_i_j preprocessed_data polynoms assignments PI :
          Except undefined_behaviour (locals F Poly Tree D LProof TS)) = .error e := by
  obtain ⟨wires, hwires, _⟩ := wire_loop_total L FS (polynoms assignments)
    (pure_loop 1
      (assignments.foldl (fun n wire_assignments => max n wire_assignments.length) 0 + 1)
      (fun power D_0 => D_0 ++ [preprocessed_data.omega ^ power])
      (List.replicate
        (assignments.foldl (fun n wire_assignments => max n wire_assignments.length) 0) 0))
    P.empty WiresAmount { st := FS.init, log := [] } hw
  have hlog := wire_loop_log L FS _ _ P.empty _ _ _ hwires
  have hs := process_until_gamma_of_wires WiresAmount L FS preprocessed_data polynoms
    assignments PI wires hwires
  have key : ∃ s : gamma_locals F Poly Tree D TS,
      process_until_gamma WiresAmount L FS preprocessed_data polynoms assignments PI = .ok s
      ∧ s.N_perm = preprocessed_data.permutations.length ∧ s.N_PI = PI.length
      ∧ s.n = assignments.foldl (fun n wire_assignments => max n wire_assignments.length) 0
      ∧ derived_challenges s.transcript.log = [(.beta, 0), (.gamma, 0)] := by
    refine ⟨_, hs, rfl, rfl, rfl, ?_⟩
    simp only [transcript.get_challenge, hlog.2.2, List.nil_append, List.append_assoc]
    rw [derived_challenges_append, derived_challenges_absorptions]
    rfl
  obtain ⟨s, hs1, h1, h2, h3, hd⟩ := key
  obtain ⟨e, he⟩ := permutation_rows_stop P preprocessed_data s
    (by rw [h1, h2]; exact hpos) (by rw [h1, h2, h3]; exact hrows)
  exact ⟨s, e, hs1, hd, he, process_run_stops_in_rows WiresAmount k P L FS n_i d_i_j
    preprocessed_data polynoms assignments PI s e hs1 he⟩

/-- Witness for C2: the circuit of three wires and four rows; the run derives beta and gamma
and stops at the read of `f[3]`. -/
theorem challenges_after_gamma_not_reached_witness :
    ∃ s : gamma_locals samples.Fp (List samples.Fp) (List samples.Fp) samples.Fp samples.Fp,
      process_until_gamma 3 samples.evaluations_commitment samples.running_transcript
        samples.scenario_data (fun assignments => assignments) samples.scenario_assignments []
        = .ok s
      ∧ derived_challenges s.transcript.log = [(.beta, 0), (.gamma, 0)]
      ∧ permutation_rows samples.dense samples.scenario_data s = .error (.out_of_range .f 3)
      ∧ samples.scenario_run = .error (.out_of_range .f 3) := by
  obtain ⟨s, e, hs, hd, he, hrun⟩ := challenges_after_gamma_not_reached 3 1
    samples.dense samples.evaluations_commitment samples.running_transcript (fun _ => 1)
    (fun _ _ => 0) samples.scenario_data (fun assignments => assignments)
    samples.scenario_assignments [] (by decide) (by decide) (by decide)
  have hc : samples.scenario_run = .error (.out_of_range .f 3) := by rfl
  have e1 : e = .out_of_range .f 3 := by
    have h := hrun.symm.trans hc
    simp only [Except.error.injEq] at h
    exact h
  subst e1
  exact ⟨s, hs, hd, he, hc⟩

/-- In a completed run, the committed `P` and `Q` are default-constructed polynomials. -/
theorem process_run_P_Q {F Poly Tree D LProof TS : Type} [Field F] (WiresAmount k : Nat)
    (P : polynomial_ops F Poly) (L : list_polynomial_commitment_scheme F Poly Tree D LProof)
    (FS : fiat_shamir_heuristic TS D F) (n_i : Nat → Nat) (d_i_j : Nat → Nat → Nat)
    (preprocessed_data : preprocessed_data_type F Poly)
    (polynoms : List (List F) → List Poly) (assignments : List (List F)) (PI : List F)
    (r : locals F Poly Tree D LProof TS)
    (hrun : process_run WiresAmount k P L FS n_i d_i_j preprocessed_data polynoms
      assignments PI = .ok r) :
    r.P = P.empty ∧ r.Q = P.empty := by
  simp only [process_run, bind_eq_ok] at hrun
  obtain ⟨wires, _, h2⟩ := hrun
  split at h2
  · simp only [pure_bind, bind_eq_ok] at h2
    obtain ⟨gh, _, pq, _, gt, _, F_, _, tc, _, tp, _, hr⟩ := h2
    simp only [pure, Except.pure, Except.ok.injEq] at hr
    subst hr
    exact ⟨rfl, rfl⟩
  · rw [bind_eq_ok] at h2
    obtain ⟨_, h, _⟩ := h2
    cases h

/-- C3, counterexample. On the toy data the run completes and `process` returns a proof,
although `F_consolidated = 3 X^3` divided by `Z = X - 1` leaves the remainder `3`:
`F_consolidated = Z * (3 X^2 + 3 X + 3) + 3`.  No error is reported and the remainder is
discarded. -/
theorem inexact_division_counterexample :
    ∃ r, samples.toy_run = .ok r
      ∧ r.F_consolidated = [0, 0, 0, 3]
      ∧ samples.dense.rem r.F_consolidated samples.toy_data.Z = [3]
      ∧ r.F_consolidated
        = samples.dense.add (samples.dense.mul samples.toy_data.Z [3, 3, 3]) [3]
      ∧ r.T_consolidated = [3, 3, 3]
      ∧ process 2 1 samples.dense samples.evaluations_commitment samples.running_transcript
          (fun _ => 1) (fun _ _ => 0) samples.toy_data (fun assignments => assignments)
          [[3], [3]] []
        = .ok { f_commitments := [], P_commitment := 0, Q_commitment := 0,
                T_commitments := [1, 1, 1], f_lpc_proofs := [[], []], P_lpc_proof := [],
                Q_lpc_proof := [],
                T_lpc_proofs := [[], [], [], [0, 1], [0, 1], [0, 1]] } := by
  obtain ⟨r, hr⟩ := isOk_elim samples.toy_run (by decide)
  have h : samples.toy_run.map (fun r => (r.F_consolidated, r.T_consolidated))
      = .ok ([0, 0, 0, 3], [3, 3, 3]) := by rfl
  rw [hr] at h
  simp only [Except.map, Except.ok.injEq, Prod.mk.injEq] at h
  refine ⟨r, hr, h.1, ?_, ?_, h.2, by rfl⟩
  · rw [h.1]
    decide
  · rw [h.1]
    decide

/-- C3, amended. `process` has no exactness check: in a completed run `T_consolidated` is the
quotient `F_consolidated / Z` of the polynomial library whatever the remainder, and whether
`process` returns a proof, and which proof, does not depend on `Z`. -/
theorem quotient_taken_without_remainder_check {F Poly Tree D LProof TS : Type} [Field F]
    (WiresAmount k : Nat) (P : polynomial_ops F Poly)
    (L : list_polynomial_commitment_scheme F Poly Tree D LProof)
    (FS : fiat_shamir_heuristic TS D F) (n_i : Nat → Nat) (d_i_j : Nat → Nat → Nat)
    (preprocessed_data : preprocessed_data_type F Poly)
    (polynoms : List (List F) → List Poly) (assignments : List (List F)) (PI : List F) :
    (∀ r : locals F Poly Tree D LProof TS,
      process_run WiresAmount k P L FS n_i d_i_j preprocessed_data polynoms assignments PI
        = .ok r →
      r.T_consolidated = P.div r.F_consolidated preprocessed_data.Z)
    ∧ ∀ Z1 : Poly,
      (process WiresAmount k P L FS n_i d_i_j { preprocessed_data with Z := Z1 } polynoms
        assignments PI : Except undefined_behaviour (proof_type D LProof))
      = process WiresAmount k P L FS n_i d_i_j preprocessed_data polynoms assignments PI := by
  refine ⟨fun r hrun => (process_run_quotient WiresAmount k P L FS n_i d_i_j preprocessed_data
    polynoms assignments PI r hrun).1, ?_⟩
  intro Z1
  simp only [process, process_run]
  have e : ∀ {α β : Type} (g : α → β) (x : Except undefined_behaviour α),
      Except.map g x = g <$> x := fun _ _ => rfl
  simp only [e, map_bind, map_pure]
  congr 1
  funext wires
  split <;> simp only [map_bind, map_pure]

/-- Witness for the amended C3: on the toy data the quotient is `3 X^2 + 3 X + 3`, and the
proof returned with `Z = X - 1` is the proof returned with `Z = X^3`, which divides
`F_consolidated` exactly. -/
theorem quotient_taken_without_remainder_check_witness :
    (∃ r, samples.toy_run = .ok r
      ∧ r.T_consolidated = samples.dense.div r.F_consolidated samples.toy_data.Z)
    ∧ (process 2 1 samples.dense samples.evaluations_commitment samples.running_transcript
          (fun _ => 1) (fun _ _ => 0) { samples.toy_data with Z := [0, 0, 0, 1] }
          (fun assignments => assignments) [[3], [3]] []
        : Except undefined_behaviour (proof_type samples.Fp (List samples.Fp)))
      = process 2 1 samples.dense samples.evaluations_commitment samples.running_transcript
          (fun _ => 1) (fun _ _ => 0) samples.toy_data (fun assignments => assignments)
          [[3], [3]] [] := by
  obtain ⟨r, hr⟩ := isOk_elim samples.toy_run (by decide)
  have h := quotient_taken_without_remainder_check 2 1 samples.dense
    samples.evaluations_commitment samples.running_transcript (fun _ => 1) (fun _ _ => 0)
    samples.toy_data (fun assignments => assignments) [[3], [3]] []
  exact ⟨⟨r, hr, h.1 r hr⟩, h.2 [0, 0, 0, 1]⟩

/-- C10. What the code does: in every completed run of `process` there are `N_perm + 1`
quotient-piece commitments, stored in the proof, and none of them is absorbed; the absorptions
that precede the derivation of upsilon are those of the wires, `V_P`, `A1`, `S1`, `P`, `Q`
and `V`, so upsilon does not depend on the `T` commitments. -/
theorem quotient_commitments_not_absorbed {F Poly Tree D LProof TS : Type} [Field F]
    (WiresAmount k : Nat) (P : polynomial_ops F Poly)
    (L : list_polynomial_commitment_scheme F Poly Tree D LProof)
    (FS : fiat_shamir_heuristic TS D F) (n_i : Nat → Nat) (d_i_j : Nat → Nat → Nat)
    (preprocessed_data : preprocessed_data_type F Poly)
    (polynoms : List (List F) → List Poly) (assignments : List (List F)) (PI : List F)
    (r : locals F Poly Tree D LProof TS)
    (hrun : process_run WiresAmount k P L FS n_i d_i_j preprocessed_data polynoms
      assignments PI = .ok r) :
    r.proof.T_commitments.length = preprocessed_data.permutations.length + 1
    ∧ (∀ i d, event.absorb (.T i) d ∉ r.transcript.log)
    ∧ absorbed_before .upsilon r.transcript.log
      = some ((List.range WiresAmount).map
          (fun i => (committed.w i, L.root (L.commit (r.w.getD i P.empty) r.D_0)))
        ++ [(.V_P, L.root (L.commit P.empty r.D_0)), (.A1, L.root (L.commit P.empty r.D_0)),
            (.S1, L.root (L.commit P.empty r.D_0)), (.P, L.root (L.commit P.empty r.D_0)),
            (.Q, L.root (L.commit P.empty r.D_0)), (.V, L.root (L.commit P.empty r.D_0))]) := by
  have h := process_run_log WiresAmount k P L FS n_i d_i_j preprocessed_data polynoms
    assignments PI r hrun
  have hq := process_run_quotient WiresAmount k P L FS n_i d_i_j preprocessed_data polynoms
    assignments PI r hrun
  refine ⟨by rw [hq.2.2, hq.2.1], ?_, ?_⟩
  · intro i d hmem
    rw [h.2.2] at hmem
    simp at hmem
  · rw [h.2.2, absorbed_before_absorptions]
    simp [absorbed_before]

/-- Witness for C10, at the failing input: on the toy data the proof holds the three quotient
commitments `[1, 1, 1]`, and the absorptions that precede upsilon are those of the two wires,
`V_P`, `A1`, `S1`, `P`, `Q` and `V`. -/
theorem quotient_commitments_not_absorbed_witness :
    ∃ r, samples.toy_run = .ok r
      ∧ r.proof.T_commitments = [1, 1, 1]
      ∧ (∀ i d, event.absorb (.T i) d ∉ r.transcript.log)
      ∧ absorbed_before .upsilon r.transcript.log
        = some [(.w 0, 3), (.w 1, 3), (.V_P, 1), (.A1, 1), (.S1, 1), (.P, 1), (.Q, 1),
                (.V, 1)] := by
  obtain ⟨r, hr⟩ := isOk_elim samples.toy_run (by decide)
  have h : samples.toy_run.map
      (fun r => (r.proof.T_commitments, absorbed_before .upsilon r.transcript.log))
      = .ok ([1, 1, 1], some [(.w 0, 3), (.w 1, 3), (.V_P, 1), (.A1, 1), (.S1, 1), (.P, 1),
          (.Q, 1), (.V, 1)]) := by rfl
  rw [hr] at h
  simp only [Except.map, Except.ok.injEq, Prod.mk.injEq] at h
  exact ⟨r, hr, h.1, (quotient_commitments_not_absorbed 2 1 samples.dense
    samples.evaluations_commitment samples.running_transcript (fun _ => 1) (fun _ _ => 0)
    samples.toy_data (fun assignments => assignments) [[3], [3]] [] r hr).2.1, h.2⟩

end redshift_prover

/-! ### The sequential transcripts: further properties -/

namespace fiat_shamir_heuristic_sequential

theorem after_challenge_calls_succ {B : Type} (h : hash_type B) (p : Nat) (i : Nat)
    (t : transcript B) :
    after_challenge_calls h p (i + 1) t = after_challenge_calls h p i (challenge h p t).2 := by
  induction i with
  | zero => rfl
  | succ i ih =>
    show (challenge h p (after_challenge_calls h p (i + 1) t)).2 = _
    rw [ih]
    rfl

theorem challenges_eq_successive {B : Type} (h : hash_type B) (p : Nat) (N : Nat)
    (t : transcript B) : challenges h p N t = successive_challenges h p N t := by
  induction N generalizing t with
  | zero => rfl
  | succ N ih =>
    have e : (fun i => (challenge h p (after_challenge_calls h p i (challenge h p t).2)).1)
        = (fun i => (challenge h p (after_challenge_calls h p i t)).1) ∘ Nat.succ :=
      funext fun i => by
        simp only [Function.comp, Nat.succ_eq_add_one, after_challenge_calls_succ]
    simp only [challenges, ih, successive_challenges, List.range_succ_eq_map, List.map_cons,
      List.map_map, after_challenge_calls_succ, e]
    rfl

theorem length_challenges {B : Type} (h : hash_type B) (p : Nat) (N : Nat) (t : transcript B) :
    (challenges h p N t).1.length = N := by
  rw [challenges_eq_successive]
  simp [successive_challenges]

end fiat_shamir_heuristic_sequential

namespace fiat_shamir_heuristic_sequential_poseidon

theorem poseidon_after_challenge_calls_succ {F : Type} [Zero F] (h : hash_type F) (i : Nat)
    (t : transcript F) :
    after_challenge_calls h (i + 1) t = after_challenge_calls h i (challenge h t).2 := by
  induction i with
  | zero => rfl
  | succ i ih =>
    show (challenge h (after_challenge_calls h (i + 1) t)).2 = _
    rw [ih]
    rfl

theorem poseidon_challenges_eq_successive {F : Type} [Zero F] (h : hash_type F) (N : Nat)
    (t : transcript F) : challenges h N t = successive_challenges h N t := by
  induction N generalizing t with
  | zero => rfl
  | succ N ih =>
    have e : (fun i => (challenge h (after_challenge_calls h i (challenge h t).2)).1)
        = (fun i => (challenge h (after_challenge_calls h i t)).1) ∘ Nat.succ :=
      funext fun i => by
        simp only [Function.comp, Nat.succ_eq_add_one, poseidon_after_challenge_calls_succ]
    simp only [challenges, ih, successive_challenges, List.range_succ_eq_map, List.map_cons,
      List.map_map, poseidon_after_challenge_calls_succ, e]
    rfl

theorem poseidon_length_challenges {F : Type} [Zero F] (h : hash_type F) (N : Nat)
    (t : transcript F) : (challenges h N t).1.length = N := by
  rw [poseidon_challenges_eq_successive]
  simp [successive_challenges]

end fiat_shamir_heuristic_sequential_poseidon

/-- C15. In the Poseidon transcript, absorbing a raw byte range or an iterator pair fails with
the assertion "Not supported" in every state and yields no new transcript state, so a run
stops at such a call; absorbing a field-element digest always succeeds. -/
theorem poseidon_raw_absorb_fails {F B : Type} [Zero F]
    (h : fiat_shamir_heuristic_sequential_poseidon.hash_type F)
    (t : fiat_shamir_heuristic_sequential_poseidon.transcript F) (r : List B) (x : F)
    (rest : List (fiat_shamir_heuristic_sequential_poseidon.call F B)) :
    fiat_shamir_heuristic_sequential_poseidon.absorb_range t r = .error .not_supported
    ∧ fiat_shamir_heuristic_sequential_poseidon.absorb_iterators t r = .error .not_supported
    ∧ fiat_shamir_heuristic_sequential_poseidon.run h t (.absorb_range r :: rest)
      = .error .not_supported
    ∧ fiat_shamir_heuristic_sequential_poseidon.run h t (.absorb_iterators r :: rest)
      = .error .not_supported
    ∧ fiat_shamir_heuristic_sequential_poseidon.step h t
        (.absorb x : fiat_shamir_heuristic_sequential_poseidon.call F B)
      = .ok (.void, fiat_shamir_heuristic_sequential_poseidon.absorb h t x) :=
  ⟨rfl, rfl, rfl, rfl, rfl⟩

/-- C16. For both sequential variants and every `N`, `challenges<Field, N>()` returns the array
of length `N` whose entry `i` is the value of the call number `i + 1` of `N` successive
`challenge<Field>()` calls started from the current state, and leaves the transcript in the
state reached after those `N` calls. -/
theorem challenges_refines_successive_calls {B F : Type} [Zero F]
    (h : fiat_shamir_heuristic_sequential.hash_type B)
    (hp : fiat_shamir_heuristic_sequential_poseidon.hash_type F) (p N : Nat)
    (t : fiat_shamir_heuristic_sequential.transcript B)
    (pt : fiat_shamir_heuristic_sequential_poseidon.transcript F) :
    (fiat_shamir_heuristic_sequential.challenges h p N t
        = fiat_shamir_heuristic_sequential.successive_challenges h p N t
      ∧ (fiat_shamir_heuristic_sequential.challenges h p N t).1.length = N)
    ∧ (fiat_shamir_heuristic_sequential_poseidon.challenges hp N pt
        = fiat_shamir_heuristic_sequential_poseidon.successive_challenges hp N pt
      ∧ (fiat_shamir_heuristic_sequential_poseidon.challenges hp N pt).1.length = N) :=
  ⟨⟨fiat_shamir_heuristic_sequential.challenges_eq_successive h p N t,
      fiat_shamir_heuristic_sequential.length_challenges h p N t⟩,
    ⟨fiat_shamir_heuristic_sequential_poseidon.poseidon_challenges_eq_successive hp N pt,
      fiat_shamir_heuristic_sequential_poseidon.poseidon_length_challenges hp N pt⟩⟩

/-- C19. A default-constructed Poseidon transcript starts in the state `s0 = hash(zero)`; after
absorbing the digests `d1`, `d2`, `d3` in that order, one challenge equals `pair_hash(s3, s3)`
where `s_k = pair_hash(d_k, pair_hash(s_(k-1), s_(k-1)))` for `k = 1, 2, 3`. -/
theorem poseidon_known_answer_shape {F B : Type} [Zero F]
    (h : fiat_shamir_heuristic_sequential_poseidon.hash_type F) (d1 d2 d3 s0 s1 s2 s3 : F)
    (h0 : s0 = h.hash [0])
    (h1 : s1 = fiat_shamir_heuristic_sequential_poseidon.pair_hash h d1
      (fiat_shamir_heuristic_sequential_poseidon.pair_hash h s0 s0))
    (h2 : s2 = fiat_shamir_heuristic_sequential_poseidon.pair_hash h d2
      (fiat_shamir_heuristic_sequential_poseidon.pair_hash h s1 s1))
    (h3 : s3 = fiat_shamir_heuristic_sequential_poseidon.pair_hash h d3
      (fiat_shamir_heuristic_sequential_poseidon.pair_hash h s2 s2)) :
    (fiat_shamir_heuristic_sequential_poseidon.construct h .default).state = s0
    ∧ fiat_shamir_heuristic_sequential_poseidon.run h
        (fiat_shamir_heuristic_sequential_poseidon.construct h .default)
        ([.absorb d1, .absorb d2, .absorb d3, .challenge] :
          List (fiat_shamir_heuristic_sequential_poseidon.call F B))
      = .ok ([.void, .void, .void,
              .field_element (fiat_shamir_heuristic_sequential_poseidon.pair_hash h s3 s3)],
            { state := fiat_shamir_heuristic_sequential_poseidon.pair_hash h s3 s3 }) := by
  subst h0 h1 h2 h3
  exact ⟨rfl, rfl⟩

/-- Witness for C19: the sample permutation over `ZMod 7` with the digests `3`, `5`, `6`. -/
theorem poseidon_known_answer_shape_witness :
    fiat_shamir_heuristic_sequential_poseidon.run samples.poseidon
        (fiat_shamir_heuristic_sequential_poseidon.construct samples.poseidon .default)
        ([.absorb 3, .absorb 5, .absorb 6, .challenge] :
          List (fiat_shamir_heuristic_sequential_poseidon.call (ZMod 7) Nat))
      = .ok ([.void, .void, .void, .field_element 3], { state := 3 }) :=
  ((poseidon_known_answer_shape samples.poseidon 3 5 6 _ _ _ _ rfl rfl rfl rfl).2).trans
    (by rfl)

/-- C18, counterexample. With no absorption in between, two consecutive calls of
`challenge<Field>()` on the same sequential transcript return different values: `11` then `93`
for the sample byte hash in state `[1, 2]` over the characteristic `97`, and `4` then `0` for
the default-constructed sample Poseidon transcript. -/
theorem repeated_sequential_challenge_counterexample :
    (fiat_shamir_heuristic_sequential.challenge samples.byte_hash 97 { state := [1, 2] }).1
      = 11
    ∧ (fiat_shamir_heuristic_sequential.challenge samples.byte_hash 97
        (fiat_shamir_heuristic_sequential.challenge samples.byte_hash 97
          { state := [1, 2] }).2).1 = 93
    ∧ (fiat_shamir_heuristic_sequential_poseidon.challenge samples.poseidon
        (fiat_shamir_heuristic_sequential_poseidon.construct samples.poseidon .default)).1 = 4
    ∧ (fiat_shamir_heuristic_sequential_poseidon.challenge samples.poseidon
        (fiat_shamir_heuristic_sequential_poseidon.challenge samples.poseidon
          (fiat_shamir_heuristic_sequential_poseidon.construct samples.poseidon
            .default)).2).1 = 0 := by
  decide

/-- C18, amended. With no absorption in between, repeated calls of the challenge derivation on
the accumulative transcript return the same value for every identifier and index (the field
element one) and leave the accumulator unchanged; on the sequential transcripts every call
advances the state, so the first call returns the challenge of `hash(state)` (resp.
`pair_hash(state, state)`) and the next call returns that of the twice-advanced state. -/
theorem repeated_challenge_calls {B Id F G : Type} [One F] [Zero G]
    (h : fiat_shamir_heuristic_sequential.hash_type B)
    (hp : fiat_shamir_heuristic_sequential_poseidon.hash_type G) (p : Nat)
    (ta : fiat_shamir_heuristic_accumulative.transcript B) (id : Id) (index : Nat)
    (s : List B) (ps : G) :
    ((fiat_shamir_heuristic_accumulative.challenge h ta id : F × _) = (1, ta)
      ∧ (fiat_shamir_heuristic_accumulative.challenge_indexed h ta id index : F × _) = (1, ta)
      ∧ ((fiat_shamir_heuristic_accumulative.challenge h
            (fiat_shamir_heuristic_accumulative.challenge h ta id : F × _).2 id : F × _).1
          = (fiat_shamir_heuristic_accumulative.challenge h ta id : F × _).1))
    ∧ ((fiat_shamir_heuristic_sequential.challenge h p { state := s }).1
          = h.pack (h.hash s) % p
      ∧ (fiat_shamir_heuristic_sequential.challenge h p
          (fiat_shamir_heuristic_sequential.challenge h p { state := s }).2).1
          = h.pack (h.hash (h.hash s)) % p)
    ∧ ((fiat_shamir_heuristic_sequential_poseidon.challenge hp { state := ps }).1
          = fiat_shamir_heuristic_sequential_poseidon.pair_hash hp ps ps
      ∧ (fiat_shamir_heuristic_sequential_poseidon.challenge hp
          (fiat_shamir_heuristic_sequential_poseidon.challenge hp { state := ps }).2).1
          = fiat_shamir_heuristic_sequential_poseidon.pair_hash hp
              (fiat_shamir_heuristic_sequential_poseidon.pair_hash hp ps ps)
              (fiat_shamir_heuristic_sequential_poseidon.pair_hash hp ps ps)) :=
  ⟨⟨rfl, rfl, rfl⟩, ⟨rfl, rfl⟩, ⟨rfl, rfl⟩⟩

/-- C20. `int_challenge<Integral>()` advances the transcript exactly as `challenge<Field>()`
does (to `hash(state)` in the byte-oriented variant, to `pair_hash(state, state)` in the
Poseidon variant) and returns the integer of that new state kept to the width of `Integral`;
when `Integral` is wide enough to hold it, the int challenge is that integer, and reduced
modulo the characteristic `p` it equals the field challenge (for Poseidon: the integer held in
the field challenge, a canonical representative below `p`). -/
theorem int_challenge_matches_challenge {B F : Type} [Zero F]
    (h : fiat_shamir_heuristic_sequential.hash_type B)
    (hp : fiat_shamir_heuristic_sequential_poseidon.hash_type F) (p w : Nat)
    (s : List B) (ps : F) :
    ((fiat_shamir_heuristic_sequential.int_challenge h w { state := s }).2
        = (fiat_shamir_heuristic_sequential.challenge h p { state := s }).2
      ∧ (fiat_shamir_heuristic_sequential.int_challenge h w { state := s }).2.state = h.hash s
      ∧ (fiat_shamir_heuristic_sequential.int_challenge h w { state := s }).1
        = h.pack (h.hash s) % 2 ^ w
      ∧ (h.pack (h.hash s) < 2 ^ w →
          (fiat_shamir_heuristic_sequential.int_challenge h w { state := s }).1
            = h.pack (h.hash s)
          ∧ (fiat_shamir_heuristic_sequential.int_challenge h w { state := s }).1 % p
            = (fiat_shamir_heuristic_sequential.challenge h p { state := s }).1))
    ∧ ((fiat_shamir_heuristic_sequential_poseidon.int_challenge hp w { state := ps }).2
        = (fiat_shamir_heuristic_sequential_poseidon.challenge hp { state := ps }).2
      ∧ (fiat_shamir_heuristic_sequential_poseidon.int_challenge hp w { state := ps }).2.state
        = fiat_shamir_heuristic_sequential_poseidon.pair_hash hp ps ps
      ∧ (fiat_shamir_heuristic_sequential_poseidon.int_challenge hp w { state := ps }).1
        = hp.data (fiat_shamir_heuristic_sequential_poseidon.pair_hash hp ps ps) % 2 ^ w
      ∧ (hp.data (fiat_shamir_heuristic_sequential_poseidon.pair_hash hp ps ps) < 2 ^ w →
          hp.data (fiat_shamir_heuristic_sequential_poseidon.pair_hash hp ps ps) < p →
          (fiat_shamir_heuristic_sequential_poseidon.int_challenge hp w { state := ps }).1
            = hp.data (fiat_shamir_heuristic_sequential_poseidon.pair_hash hp ps ps)
          ∧ (fiat_shamir_heuristic_sequential_poseidon.int_challenge hp w { state := ps }).1 % p
            = hp.data
              (fiat_shamir_heuristic_sequential_poseidon.challenge hp { state := ps }).1)) := by
  refine ⟨⟨rfl, rfl, rfl, fun hw => ?_⟩, ⟨rfl, rfl, rfl, fun hw hc => ?_⟩⟩
  · have e : (fiat_shamir_heuristic_sequential.int_challenge h w { state := s }).1
        = h.pack (h.hash s) := Nat.mod_eq_of_lt hw
    exact ⟨e, by rw [e]; rfl⟩
  · have e : (fiat_shamir_heuristic_sequential_poseidon.int_challenge hp w { state := ps }).1
        = hp.data (fiat_shamir_heuristic_sequential_poseidon.pair_hash hp ps ps) :=
      Nat.mod_eq_of_lt hw
    exact ⟨e, by rw [e]; exact Nat.mod_eq_of_lt hc⟩

/-- Witness for C20: the sample byte hash in state `[1, 2]` with a 16-bit `Integral` and the
characteristic `97`, and the sample Poseidon transcript in state `1` with an 8-bit `Integral`
and the characteristic `7`. -/
theorem int_challenge_matches_challenge_witness :
    ((fiat_shamir_heuristic_sequential.int_challenge samples.byte_hash 16
          { state := [1, 2] }).1 = 49675
      ∧ (fiat_shamir_heuristic_sequential.int_challenge samples.byte_hash 16
          { state := [1, 2] }).1 % 97
        = (fiat_shamir_heuristic_sequential.challenge samples.byte_hash 97
          { state := [1, 2] }).1)
    ∧ (fiat_shamir_heuristic_sequential_poseidon.int_challenge samples.poseidon 8
          { state := 1 }).1 % 7
        = samples.poseidon.data
          (fiat_shamir_heuristic_sequential_poseidon.challenge samples.poseidon
            { state := 1 }).1 :=
  have h7 := int_challenge_matches_challenge samples.byte_hash samples.poseidon 7 8 [1, 2] 1
  have h97 := int_challenge_matches_challenge samples.byte_hash samples.poseidon 97 16 [1, 2] 1
  ⟨⟨((h97.1.2.2.2 (by decide)).1).trans (by decide), (h97.1.2.2.2 (by decide)).2⟩,
    (h7.2.2.2.2 (by decide) (by decide)).2⟩

/-! ### The Redshift prover: the returned proof -/

namespace redshift_prover

/-- The loop of lines 299-302, when it completes, has read `T[0], ..., T[count - 1]` and has
pushed the tree `commit(T[i], D_0)` and its root for each `i`, in increasing order. -/
theorem T_commit_loop_result {F Poly Tree D LProof : Type}
    (L : list_polynomial_commitment_scheme F Poly Tree D LProof) (T : List Poly)
    (D_0 : List F) (dflt : Poly) (count : Nat) (s1 : List Tree × List D)
    (hrun : for_loop 0 count (T_commit_body L T D_0) ([], []) = .ok s1) :
    count ≤ T.length
    ∧ s1.1 = (List.range count).map (fun i => L.commit (T.getD i dflt) D_0)
    ∧ s1.2 = (List.range count).map (fun i => L.root (L.commit (T.getD i dflt) D_0)) := by
  refine for_loop_invariant
    (fun i (s : List Tree × List D) =>
      i ≤ T.length
      ∧ s.1 = (List.range i).map (fun i => L.commit (T.getD i dflt) D_0)
      ∧ s.2 = (List.range i).map (fun i => L.root (L.commit (T.getD i dflt) D_0)))
    (T_commit_body L T D_0) 0 count (Nat.zero_le _) _ s1 (by simp) ?_ hrun
  intro i t t1 _ _ hinv hbody
  obtain ⟨_, htrees, hcomms⟩ := hinv
  simp only [T_commit_body, bind_eq_ok, at_index_eq_ok, pure, Except.pure,
    Except.ok.injEq] at hbody
  obtain ⟨T_i, hTi, tree, htree, ht1⟩ := hbody
  have hlt : i < T.length := by
    rcases Nat.lt_or_ge i T.length with hlt | hge
    · exact hlt
    · rw [List.getElem?_eq_none hge] at hTi
      exact absurd hTi (by simp)
  have hget : T.getD i dflt = T_i := by
    rw [List.getD_eq_getElem?_getD, hTi]
    rfl
  have hlen : t.1.length = i := by
    rw [htrees]
    simp
  have htree1 : tree = L.commit T_i D_0 := by
    rw [← hlen, List.getElem?_concat_length] at htree
    exact (Option.some.inj htree).symm
  subst ht1
  refine ⟨hlt, ?_, ?_⟩
  · simp only [List.range_succ, List.map_append, List.map_cons, List.map_nil, hget, htrees]
  · simp only [List.range_succ, List.map_append, List.map_cons, List.map_nil, hget, hcomms,
      htree1]

/-- The loop of lines 322-324, when it completes, has appended to `T_lpc_proofs` the opening
proof of each `T[i]`, in increasing order, after the entries the vector already held. -/
theorem T_proof_loop_result {F Poly Tree D LProof : Type}
    (L : list_polynomial_commitment_scheme F Poly Tree D LProof) (T : List Poly)
    (tree : Nat → Tree) (D_0 points : List F) (dflt : Poly) (count : Nat)
    (s0 s1 : List LProof)
    (hrun : for_loop 0 count
      (T_proof_body L T ((List.range count).map tree) D_0 points) s0 = .ok s1) :
    s1 = s0 ++ (List.range count).map
      (fun i => L.proof_eval points (tree i) (T.getD i dflt) D_0) := by
  refine for_loop_invariant
    (fun i (s : List LProof) =>
      s = s0 ++ (List.range i).map
        (fun i => L.proof_eval points (tree i) (T.getD i dflt) D_0))
    (T_proof_body L T ((List.range count).map tree) D_0 points) 0 count (Nat.zero_le _) _ s1
    (by simp) ?_ hrun
  intro i t t1 _ hlt hinv hbody
  simp only [T_proof_body, bind_eq_ok, at_index_eq_ok, pure, Except.pure,
    Except.ok.injEq] at hbody
  obtain ⟨tree_i, htree, T_i, hTi, ht1⟩ := hbody
  have hget : T.getD i dflt = T_i := by
    rw [List.getD_eq_getElem?_getD, hTi]
    rfl
  have htree1 : tree_i = tree i := by
    rw [List.getElem?_map, List.getElem?_range hlt] at htree
    exact (Option.some.inj htree).symm
  subst ht1
  simp only [hinv, List.range_succ, List.map_append, List.map_cons, List.map_nil, hget, htree1,
    List.append_assoc]

/-- The returned proof and the commitments of a completed run of `process`, in terms of the
inputs and of the other locals. -/
theorem process_run_proof {F Poly Tree D LProof TS : Type} [Field F] (WiresAmount k : Nat)
    (P : polynomial_ops F Poly) (L : list_polynomial_commitment_scheme F Poly Tree D LProof)
    (FS : fiat_shamir_heuristic TS D F) (n_i : Nat → Nat) (d_i_j : Nat → Nat → Nat)
    (preprocessed_data : preprocessed_data_type F Poly)
    (polynoms : List (List F) → List Poly) (assignments : List (List F)) (PI : List F)
    (r : locals F Poly Tree D LProof TS)
    (hrun : process_run WiresAmount k P L FS n_i d_i_j preprocessed_data polynoms
      assignments PI = .ok r) :
    r.proof = { f_commitments := [], P_commitment := L.default_commitment,
                Q_commitment := L.default_commitment, T_commitments := r.T_commitments,
                f_lpc_proofs := List.replicate WiresAmount L.default_proof,
                P_lpc_proof := L.default_proof, Q_lpc_proof := L.default_proof,
                T_lpc_proofs := r.T_lpc_proofs }
    ∧ r.w_commitments
      = (List.range WiresAmount).map (fun i => L.root (L.commit (r.w.getD i P.empty) r.D_0))
    ∧ r.P_commitment = L.root (L.commit r.P r.D_0)
    ∧ r.Q_commitment = L.root (L.commit r.Q r.D_0)
    ∧ r.T = List.replicate r.N_T P.empty
    ∧ r.N_perm = preprocessed_data.permutations.length
    ∧ r.N_perm + 1 ≤ r.N_T
    ∧ r.T_trees = (List.range (r.N_perm + 1)).map (fun i => L.commit (r.T.getD i P.empty) r.D_0)
    ∧ r.T_commitments
      = (List.range (r.N_perm + 1)).map (fun i => L.root (L.commit (r.T.getD i P.empty) r.D_0))
    ∧ r.fT_evaluation_points = r.upsilon :: List.replicate (k - 1) 0
    ∧ r.T_lpc_proofs
      = List.replicate (r.N_perm + 1) L.default_proof
        ++ (List.range (r.N_perm + 1)).map (fun i => L.proof_eval r.fT_evaluation_points
            (L.commit (r.T.getD i P.empty) r.D_0) (r.T.getD i P.empty) r.D_0) := by
  simp only [process_run, bind_eq_ok] at hrun
  obtain ⟨wires, hw, h2⟩ := hrun
  split at h2
  · simp only [pure_bind, bind_eq_ok] at h2
    obtain ⟨gh, _, pq, _, gt, _, F_, _, tc, htc, tp, htp, hr⟩ := h2
    simp only [pure, Except.pure, Except.ok.injEq] at hr
    have hwl := wire_loop_log L FS _ _ P.empty _ _ _ hw
    have hT := T_commit_loop_result L _ _ P.empty _ _ htc
    rw [hT.2.1] at htp
    have hTp := T_proof_loop_result L _ _ _ _ P.empty _ _ _ htp
    subst hr
    refine ⟨rfl, hwl.2.1, rfl, rfl, rfl, rfl, ?_, hT.2.1, hT.2.2, rfl, hTp⟩
    simpa using hT.1
  · rw [bind_eq_ok] at h2
    obtain ⟨_, h, _⟩ := h2
    cases h

/-- C11. What the code does: in every completed run of `process` the `WiresAmount` wire roots
`root(commit(w[i], D_0))` and the roots of `P` and `Q` are computed (and absorbed), but the
returned proof does not contain them: its `f_commitments` is empty and its `P_commitment`
and `Q_commitment` are default-constructed. -/
theorem proof_commitments_left_default {F Poly Tree D LProof TS : Type} [Field F]
    (WiresAmount k : Nat) (P : polynomial_ops F Poly)
    (L : list_polynomial_commitment_scheme F Poly Tree D LProof)
    (FS : fiat_shamir_heuristic TS D F) (n_i : Nat → Nat) (d_i_j : Nat → Nat → Nat)
    (preprocessed_data : preprocessed_data_type F Poly)
    (polynoms : List (List F) → List Poly) (assignments : List (List F)) (PI : List F)
    (r : locals F Poly Tree D LProof TS)
    (hrun : process_run WiresAmount k P L FS n_i d_i_j preprocessed_data polynoms
      assignments PI = .ok r) :
    r.w_commitments
      = (List.range WiresAmount).map (fun i => L.root (L.commit (r.w.getD i P.empty) r.D_0))
    ∧ r.w_commitments.length = WiresAmount
    ∧ r.P_commitment = L.root (L.commit r.P r.D_0)
    ∧ r.Q_commitment = L.root (L.commit r.Q r.D_0)
    ∧ r.proof.f_commitments = []
    ∧ r.proof.P_commitment = L.default_commitment
    ∧ r.proof.Q_commitment = L.default_commitment := by
  have h := process_run_proof WiresAmount k P L FS n_i d_i_j preprocessed_data polynoms
    assignments PI r hrun
  refine ⟨h.2.1, ?_, h.2.2.1, h.2.2.2.1, ?_, ?_, ?_⟩
  · rw [h.2.1]
    simp
  · rw [h.1]
  · rw [h.1]
  · rw [h.1]

/-- Witness for C11, at the failing input: on the toy data the wire roots are `[3, 3]` and the
roots of `P` and `Q` are `1`, and the proof holds no wire commitment and the default `0` for
`P` and `Q`. -/
theorem proof_commitments_left_default_witness :
    ∃ r, samples.toy_run = .ok r
      ∧ r.w_commitments = [3, 3] ∧ r.P_commitment = 1 ∧ r.Q_commitment = 1
      ∧ r.proof.f_commitments = [] ∧ r.proof.P_commitment = 0
      ∧ r.proof.Q_commitment = 0 := by
  obtain ⟨r, hr⟩ := isOk_elim samples.toy_run (by decide)
  have h : samples.toy_run.map (fun r => (r.w_commitments, r.P_commitment, r.Q_commitment))
      = .ok ([3, 3], 1, 1) := by rfl
  rw [hr] at h
  simp only [Except.map, Except.ok.injEq, Prod.mk.injEq] at h
  have hc := proof_commitments_left_default 2 1 samples.dense
    samples.evaluations_commitment samples.running_transcript (fun _ => 1) (fun _ _ => 0)
    samples.toy_data (fun assignments => assignments) [[3], [3]] [] r hr
  exact ⟨r, hr, h.1, h.2.1, h.2.2, hc.2.2.2.2.1, hc.2.2.2.2.2.1, hc.2.2.2.2.2.2⟩

/-- C12. What the code does: in every completed run of `process` the proof contains exactly
`N_perm + 1` quotient-piece commitments, while `T` is split into `N_T` pieces with
`N_T >= N_perm + 1`; the two numbers differ whenever `N_T > N_perm + 1`. -/
theorem quotient_commitments_count {F Poly Tree D LProof TS : Type} [Field F]
    (WiresAmount k : Nat) (P : polynomial_ops F Poly)
    (L : list_polynomial_commitment_scheme F Poly Tree D LProof)
    (FS : fiat_shamir_heuristic TS D F) (n_i : Nat → Nat) (d_i_j : Nat → Nat → Nat)
    (preprocessed_data : preprocessed_data_type F Poly)
    (polynoms : List (List F) → List Poly) (assignments : List (List F)) (PI : List F)
    (r : locals F Poly Tree D LProof TS)
    (hrun : process_run WiresAmount k P L FS n_i d_i_j preprocessed_data polynoms
      assignments PI = .ok r) :
    r.proof.T_commitments.length = preprocessed_data.permutations.length + 1
    ∧ r.T.length = r.N_T
    ∧ preprocessed_data.permutations.length + 1 ≤ r.N_T
    ∧ preprocessed_data.permutations.length ≤ r.N_T := by
  have h := process_run_proof WiresAmount k P L FS n_i d_i_j preprocessed_data polynoms
    assignments PI r hrun
  obtain ⟨hproof, _, _, _, hT, hperm, hle, _, hcomm, _, _⟩ := h
  rw [hperm] at hle hcomm
  refine ⟨?_, ?_, hle, by omega⟩
  · rw [hproof]
    simp [hcomm]
  · rw [hT]
    simp

/-- Witness for C12, at the failing input: with the constraint `X^4` the vector `T` has
`N_T = 4` pieces and the proof holds `3` quotient commitments. -/
theorem quotient_commitments_count_witness :
    ∃ r, samples.toy_run_quartic = .ok r
      ∧ r.N_T = 4 ∧ r.T.length = 4 ∧ r.proof.T_commitments.length = 2 + 1 := by
  obtain ⟨r, hr⟩ := isOk_elim samples.toy_run_quartic (by decide)
  have h : samples.toy_run_quartic.map (fun r => (r.N_T, r.T.length)) = .ok (4, 4) := by rfl
  rw [hr] at h
  simp only [Except.map, Except.ok.injEq, Prod.mk.injEq] at h
  exact ⟨r, hr, h.1, h.2, (quotient_commitments_count 2 1 samples.dense
    samples.evaluations_commitment samples.running_transcript (fun _ => 1) (fun _ _ => 0)
    samples.toy_data_quartic (fun assignments => assignments) [[3], [3]] [] r hr).1⟩

/-- C13. What the code does: in every completed run of `process` the proof holds
`N_perm + 1` quotient commitments, the roots of `commit(T[i], D_0)`, but `2 (N_perm + 1)`
quotient opening proofs: the first `N_perm + 1` entries of `T_lpc_proofs` are
default-constructed, and the opening proof of `T[i]` is the entry `N_perm + 1 + i`. -/
theorem quotient_opening_proofs_shifted {F Poly Tree D LProof TS : Type} [Field F]
    (WiresAmount k : Nat) (P : polynomial_ops F Poly)
    (L : list_polynomial_commitment_scheme F Poly Tree D LProof)
    (FS : fiat_shamir_heuristic TS D F) (n_i : Nat → Nat) (d_i_j : Nat → Nat → Nat)
    (preprocessed_data : preprocessed_data_type F Poly)
    (polynoms : List (List F) → List Poly) (assignments : List (List F)) (PI : List F)
    (r : locals F Poly Tree D LProof TS)
    (hrun : process_run WiresAmount k P L FS n_i d_i_j preprocessed_data polynoms
      assignments PI = .ok r) :
    r.proof.T_commitments
      = (List.range (preprocessed_data.permutations.length + 1)).map
          (fun i => L.root (L.commit (r.T.getD i P.empty) r.D_0))
    ∧ r.proof.T_lpc_proofs
      = List.replicate (preprocessed_data.permutations.length + 1) L.default_proof
        ++ (List.range (preprocessed_data.permutations.length + 1)).map
            (fun i => L.proof_eval r.fT_evaluation_points
              (L.commit (r.T.getD i P.empty) r.D_0) (r.T.getD i P.empty) r.D_0)
    ∧ r.proof.T_commitments.length = preprocessed_data.permutations.length + 1
    ∧ r.proof.T_lpc_proofs.length = 2 * (preprocessed_data.permutations.length + 1) := by
  have h := process_run_proof WiresAmount k P L FS n_i d_i_j preprocessed_data polynoms
    assignments PI r hrun
  obtain ⟨hproof, _, _, _, _, hperm, _, _, hcomm, _, hproofs⟩ := h
  rw [hperm] at hcomm hproofs
  have h1 : r.proof.T_commitments = r.T_commitments := by rw [hproof]
  have h2 : r.proof.T_lpc_proofs = r.T_lpc_proofs := by rw [hproof]
  refine ⟨h1.trans hcomm, h2.trans hproofs, ?_, ?_⟩
  · rw [h1, hcomm]
    simp
  · rw [h2, hproofs]
    simp
    omega

/-- Witness for C13, at the failing input: on the toy data the proof holds the three quotient
commitments `[1, 1, 1]` and six opening proofs, of which the first three are the default `[]`
and the last three the opening proofs `[0, 1]` of the three pieces. -/
theorem quotient_opening_proofs_shifted_witness :
    ∃ r, samples.toy_run = .ok r
      ∧ r.proof.T_commitments = [1, 1, 1]
      ∧ r.proof.T_lpc_proofs = [[], [], [], [0, 1], [0, 1], [0, 1]]
      ∧ r.proof.T_lpc_proofs.length = 2 * (2 + 1) := by
  obtain ⟨r, hr⟩ := isOk_elim samples.toy_run (by decide)
  have h : samples.toy_run.map (fun r => (r.proof.T_commitments, r.proof.T_lpc_proofs))
      = .ok ([1, 1, 1], [[], [], [], [0, 1], [0, 1], [0, 1]]) := by rfl
  rw [hr] at h
  simp only [Except.map, Except.ok.injEq, Prod.mk.injEq] at h
  exact ⟨r, hr, h.1, h.2, (quotient_opening_proofs_shifted 2 1 samples.dense
    samples.evaluations_commitment samples.running_transcript (fun _ => 1) (fun _ _ => 0)
    samples.toy_data (fun assignments => assignments) [[3], [3]] [] r hr).2.2.2⟩

/-- C14. What the code does: in every completed run of `process` no opening proof is
requested for the wires, for `P` or for `Q`: `f_lpc_proofs` holds `WiresAmount`
default-constructed proofs, and `P_lpc_proof` and `Q_lpc_proof` are default-constructed. -/
theorem wire_and_PQ_openings_left_default {F Poly Tree D LProof TS : Type} [Field F]
    (WiresAmount k : Nat) (P : polynomial_ops F Poly)
    (L : list_polynomial_commitment_scheme F Poly Tree D LProof)
    (FS : fiat_shamir_heuristic TS D F) (n_i : Nat → Nat) (d_i_j : Nat → Nat → Nat)
    (preprocessed_data : preprocessed_data_type F Poly)
    (polynoms : List (List F) → List Poly) (assignments : List (List F)) (PI : List F)
    (r : locals F Poly Tree D LProof TS)
    (hrun : process_run WiresAmount k P L FS n_i d_i_j preprocessed_data polynoms
      assignments PI = .ok r) :
    r.proof.f_lpc_proofs = List.replicate WiresAmount L.default_proof
    ∧ r.proof.P_lpc_proof = L.default_proof
    ∧ r.proof.Q_lpc_proof = L.default_proof := by
  have h := process_run_proof WiresAmount k P L FS n_i d_i_j preprocessed_data polynoms
    assignments PI r hrun
  rw [h.1]
  exact ⟨rfl, rfl, rfl⟩

/-- Witness for C14, at the failing input: on the toy data the proof holds the default proofs
`[[], []]` for the wires and `[]` for `P` and `Q`, while the opening proof of `w[0]` at
`{upsilon}` is `[3, 3]` and those of `P` and `Q` at `{upsilon, upsilon * omega}` are
`[0, 0, 1]`. -/
theorem wire_and_PQ_openings_left_default_witness :
    ∃ r, samples.toy_run = .ok r
      ∧ r.proof.f_lpc_proofs = [[], []] ∧ r.proof.P_lpc_proof = []
      ∧ r.proof.Q_lpc_proof = []
      ∧ samples.evaluations_commitment.proof_eval [r.upsilon]
          (samples.evaluations_commitment.commit (r.w.getD 0 []) r.D_0) (r.w.getD 0 []) r.D_0
        = [3, 3]
      ∧ samples.evaluations_commitment.proof_eval
          [r.upsilon, r.upsilon * samples.toy_data.omega]
          (samples.evaluations_commitment.commit r.P r.D_0) r.P r.D_0 = [0, 0, 1]
      ∧ samples.evaluations_commitment.proof_eval
          [r.upsilon, r.upsilon * samples.toy_data.omega]
          (samples.evaluations_commitment.commit r.Q r.D_0) r.Q r.D_0 = [0, 0, 1] := by
  obtain ⟨r, hr⟩ := isOk_elim samples.toy_run (by decide)
  have h : samples.toy_run.map (fun r =>
      (samples.evaluations_commitment.proof_eval [r.upsilon]
        (samples.evaluations_commitment.commit (r.w.getD 0 []) r.D_0) (r.w.getD 0 []) r.D_0,
       samples.evaluations_commitment.proof_eval
        [r.upsilon, r.upsilon * samples.toy_data.omega]
        (samples.evaluations_commitment.commit r.P r.D_0) r.P r.D_0,
       samples.evaluations_commitment.proof_eval
        [r.upsilon, r.upsilon * samples.toy_data.omega]
        (samples.evaluations_commitment.commit r.Q r.D_0) r.Q r.D_0))
      = .ok ([3, 3], [0, 0, 1], [0, 0, 1]) := by rfl
  rw [hr] at h
  simp only [Except.map, Except.ok.injEq, Prod.mk.injEq] at h
  have hc := wire_and_PQ_openings_left_default 2 1 samples.dense
    samples.evaluations_commitment samples.running_transcript (fun _ => 1) (fun _ _ => 0)
    samples.toy_data (fun assignments => assignments) [[3], [3]] [] r hr
  exact ⟨r, hr, hc.1, hc.2.1, hc.2.2, h.1, h.2.1, h.2.2⟩

end redshift_prover

/-! ### The Redshift prover: the intermediate polynomials -/

namespace redshift_prover

/-- The locals of a completed run of `process` that the rounds compute, in terms of the loops
that compute them. -/
theorem process_run_locals {F Poly Tree D LProof TS : Type} [Field F] (WiresAmount k : Nat)
    (P : polynomial_ops F Poly) (L : list_polynomial_commitment_scheme F Poly Tree D LProof)
    (FS : fiat_shamir_heuristic TS D F) (n_i : Nat → Nat) (d_i_j : Nat → Nat → Nat)
    (preprocessed_data : preprocessed_data_type F Poly)
    (polynoms : List (List F) → List Poly) (assignments : List (List F)) (PI : List F)
    (r : locals F Poly Tree D LProof TS)
    (hrun : process_run WiresAmount k P L FS n_i d_i_j preprocessed_data polynoms
      assignments PI = .ok r) :
    r.n = assignments.foldl (fun n wire_assignments => max n wire_assignments.length) 0
    ∧ r.D_0 = pure_loop 1 (r.n + 1)
        (fun power D_0 => D_0 ++ [preprocessed_data.omega ^ power]) (List.replicate r.n 0)
    ∧ r.N_perm = preprocessed_data.permutations.length
    ∧ r.N_sel = preprocessed_data.selectors.length
    ∧ r.f = r.w ++ (List.replicate (r.N_perm + PI.length) P.empty).drop r.w.length
    ∧ for_loop 0 r.N_perm
        (pq_body P r.f preprocessed_data.identity_permutations preprocessed_data.permutations
          r.beta r.gamma)
        { p := List.replicate r.N_perm P.empty, q := List.replicate r.N_perm P.empty,
          p1 := P.of_list [1], q1 := P.of_list [1] }
      = .ok { p := r.p, q := r.q, p1 := r.p1, q1 := r.q1 }
    ∧ (r.P_interpolation_points, r.Q_interpolation_points)
      = pure_loop 2 (r.n + 1 + 1) (interpolation_body P preprocessed_data.omega r.p1 r.q1)
          (List.replicate (r.n + 1) (0, 0) ++ [(preprocessed_data.omega, 1)],
            List.replicate (r.n + 1) (0, 0))
    ∧ for_loop 0 r.N_sel (gates_body P preprocessed_data.constraints r.tau n_i d_i_j)
        (List.replicate r.N_sel P.empty, r.N_perm) = .ok (r.gates, r.N_T)
    ∧ for_loop 0 r.N_sel (F_body P r.gates) (fun _ => P.empty) = .ok r.F_
    ∧ r.F_consolidated = (List.finRange 11).foldl
        (fun F_consolidated i => P.add F_consolidated (P.scalar_mul (r.alphas i) (r.F_ i)))
        (P.of_list [0])
    ∧ r.T_consolidated = P.div r.F_consolidated preprocessed_data.Z := by
  simp only [process_run, bind_eq_ok] at hrun
  obtain ⟨wires, _, h2⟩ := hrun
  split at h2
  · simp only [pure_bind, bind_eq_ok] at h2
    obtain ⟨gh, _, pq, hpq, gt, hgt, F_, hF, tc, _, tp, _, hr⟩ := h2
    simp only [pure, Except.pure, Except.ok.injEq] at hr
    subst hr
    exact ⟨rfl, rfl, rfl, rfl, rfl, hpq, rfl, hgt, hF, rfl, rfl⟩
  · rw [bind_eq_ok] at h2
    obtain ⟨_, h, _⟩ := h2
    cases h

/-- A loop that appends one element per iteration appends the elements in increasing order. -/
theorem pure_loop_append {α : Type} (g : Nat → α) (count : Nat) :
    ∀ (lo : Nat) (init : List α),
      (List.range' lo count).foldl (fun acc i => acc ++ [g i]) init
        = init ++ (List.range' lo count).map g := by
  induction count with
  | zero => intro lo init; simp
  | succ c ih =>
    intro lo init
    rw [List.range'_succ, List.foldl_cons, ih, List.map_cons, List.append_assoc]
    rfl

/-- The inner loop of lines 206-209 multiplies each accumulator by the same value at every
iteration. -/
theorem repeated_product {F : Type} [Field F] (a b : F) (count : Nat) :
    ∀ (lo : Nat) (m : F × F),
      (List.range' lo count).foldl (fun (m : F × F) (_j : Nat) => (m.1 * a, m.2 * b)) m
        = (m.1 * a ^ count, m.2 * b ^ count) := by
  induction count with
  | zero => intro lo m; simp
  | succ c ih =>
    intro lo m
    rw [List.range'_succ, List.foldl_cons, ih]
    simp only [pow_succ, Prod.mk.injEq]
    constructor <;> ring

/-- The loop of lines 200-215 appends, for `i = 2, ..., n + 1`, the point `omega^i` with the
value `p1(omega^i)^(i - 1)`, resp. `q1(omega^i)^(i - 1)`. -/
theorem interpolation_loop_result {F Poly : Type} [Field F] (P : polynomial_ops F Poly)
    (omega : F) (p1 q1 : Poly) (count : Nat) :
    ∀ (lo : Nat) (s : List (F × F) × List (F × F)),
      (List.range' lo count).foldl (fun s i => interpolation_body P omega p1 q1 i s) s
        = (s.1 ++ (List.range' lo count).map
              (fun i => (omega ^ i, P.evaluate p1 (omega ^ i) ^ (i - 1))),
           s.2 ++ (List.range' lo count).map
              (fun i => (omega ^ i, P.evaluate q1 (omega ^ i) ^ (i - 1)))) := by
  induction count with
  | zero => intro lo s; simp
  | succ c ih =>
    intro lo s
    rw [List.range'_succ, List.foldl_cons, ih]
    simp only [interpolation_body, pure_loop, repeated_product, one_mul, List.map_cons,
      List.append_assoc, List.singleton_append]

/-- The loop of lines 181-189, when it completes, has appended the computed polynomials after
the `N_perm` default-constructed entries that `p` and `q` already held, and has multiplied
`p1` and `q1` by the default-constructed entries `p[j]`, `q[j]` for `j < N_perm`. -/
theorem pq_loop_result {F Poly : Type} [Field F] (P : polynomial_ops F Poly)
    (f S_id S_sigma : List Poly) (beta gamma : F) (N_perm : Nat) (s1 : pq_loop_state Poly)
    (hrun : for_loop 0 N_perm (pq_body P f S_id S_sigma beta gamma)
      { p := List.replicate N_perm P.empty, q := List.replicate N_perm P.empty,
        p1 := P.of_list [1], q1 := P.of_list [1] } = .ok s1) :
    s1.p = List.replicate N_perm P.empty ++ (List.range N_perm).map
        (fun j => P.add_scalar
          (P.add (f.getD j P.empty) (P.scalar_mul beta (S_id.getD j P.empty))) gamma)
    ∧ s1.q = List.replicate N_perm P.empty ++ (List.range N_perm).map
        (fun j => P.add_scalar
          (P.add (f.getD j P.empty) (P.scalar_mul beta (S_sigma.getD j P.empty))) gamma)
    ∧ s1.p1 = (List.range N_perm).foldl (fun acc _ => P.mul acc P.empty) (P.of_list [1])
    ∧ s1.q1 = (List.range N_perm).foldl (fun acc _ => P.mul acc P.empty) (P.of_list [1]) := by
  refine for_loop_invariant
    (fun i (s : pq_loop_state Poly) =>
      s.p = List.replicate N_perm P.empty ++ (List.range i).map
          (fun j => P.add_scalar
            (P.add (f.getD j P.empty) (P.scalar_mul beta (S_id.getD j P.empty))) gamma)
      ∧ s.q = List.replicate N_perm P.empty ++ (List.range i).map
          (fun j => P.add_scalar
            (P.add (f.getD j P.empty) (P.scalar_mul beta (S_sigma.getD j P.empty))) gamma)
      ∧ s.p1 = (List.range i).foldl (fun acc _ => P.mul acc P.empty) (P.of_list [1])
      ∧ s.q1 = (List.range i).foldl (fun acc _ => P.mul acc P.empty) (P.of_list [1]))
    (pq_body P f S_id S_sigma beta gamma) 0 N_perm (Nat.zero_le _) _ s1 (by simp) ?_ hrun
  intro i t t1 _ hlt hinv hbody
  obtain ⟨hp, hq, hp1, hq1⟩ := hinv
  simp only [pq_body, bind_eq_ok, at_index_eq_ok, pure, Except.pure, Except.ok.injEq] at hbody
  obtain ⟨S_id_i, hSid, f_i, hf, S_sigma_i, hSsigma, p_i, hpi, q_i, hqi, ht1⟩ := hbody
  have hgf : f.getD i P.empty = f_i := by
    rw [List.getD_eq_getElem?_getD, hf]; rfl
  have hgid : S_id.getD i P.empty = S_id_i := by
    rw [List.getD_eq_getElem?_getD, hSid]; rfl
  have hgsigma : S_sigma.getD i P.empty = S_sigma_i := by
    rw [List.getD_eq_getElem?_getD, hSsigma]; rfl
  have hpi1 : p_i = P.empty := by
    rw [hp, List.append_assoc, List.getElem?_append_left (by simp [hlt]),
      List.getElem?_replicate] at hpi
    simp only [hlt, if_true] at hpi
    exact (Option.some.inj hpi).symm
  have hqi1 : q_i = P.empty := by
    rw [hq, List.append_assoc, List.getElem?_append_left (by simp [hlt]),
      List.getElem?_replicate] at hqi
    simp only [hlt, if_true] at hqi
    exact (Option.some.inj hqi).symm
  subst ht1
  refine ⟨?_, ?_, ?_, ?_⟩
  · simp only [hp, List.range_succ, List.map_append, List.map_cons, List.map_nil, hgf, hgid,
      List.append_assoc]
  · simp only [hq, List.range_succ, List.map_append, List.map_cons, List.map_nil, hgf,
      hgsigma, List.append_assoc]
  · simp only [hp1, hpi1, List.range_succ, List.foldl_append, List.foldl_cons, List.foldl_nil]
  · simp only [hq1, hqi1, List.range_succ, List.foldl_append, List.foldl_cons, List.foldl_nil]

/-- The loop of lines 275-277, when it completes, has added every gate to `F[5]` and has left
the other ten entries of `F` as they were. -/
theorem F_loop_result {F Poly : Type} (P : polynomial_ops F Poly) (gates : List Poly)
    (N_sel : Nat) (F0 F1 : Fin 11 → Poly)
    (hrun : for_loop 0 N_sel (F_body P gates) F0 = .ok F1) :
    (∀ i : Fin 11, i ≠ 5 → F1 i = F0 i)
    ∧ F1 5 = (List.range N_sel).foldl (fun acc i => P.add acc (gates.getD i P.empty)) (F0 5) := by
  refine for_loop_invariant
    (fun n (F_ : Fin 11 → Poly) =>
      (∀ i : Fin 11, i ≠ 5 → F_ i = F0 i)
      ∧ F_ 5 = (List.range n).foldl (fun acc i => P.add acc (gates.getD i P.empty)) (F0 5))
    (F_body P gates) 0 N_sel (Nat.zero_le _) _ F1 (by simp) ?_ hrun
  intro i t t1 _ _ hinv hbody
  simp only [F_body, bind_eq_ok, at_index_eq_ok, pure, Except.pure, Except.ok.injEq] at hbody
  obtain ⟨gates_i, hg, ht1⟩ := hbody
  have hget : gates.getD i P.empty = gates_i := by
    rw [List.getD_eq_getElem?_getD, hg]; rfl
  subst ht1
  refine ⟨fun j hj => ?_, ?_⟩
  · rw [Function.update_noteq hj]
    exact hinv.1 j hj
  · simp only [Function.update_same, hinv.2, List.range_succ, List.foldl_append,
      List.foldl_cons, List.foldl_nil, hget]

/-- C25. What the code does: in every completed run of `process` the vector `D_0` holds `2 n`
elements, where `n` is the maximum length over the wire assignments: `n` value-initialised
(zero) elements followed by the powers `omega^1, ..., omega^n`. -/
theorem domain_holds_leading_zeros {F Poly Tree D LProof TS : Type} [Field F]
    (WiresAmount k : Nat) (P : polynomial_ops F Poly)
    (L : list_polynomial_commitment_scheme F Poly Tree D LProof)
    (FS : fiat_shamir_heuristic TS D F) (n_i : Nat → Nat) (d_i_j : Nat → Nat → Nat)
    (preprocessed_data : preprocessed_data_type F Poly)
    (polynoms : List (List F) → List Poly) (assignments : List (List F)) (PI : List F)
    (r : locals F Poly Tree D LProof TS)
    (hrun : process_run WiresAmount k P L FS n_i d_i_j preprocessed_data polynoms
      assignments PI = .ok r) :
    r.n = assignments.foldl (fun n wire_assignments => max n wire_assignments.length) 0
    ∧ r.D_0 = List.replicate r.n 0
        ++ (List.range' 1 r.n).map (fun power => preprocessed_data.omega ^ power)
    ∧ r.D_0.length = 2 * r.n := by
  have h := process_run_locals WiresAmount k P L FS n_i d_i_j preprocessed_data polynoms
    assignments PI r hrun
  have hD : r.D_0 = List.replicate r.n 0
      ++ (List.range' 1 r.n).map (fun power => preprocessed_data.omega ^ power) := by
    rw [h.2.1]
    simp only [pure_loop, Nat.add_sub_cancel]
    exact pure_loop_append _ _ _ _
  refine ⟨h.1, hD, ?_⟩
  rw [hD]
  simp
  omega

/-- Witness for C25, at the failing input: on the toy data `n = 1` and `D_0 = [0, omega]`. -/
theorem domain_holds_leading_zeros_witness :
    ∃ r, samples.toy_run = .ok r ∧ r.n = 1 ∧ r.D_0 = [0, 1] ∧ r.D_0.length = 2 * r.n := by
  obtain ⟨r, hr⟩ := isOk_elim samples.toy_run (by decide)
  have h : samples.toy_run.map (fun r => (r.n, r.D_0)) = .ok (1, [0, 1]) := by rfl
  rw [hr] at h
  simp only [Except.map, Except.ok.injEq, Prod.mk.injEq] at h
  exact ⟨r, hr, h.1, h.2, (domain_holds_leading_zeros 2 1 samples.dense
    samples.evaluations_commitment samples.running_transcript (fun _ => 1) (fun _ _ => 0)
    samples.toy_data (fun assignments => assignments) [[3], [3]] [] r hr).2.2⟩

/-- C22. What the code does: in every completed run of `process`, `p` and `q` hold `N_perm`
default-constructed polynomials followed by the `N_perm` computed ones, so for `j < N_perm`
the entry `p[j]` is default-constructed and `f[j] + beta * S_id[j] + gamma` is the entry
`p[N_perm + j]` (likewise for `q` with `S_sigma`); `p1` and `q1` are the products, from
`{1}`, of the default-constructed entries `p[j]`, `q[j]` for `j < N_perm`. -/
theorem permutation_polynomials_shifted {F Poly Tree D LProof TS : Type} [Field F]
    (WiresAmount k : Nat) (P : polynomial_ops F Poly)
    (L : list_polynomial_commitment_scheme F Poly Tree D LProof)
    (FS : fiat_shamir_heuristic TS D F) (n_i : Nat → Nat) (d_i_j : Nat → Nat → Nat)
    (preprocessed_data : preprocessed_data_type F Poly)
    (polynoms : List (List F) → List Poly) (assignments : List (List F)) (PI : List F)
    (r : locals F Poly Tree D LProof TS)
    (hrun : process_run WiresAmount k P L FS n_i d_i_j preprocessed_data polynoms
      assignments PI = .ok r) :
    r.p = List.replicate r.N_perm P.empty ++ (List.range r.N_perm).map
        (fun j => P.add_scalar (P.add (r.f.getD j P.empty)
          (P.scalar_mul r.beta (preprocessed_data.identity_permutations.getD j P.empty)))
          r.gamma)
    ∧ r.q = List.replicate r.N_perm P.empty ++ (List.range r.N_perm).map
        (fun j => P.add_scalar (P.add (r.f.getD j P.empty)
          (P.scalar_mul r.beta (preprocessed_data.permutations.getD j P.empty))) r.gamma)
    ∧ (∀ j, j < r.N_perm → r.p[j]? = some P.empty ∧ r.q[j]? = some P.empty)
    ∧ r.p1 = (List.range r.N_perm).foldl (fun acc _ => P.mul acc P.empty) (P.of_list [1])
    ∧ r.q1 = (List.range r.N_perm).foldl (fun acc _ => P.mul acc P.empty) (P.of_list [1])
    ∧ r.N_perm = preprocessed_data.permutations.length := by
  have h := process_run_locals WiresAmount k P L FS n_i d_i_j preprocessed_data polynoms
    assignments PI r hrun
  have hpq := pq_loop_result P _ _ _ _ _ _ _ h.2.2.2.2.2.1
  refine ⟨hpq.1, hpq.2.1, fun j hj => ⟨?_, ?_⟩, hpq.2.2.1, hpq.2.2.2, h.2.2.1⟩
  · have e : r.p = List.replicate r.N_perm P.empty ++ _ := hpq.1
    rw [e, List.getElem?_append_left (by simp [hj]), List.getElem?_replicate]
    simp [hj]
  · have e : r.q = List.replicate r.N_perm P.empty ++ _ := hpq.2.1
    rw [e, List.getElem?_append_left (by simp [hj]), List.getElem?_replicate]
    simp [hj]

/-- Witness for C22, at the failing input: on the toy data `p = [{}, {}, 3 X, 6 X]`, while
`f[0] + beta * S_id[0] + gamma = 3 + 3 X + 4 = 3 X`, and `p1 = q1 = 0`. -/
theorem permutation_polynomials_shifted_witness :
    ∃ r, samples.toy_run = .ok r
      ∧ r.p = [[], [], [0, 3], [0, 6]] ∧ r.q = [[], [], [0, 3], [0, 6]]
      ∧ samples.dense.add_scalar (samples.dense.add (r.f.getD 0 [])
          (samples.dense.scalar_mul r.beta
            (samples.toy_data.identity_permutations.getD 0 []))) r.gamma = [0, 3]
      ∧ r.p[0]? = some [] ∧ r.p1 = [0] ∧ r.q1 = [0] := by
  obtain ⟨r, hr⟩ := isOk_elim samples.toy_run (by decide)
  have h : samples.toy_run.map (fun r => (r.p, r.q, r.p1, r.q1,
      samples.dense.add_scalar (samples.dense.add (r.f.getD 0 [])
        (samples.dense.scalar_mul r.beta
          (samples.toy_data.identity_permutations.getD 0 []))) r.gamma))
      = .ok ([[], [], [0, 3], [0, 6]], [[], [], [0, 3], [0, 6]], [0], [0], [0, 3]) := by rfl
  rw [hr] at h
  simp only [Except.map, Except.ok.injEq, Prod.mk.injEq] at h
  have hc := permutation_polynomials_shifted 2 1 samples.dense
    samples.evaluations_commitment samples.running_transcript (fun _ => 1) (fun _ _ => 0)
    samples.toy_data (fun assignments => assignments) [[3], [3]] [] r hr
  have hlt : 0 < r.N_perm := by rw [hc.2.2.2.2.2]; decide
  exact ⟨r, hr, h.1, h.2.1, h.2.2.2.2, (hc.2.2.1 0 hlt).1, h.2.2.1, h.2.2.2.1⟩

/-- C23. What the code does: in every completed run of `process` the point list for `P` holds
`n + 1` value-initialised (zero) pairs, then `(omega, 1)`, then for `i = 2, ..., n + 1` the
point `omega^i` with the value `p1(omega^i)^(i - 1)`; the point list for `Q` holds `n + 1`
zero pairs and then, for `i = 2, ..., n + 1`, the point `omega^i` with the value
`q1(omega^i)^(i - 1)`, without the pair `(omega, 1)`. -/
theorem interpolation_points_layout {F Poly Tree D LProof TS : Type} [Field F]
    (WiresAmount k : Nat) (P : polynomial_ops F Poly)
    (L : list_polynomial_commitment_scheme F Poly Tree D LProof)
    (FS : fiat_shamir_heuristic TS D F) (n_i : Nat → Nat) (d_i_j : Nat → Nat → Nat)
    (preprocessed_data : preprocessed_data_type F Poly)
    (polynoms : List (List F) → List Poly) (assignments : List (List F)) (PI : List F)
    (r : locals F Poly Tree D LProof TS)
    (hrun : process_run WiresAmount k P L FS n_i d_i_j preprocessed_data polynoms
      assignments PI = .ok r) :
    r.P_interpolation_points
      = List.replicate (r.n + 1) (0, 0) ++ (preprocessed_data.omega, 1)
        :: (List.range' 2 r.n).map (fun i => (preprocessed_data.omega ^ i,
            P.evaluate r.p1 (preprocessed_data.omega ^ i) ^ (i - 1)))
    ∧ r.Q_interpolation_points
      = List.replicate (r.n + 1) (0, 0)
        ++ (List.range' 2 r.n).map (fun i => (preprocessed_data.omega ^ i,
            P.evaluate r.q1 (preprocessed_data.omega ^ i) ^ (i - 1))) := by
  have h := (process_run_locals WiresAmount k P L FS n_i d_i_j preprocessed_data polynoms
    assignments PI r hrun).2.2.2.2.2.2.1
  simp only [pure_loop, Nat.add_sub_cancel, interpolation_loop_result, Prod.mk.injEq,
    List.append_assoc, List.singleton_append] at h
  exact h

/-- Witness for C23, at the failing input: on the toy data the point list for `P` is
`[(0, 0), (0, 0), (omega, 1), (omega^2, 0)]` and the point list for `Q` is
`[(0, 0), (0, 0), (omega^2, 0)]`. -/
theorem interpolation_points_layout_witness :
    ∃ r, samples.toy_run = .ok r
      ∧ r.P_interpolation_points = [(0, 0), (0, 0), (1, 1), (1, 0)]
      ∧ r.Q_interpolation_points = [(0, 0), (0, 0), (1, 0)] := by
  obtain ⟨r, hr⟩ := isOk_elim samples.toy_run (by decide)
  have h : samples.toy_run.map (fun r => (r.n, r.p1, r.q1)) = .ok (1, [0], [0]) := by rfl
  rw [hr] at h
  simp only [Except.map, Except.ok.injEq, Prod.mk.injEq] at h
  have hc := interpolation_points_layout 2 1 samples.dense
    samples.evaluations_commitment samples.running_transcript (fun _ => 1) (fun _ _ => 0)
    samples.toy_data (fun assignments => assignments) [[3], [3]] [] r hr
  rw [h.1, h.2.1, h.2.2] at hc
  exact ⟨r, hr, hc.1.trans (by decide), hc.2.trans (by decide)⟩

/-- C26. What the code does: in every completed run of `process`, `F_consolidated` is `{0}`
plus the sum over `i < 11` of `alpha[i] * F[i]`, but of the constraint categories only the gate
sum is present: `F[5]` is the sum of the gates and every other entry of `F`, the boundary and
recurrence entries `F[0], ..., F[4]` among them, is a default-constructed polynomial. -/
theorem consolidated_sum_holds_gates_only {F Poly Tree D LProof TS : Type} [Field F]
    (WiresAmount k : Nat) (P : polynomial_ops F Poly)
    (L : list_polynomial_commitment_scheme F Poly Tree D LProof)
    (FS : fiat_shamir_heuristic TS D F) (n_i : Nat → Nat) (d_i_j : Nat → Nat → Nat)
    (preprocessed_data : preprocessed_data_type F Poly)
    (polynoms : List (List F) → List Poly) (assignments : List (List F)) (PI : List F)
    (r : locals F Poly Tree D LProof TS)
    (hrun : process_run WiresAmount k P L FS n_i d_i_j preprocessed_data polynoms
      assignments PI = .ok r) :
    r.F_consolidated = (List.finRange 11).foldl
        (fun F_consolidated i => P.add F_consolidated (P.scalar_mul (r.alphas i) (r.F_ i)))
        (P.of_list [0])
    ∧ (∀ i : Fin 11, i ≠ 5 → r.F_ i = P.empty)
    ∧ r.F_ 5 = (List.range r.N_sel).foldl
        (fun acc i => P.add acc (r.gates.getD i P.empty)) P.empty := by
  have h := process_run_locals WiresAmount k P L FS n_i d_i_j preprocessed_data polynoms
    assignments PI r hrun
  have hF := F_loop_result P _ _ _ _ h.2.2.2.2.2.2.2.2.1
  exact ⟨h.2.2.2.2.2.2.2.2.2.1, hF.1, hF.2⟩

/-- Witness for C26, at the failing input: on the toy data `F[5] = X^3` and the other entries
are empty, `F[0]` among them, while `L_1 * (P - 1)` for the committed `P` and the Lagrange
polynomial `L_1 = 1` of the one-point domain is the constant `6 = -1`. -/
theorem consolidated_sum_holds_gates_only_witness :
    ∃ r, samples.toy_run = .ok r
      ∧ List.ofFn r.F_ = [[], [], [], [], [], [0, 0, 0, 1], [], [], [], [], []]
      ∧ r.F_ 0 = []
      ∧ samples.dense.mul [1] (samples.dense.add_scalar r.P (-1)) = [6] := by
  obtain ⟨r, hr⟩ := isOk_elim samples.toy_run (by decide)
  have h : samples.toy_run.map (fun r => (List.ofFn r.F_,
      samples.dense.mul [1] (samples.dense.add_scalar r.P (-1))))
      = .ok ([[], [], [], [], [], [0, 0, 0, 1], [], [], [], [], []], [6]) := by rfl
  rw [hr] at h
  simp only [Except.map, Except.ok.injEq, Prod.mk.injEq] at h
  exact ⟨r, hr, h.1, (consolidated_sum_holds_gates_only 2 1 samples.dense
    samples.evaluations_commitment samples.running_transcript (fun _ => 1) (fun _ _ => 0)
    samples.toy_data (fun assignments => assignments) [[3], [3]] [] r hr).2.1 0 (by decide), h.2⟩

/-- C27. What the code does: in every completed run of `process` the `N_T` polynomials `T[i]`
that are committed are default-constructed, whatever the quotient `T_consolidated` is: they
are not a split of it. -/
theorem quotient_pieces_left_default {F Poly Tree D LProof TS : Type} [Field F]
    (WiresAmount k : Nat) (P : polynomial_ops F Poly)
    (L : list_polynomial_commitment_scheme F Poly Tree D LProof)
    (FS : fiat_shamir_heuristic TS D F) (n_i : Nat → Nat) (d_i_j : Nat → Nat → Nat)
    (preprocessed_data : preprocessed_data_type F Poly)
    (polynoms : List (List F) → List Poly) (assignments : List (List F)) (PI : List F)
    (r : locals F Poly Tree D LProof TS)
    (hrun : process_run WiresAmount k P L FS n_i d_i_j preprocessed_data polynoms
      assignments PI = .ok r) :
    r.T = List.replicate r.N_T P.empty
    ∧ r.T.length = r.N_T
    ∧ r.T_consolidated = P.div r.F_consolidated preprocessed_data.Z
    ∧ r.T_commitments = (List.range (preprocessed_data.permutations.length + 1)).map
        (fun _ => L.root (L.commit P.empty r.D_0)) := by
  have h := process_run_proof WiresAmount k P L FS n_i d_i_j preprocessed_data polynoms
    assignments PI r hrun
  obtain ⟨_, _, _, _, hT, hperm, hle, _, hcomm, _, _⟩ := h
  refine ⟨hT, by rw [hT]; simp, (process_run_locals WiresAmount k P L FS n_i d_i_j preprocessed_data polynoms
    assignments PI r hrun).2.2.2.2.2.2.2.2.2.2, ?_⟩
  rw [hcomm, hperm]
  apply List.map_congr_left
  intro i hi
  have hi' : i < r.N_T := by
    have := List.mem_range.mp hi
    omega
  rw [hT, List.getD_eq_getElem?_getD, List.getElem?_replicate]
  simp [hi']

/-- Witness for C27, at the failing input: on the toy data the quotient is
`3 X^2 + 3 X + 3` and the three committed pieces are empty; they recombine to the zero
polynomial `[0, 0, 0]`. -/
theorem quotient_pieces_left_default_witness :
    ∃ r, samples.toy_run = .ok r
      ∧ r.T_consolidated = [3, 3, 3] ∧ r.T = [[], [], []]
      ∧ samples.recombine r.n 0 r.T = [0, 0, 0] := by
  obtain ⟨r, hr⟩ := isOk_elim samples.toy_run (by decide)
  have h : samples.toy_run.map (fun r => (r.T_consolidated, r.N_T,
      samples.recombine r.n 0 r.T)) = .ok ([3, 3, 3], 3, [0, 0, 0]) := by rfl
  rw [hr] at h
  simp only [Except.map, Except.ok.injEq, Prod.mk.injEq] at h
  have hc := (quotient_pieces_left_default 2 1 samples.dense
    samples.evaluations_commitment samples.running_transcript (fun _ => 1) (fun _ _ => 0)
    samples.toy_data (fun assignments => assignments) [[3], [3]] [] r hr).1
  rw [h.2.1] at hc
  exact ⟨r, hr, h.1, hc, h.2.2⟩

/-- C24. What the code does: in every completed run of `process` the committed `P` and `Q` are
default-constructed polynomials, so they are equal at every point and two runs on different
assignments commit the same `P` and `Q`: perturbing a wire cell does not break
`P(omega^n) = Q(omega^n)`. -/
theorem committed_P_Q_ignore_assignment {F Poly Tree D LProof TS : Type} [Field F]
    (WiresAmount k : Nat) (P : polynomial_ops F Poly)
    (L : list_polynomial_commitment_scheme F Poly Tree D LProof)
    (FS : fiat_shamir_heuristic TS D F) (n_i : Nat → Nat) (d_i_j : Nat → Nat → Nat)
    (preprocessed_data : preprocessed_data_type F Poly)
    (polynoms : List (List F) → List Poly) (assignments perturbed : List (List F))
    (PI : List F) (r r1 : locals F Poly Tree D LProof TS)
    (hrun : process_run WiresAmount k P L FS n_i d_i_j preprocessed_data polynoms
      assignments PI = .ok r)
    (hrun1 : process_run WiresAmount k P L FS n_i d_i_j preprocessed_data polynoms
      perturbed PI = .ok r1) :
    r.P = P.empty ∧ r.Q = P.empty ∧ r1.P = r.P ∧ r1.Q = r.Q
    ∧ (∀ x : F, P.evaluate r.P x = P.evaluate r.Q x)
    ∧ (∀ x : F, P.evaluate r1.P x = P.evaluate r1.Q x) := by
  have h := process_run_P_Q WiresAmount k P L FS n_i d_i_j preprocessed_data polynoms
    assignments PI r hrun
  have h1 := process_run_P_Q WiresAmount k P L FS n_i d_i_j preprocessed_data polynoms
    perturbed PI r1 hrun1
  refine ⟨h.1, h.2, by rw [h.1, h1.1], by rw [h.2, h1.2], fun x => ?_, fun x => ?_⟩
  · rw [h.1, h.2]
  · rw [h1.1, h1.2]

/-- Witness for C24, at the failing input: with the permutation that exchanges the two wires,
the runs on the assignment `[[3], [3]]` and on the perturbed assignment `[[3], [4]]` both
complete and commit the same empty `P` and `Q`, equal at `omega^n = 1`. -/
theorem committed_P_Q_ignore_assignment_witness :
    ∃ r r1, samples.toy_run_swap [[3], [3]] = .ok r
      ∧ samples.toy_run_swap [[3], [4]] = .ok r1
      ∧ r.w ≠ r1.w ∧ r1.P = r.P ∧ r1.Q = r.Q
      ∧ samples.dense.evaluate r1.P (samples.toy_data_swap.omega ^ r1.n)
        = samples.dense.evaluate r1.Q (samples.toy_data_swap.omega ^ r1.n) := by
  obtain ⟨r, hr⟩ := isOk_elim (samples.toy_run_swap [[3], [3]]) (by decide)
  obtain ⟨r1, hr1⟩ := isOk_elim (samples.toy_run_swap [[3], [4]]) (by decide)
  have hw : (samples.toy_run_swap [[3], [3]]).map (fun r => r.w) = .ok [[3], [3]] := by rfl
  have hw1 : (samples.toy_run_swap [[3], [4]]).map (fun r => r.w) = .ok [[3], [4]] := by rfl
  rw [hr] at hw
  rw [hr1] at hw1
  simp only [Except.map, Except.ok.injEq] at hw hw1
  have hc := committed_P_Q_ignore_assignment 2 1 samples.dense
    samples.evaluations_commitment samples.running_transcript (fun _ => 1) (fun _ _ => 0)
    samples.toy_data_swap (fun assignments => assignments) [[3], [3]] [[3], [4]] [] r r1 hr hr1
  refine ⟨r, r1, hr, hr1, ?_, hc.2.2.1, hc.2.2.2.1, hc.2.2.2.2.2 _⟩
  rw [hw, hw1]
  decide

/-- C29. What the code does: when there is no selector, `N_T = N_perm`, and the loops over
`0 <= i < N_perm + 1` read `T[N_perm]` past the end of `T`: no run of `process` on such an
input completes. -/
theorem quotient_index_out_of_range {F Poly Tree D LProof TS : Type} [Field F]
    (WiresAmount k : Nat) (P : polynomial_ops F Poly)
    (L : list_polynomial_commitment_scheme F Poly Tree D LProof)
    (FS : fiat_shamir_heuristic TS D F) (n_i : Nat → Nat) (d_i_j : Nat → Nat → Nat)
    (preprocessed_data : preprocessed_data_type F Poly)
    (polynoms : List (List F) → List Poly) (assignments : List (List F)) (PI : List F)
    (hsel : preprocessed_data.selectors = []) (r : locals F Poly Tree D LProof TS) :
    process_run WiresAmount k P L FS n_i d_i_j preprocessed_data polynoms assignments PI
      ≠ .ok r := by
  intro hrun
  have h := process_run_proof WiresAmount k P L FS n_i d_i_j preprocessed_data polynoms
    assignments PI r hrun
  have hl := process_run_locals WiresAmount k P L FS n_i d_i_j preprocessed_data polynoms
    assignments PI r hrun
  have hsel0 : r.N_sel = 0 := by rw [hl.2.2.2.1, hsel]; rfl
  have hg := hl.2.2.2.2.2.2.2.1
  rw [hsel0] at hg
  simp only [for_loop, Nat.sub_self, List.range'_zero, List.foldlM_nil, pure, Except.pure,
    Except.ok.injEq, Prod.mk.injEq] at hg
  have hle := h.2.2.2.2.2.2.1
  omega

/-- Witness for C29, at the failing input: the run on the toy data without selectors stops at
the read of `T[2]`, with `T` of length `N_T = N_perm = 2`. -/
theorem quotient_index_out_of_range_witness :
    samples.toy_data_no_selectors.selectors = []
    ∧ (∀ r, samples.toy_run_no_selectors ≠ .ok r)
    ∧ samples.toy_run_no_selectors = .error (.out_of_range .T 2) :=
  ⟨rfl, fun r => quotient_index_out_of_range 2 1 samples.dense
      samples.evaluations_commitment samples.running_transcript (fun _ => 1) (fun _ _ => 0)
      samples.toy_data_no_selectors (fun assignments => assignments) [[3], [3]] [] rfl r,
    by rfl⟩

/-- A loop whose body is replaced by one that completes with the same state whenever the
first body completes, completes with the same state. -/
theorem for_loop_congr_ok {σ : Type} (body1 body2 : Nat → σ → Except undefined_behaviour σ)
    (hbody : ∀ i s s1, body1 i s = .ok s1 → body2 i s = .ok s1) (lo hi : Nat) (s s1 : σ)
    (hrun : for_loop lo hi body1 s = .ok s1) : for_loop lo hi body2 s = .ok s1 := by
  unfold for_loop at hrun ⊢
  generalize List.range' lo (hi - lo) = l at hrun ⊢
  induction l generalizing s with
  | nil => exact hrun
  | cons i l ih =>
    rw [List.foldlM_cons, bind_eq_ok] at hrun ⊢
    obtain ⟨t, ht, hrest⟩ := hrun
    exact ⟨t, hbody i s t ht, ih t hrest⟩

/-- A read that is within a vector is the same read within the vector extended at its end. -/
theorem at_index_append {α : Type} (v : vector_name) (xs extra : List α) (i : Nat) (x : α)
    (h : at_index v xs i = .ok x) : at_index v (xs ++ extra) i = .ok x := by
  rw [at_index_eq_ok] at h ⊢
  have hlt : i < xs.length := by
    rcases Nat.lt_or_ge i xs.length with hlt | hge
    · exact hlt
    · rw [List.getElem?_eq_none hge] at h
      exact absurd h (by simp)
  rw [List.getElem?_append_left hlt]
  exact h

/-- C21, amended. `process` performs no configuration check: the numbers of permutation and
identity-permutation polynomials are never compared, and a run that completes on some
preprocessed data completes with the same locals, hence returns the same proof, on the data
that holds additional identity-permutation polynomials. -/
theorem no_configuration_check {F Poly Tree D LProof TS : Type} [Field F]
    (WiresAmount k : Nat) (P : polynomial_ops F Poly)
    (L : list_polynomial_commitment_scheme F Poly Tree D LProof)
    (FS : fiat_shamir_heuristic TS D F) (n_i : Nat → Nat) (d_i_j : Nat → Nat → Nat)
    (preprocessed_data : preprocessed_data_type F Poly)
    (polynoms : List (List F) → List Poly) (assignments : List (List F)) (PI : List F)
    (extra : List Poly) (r : locals F Poly Tree D LProof TS)
    (hrun : process_run WiresAmount k P L FS n_i d_i_j preprocessed_data polynoms
      assignments PI = .ok r) :
    process_run WiresAmount k P L FS n_i d_i_j
        { preprocessed_data with
          identity_permutations := preprocessed_data.identity_permutations ++ extra }
        polynoms assignments PI = .ok r
    ∧ (process WiresAmount k P L FS n_i d_i_j
        { preprocessed_data with
          identity_permutations := preprocessed_data.identity_permutations ++ extra }
        polynoms assignments PI : Except undefined_behaviour (proof_type D LProof))
      = .ok r.proof := by
  have hmain : process_run WiresAmount k P L FS n_i d_i_j
      { preprocessed_data with
        identity_permutations := preprocessed_data.identity_permutations ++ extra }
      polynoms assignments PI = .ok r := by
    simp only [process_run, bind_eq_ok] at hrun ⊢
    obtain ⟨wires, hw, h2⟩ := hrun
    refine ⟨wires, hw, ?_⟩
    split at h2
    · rename_i hcond
      rw [if_pos hcond]
      simp only [pure_bind, bind_eq_ok] at h2 ⊢
      obtain ⟨gh, hgh, pq, hpq, gt, hgt, F_, hF, tc, htc, tp, htp, hr⟩ := h2
      refine ⟨gh, ?_, pq, ?_, gt, hgt, F_, hF, tc, htc, tp, htp, hr⟩
      · refine for_loop_congr_ok _ _ (fun j s s1 hj => ?_) _ _ _ _ hgh
        unfold gh_body at hj ⊢
        refine for_loop_congr_ok _ _ (fun i t t1 hi => ?_) _ _ _ _ hj
        simp only [gh_inner_body, bind_eq_ok] at hi ⊢
        obtain ⟨f_j, hf, x, hx, S_id_j, hSid, S_sigma_j, hSsigma, ht⟩ := hi
        exact ⟨f_j, hf, x, hx, S_id_j, at_index_append _ _ _ _ _ hSid, S_sigma_j, hSsigma, ht⟩
      · refine for_loop_congr_ok _ _ (fun j s s1 hj => ?_) _ _ _ _ hpq
        simp only [pq_body, bind_eq_ok] at hj ⊢
        obtain ⟨S_id_j, hSid, f_j, hf, S_sigma_j, hSsigma, p_j, hp, q_j, hq, ht⟩ := hj
        exact ⟨S_id_j, at_index_append _ _ _ _ _ hSid, f_j, hf, S_sigma_j, hSsigma, p_j, hp,
          q_j, hq, ht⟩
    · rw [bind_eq_ok] at h2
      obtain ⟨_, h, _⟩ := h2
      cases h
  refine ⟨hmain, ?_⟩
  simp only [process, hmain]
  rfl

/-- Witness for the amended C21: the run on the toy data completes, and so does the run on the
toy data with a third identity-permutation polynomial, with the same proof. -/
theorem no_configuration_check_witness :
    ∃ r, samples.toy_run = .ok r ∧ samples.toy_run_extra_identity = .ok r
      ∧ process 2 1 samples.dense samples.evaluations_commitment samples.running_transcript
          (fun _ => 1) (fun _ _ => 0) samples.toy_data_extra_identity
          (fun assignments => assignments) [[3], [3]] [] = .ok r.proof := by
  obtain ⟨r, hr⟩ := isOk_elim samples.toy_run (by decide)
  have h := no_configuration_check 2 1 samples.dense
    samples.evaluations_commitment samples.running_transcript (fun _ => 1) (fun _ _ => 0)
    samples.toy_data (fun assignments => assignments) [[3], [3]] [] [[0, 3]] r hr
  exact ⟨r, hr, h.1, h.2⟩

/-- C21, counterexample. On preprocessed data with three identity-permutation polynomials for
two permutation polynomials, `process` does not fail before round 1: the run completes, the
two wire commitments have been committed and absorbed before beta, and a proof is returned. -/
theorem configuration_error_counterexample :
    samples.toy_data_extra_identity.identity_permutations.length
      ≠ samples.toy_data_extra_identity.permutations.length
    ∧ ∃ r, samples.toy_run_extra_identity = .ok r
      ∧ r.w_commitments = [3, 3]
      ∧ absorbed_before .beta r.transcript.log = some [(.w 0, 3), (.w 1, 3)]
      ∧ process 2 1 samples.dense samples.evaluations_commitment samples.running_transcript
          (fun _ => 1) (fun _ _ => 0) samples.toy_data_extra_identity
          (fun assignments => assignments) [[3], [3]] [] = .ok r.proof := by
  refine ⟨by decide, ?_⟩
  obtain ⟨r, hr⟩ := isOk_elim samples.toy_run_extra_identity (by decide)
  have h : samples.toy_run_extra_identity.map
      (fun r => (r.w_commitments, absorbed_before .beta r.transcript.log))
      = .ok ([3, 3], some [(.w 0, 3), (.w 1, 3)]) := by rfl
  rw [hr] at h
  simp only [Except.map, Except.ok.injEq, Prod.mk.injEq] at h
  refine ⟨r, hr, h.1, h.2, ?_⟩
  show Except.map _ samples.toy_run_extra_identity = _
  rw [hr]
  rfl

end redshift_prover

/-! ### The accumulative transcript -/

/-- C28. In the accumulative transcript, `challenge<Id, Field>()` and
`challenge<Id, Index, Field>()` return the field element one for every history of absorbed
data, every identifier and every index, and leave the accumulator unchanged; so two
transcripts with different absorbed data yield the same challenge. -/
theorem accumulative_challenge_is_one {B TAny Id F : Type} [One F]
    (h : fiat_shamir_heuristic_sequential.hash_type B) (pack : TAny → List B)
    (history history1 : List TAny) (id id1 : Id) (index index1 : Nat) :
    (fiat_shamir_heuristic_accumulative.challenge h
        (fiat_shamir_heuristic_accumulative.absorb_all pack
          fiat_shamir_heuristic_accumulative.init history) id : F × _)
      = (1, fiat_shamir_heuristic_accumulative.absorb_all pack
          fiat_shamir_heuristic_accumulative.init history)
    ∧ (fiat_shamir_heuristic_accumulative.challenge_indexed h
        (fiat_shamir_heuristic_accumulative.absorb_all pack
          fiat_shamir_heuristic_accumulative.init history) id index : F × _)
      = (1, fiat_shamir_heuristic_accumulative.absorb_all pack
          fiat_shamir_heuristic_accumulative.init history)
    ∧ (fiat_shamir_heuristic_accumulative.challenge h
        (fiat_shamir_heuristic_accumulative.absorb_all pack
          fiat_shamir_heuristic_accumulative.init history) id : F × _).1
      = (fiat_shamir_heuristic_accumulative.challenge h
        (fiat_shamir_heuristic_accumulative.absorb_all pack
          fiat_shamir_heuristic_accumulative.init history1) id1 : F × _).1
    ∧ (fiat_shamir_heuristic_accumulative.challenge_indexed h
        (fiat_shamir_heuristic_accumulative.absorb_all pack
          fiat_shamir_heuristic_accumulative.init history) id index : F × _).1
      = (fiat_shamir_heuristic_accumulative.challenge_indexed h
        (fiat_shamir_heuristic_accumulative.absorb_all pack
          fiat_shamir_heuristic_accumulative.init history1) id1 index1 : F × _).1 :=
  ⟨rfl, rfl, rfl, rfl⟩

/-! ### The SHA-256 round function gadget -/

namespace sha256_components

/-- The two sums written by `generate_r1cs_witness` hold in the final assignment when the
variables written are not among the variables read, and the two reducing components leave
the variables of the sums as they are. -/
theorem witness_sums_of_distinct {F : Type} [Field F] (g : sha256_round_function_gadget F)
    (pb : protoboard F)
    (hna : g.unreduced_new_a ∉
      [g.packed_h, g.sigma1, g.choice, g.W, g.sigma0, g.majority])
    (hne : g.unreduced_new_e ∉
      [g.packed_d, g.packed_h, g.sigma1, g.choice, g.W, g.sigma0, g.majority,
        g.unreduced_new_a])
    (hframe_a : ∀ (val : Nat → F) (v : Nat), v ∈ g.sum_variables →
      g.components.mod_reduce_new_a.witness val v = val v)
    (hframe_e : ∀ (val : Nat → F) (v : Nat), v ∈ g.sum_variables →
      g.components.mod_reduce_new_e.witness val v = val v) :
    (g.generate_r1cs_witness pb).val g.unreduced_new_a
      = (g.generate_r1cs_witness pb).val g.packed_h
        + (g.generate_r1cs_witness pb).val g.sigma1
        + (g.generate_r1cs_witness pb).val g.choice + (g.K : F)
        + (g.generate_r1cs_witness pb).val g.W + (g.generate_r1cs_witness pb).val g.sigma0
        + (g.generate_r1cs_witness pb).val g.majority
    ∧ (g.generate_r1cs_witness pb).val g.unreduced_new_e
      = (g.generate_r1cs_witness pb).val g.packed_d
        + (g.generate_r1cs_witness pb).val g.packed_h
        + (g.generate_r1cs_witness pb).val g.sigma1
        + (g.generate_r1cs_witness pb).val g.choice + (g.K : F)
        + (g.generate_r1cs_witness pb).val g.W := by
  simp only [List.mem_cons, List.mem_singleton, List.not_mem_nil, or_false, not_or] at hna hne
  obtain ⟨a1, a2, a3, a4, a5, a6⟩ := hna
  obtain ⟨e1, e2, e3, e4, e5, e6, e7, e8⟩ := hne
  have a1' := Ne.symm a1
  have a2' := Ne.symm a2
  have a3' := Ne.symm a3
  have a4' := Ne.symm a4
  have a5' := Ne.symm a5
  have a6' := Ne.symm a6
  have e1' := Ne.symm e1
  have e2' := Ne.symm e2
  have e3' := Ne.symm e3
  have e4' := Ne.symm e4
  have e5' := Ne.symm e5
  have e6' := Ne.symm e6
  have e7' := Ne.symm e7
  have e8' := Ne.symm e8
  simp only [sha256_round_function_gadget.generate_r1cs_witness,
    component.generate_r1cs_witness, set_val]
  generalize g.components.pack_h.witness _ = v0
  simp only [hframe_e, hframe_a, sha256_round_function_gadget.sum_variables, List.mem_cons,
    List.mem_singleton, true_or, or_true, Function.update_same, Function.update_noteq, ne_eq,
    a1', a2', a3', a4', a5', a6', e1', e2', e3', e4', e5', e6', e7', e8',
    not_false_eq_true, and_self]

end sha256_components

/-- C30. For a `sha256_round_function_gadget` constructed on a protoboard on which `W` is
already allocated, and whose two reducing components leave the variables of the sums as they
are, the values after `generate_r1cs_witness` satisfy
`unreduced_new_a = packed_h + sigma1 + choice + K + W + sigma0 + majority` and
`unreduced_new_e = packed_d + packed_h + sigma1 + choice + K + W`; both linear constraints
that `generate_r1cs_constraints` adds hold, and
`unreduced_new_a - unreduced_new_e = sigma0 + majority - packed_d`. -/
theorem round_function_witness_satisfies_sums {F : Type} [Field F]
    (pb0 pb1 pbc : sha256_components.protoboard F) (cs : sha256_components.round_components F)
    (W : Nat) (K : Int) (g : sha256_components.sha256_round_function_gadget F)
    (pb : sha256_components.protoboard F)
    (hg : g = (sha256_components.sha256_round_function_gadget.construct pb0 cs W K).1)
    (hpb : pb = g.generate_r1cs_witness pb1)
    (hfree : 0 < pb0.next_free_var) (hW0 : 0 < W) (hW : W < pb0.next_free_var)
    (hframe_a : ∀ (val : Nat → F) (v : Nat), v ∈ g.sum_variables →
      g.components.mod_reduce_new_a.witness val v = val v)
    (hframe_e : ∀ (val : Nat → F) (v : Nat), v ∈ g.sum_variables →
      g.components.mod_reduce_new_e.witness val v = val v) :
    pb.val g.unreduced_new_a
      = pb.val g.packed_h + pb.val g.sigma1 + pb.val g.choice + (g.K : F) + pb.val g.W
        + pb.val g.sigma0 + pb.val g.majority
    ∧ pb.val g.unreduced_new_e
      = pb.val g.packed_d + pb.val g.packed_h + pb.val g.sigma1 + pb.val g.choice + (g.K : F)
        + pb.val g.W
    ∧ g.new_a_constraint ∈ (g.generate_r1cs_constraints pbc).constraints
    ∧ g.new_e_constraint ∈ (g.generate_r1cs_constraints pbc).constraints
    ∧ sha256_components.r1cs_constraint.is_satisfied pb.val g.new_a_constraint
    ∧ sha256_components.r1cs_constraint.is_satisfied pb.val g.new_e_constraint
    ∧ pb.val g.unreduced_new_a - pb.val g.unreduced_new_e
      = pb.val g.sigma0 + pb.val g.majority - pb.val g.packed_d := by
  have hna : g.unreduced_new_a ∉
      [g.packed_h, g.sigma1, g.choice, g.W, g.sigma0, g.majority] := by
    subst hg
    simp only [sha256_components.sha256_round_function_gadget.construct,
      sha256_components.allocate, sha256_components.component.construct, List.mem_cons,
      List.mem_singleton, List.not_mem_nil, or_false, not_or]
    omega
  have hne : g.unreduced_new_e ∉
      [g.packed_d, g.packed_h, g.sigma1, g.choice, g.W, g.sigma0, g.majority,
        g.unreduced_new_a] := by
    subst hg
    simp only [sha256_components.sha256_round_function_gadget.construct,
      sha256_components.allocate, sha256_components.component.construct, List.mem_cons,
      List.mem_singleton, List.not_mem_nil, or_false, not_or]
    omega
  have hpos : g.sigma0 ≠ 0 ∧ g.sigma1 ≠ 0 ∧ g.choice ≠ 0 ∧ g.majority ≠ 0 ∧ g.packed_d ≠ 0
      ∧ g.packed_h ≠ 0 ∧ g.unreduced_new_a ≠ 0 ∧ g.unreduced_new_e ≠ 0 ∧ g.W ≠ 0 := by
    subst hg
    simp only [sha256_components.sha256_round_function_gadget.construct,
      sha256_components.allocate, sha256_components.component.construct]
    omega
  obtain ⟨p1, p2, p3, p4, p5, p6, p7, p8, p9⟩ := hpos
  have hsum := sha256_components.witness_sums_of_distinct g pb1 hna hne hframe_a hframe_e
  rw [← hpb] at hsum
  refine ⟨hsum.1, hsum.2, ?_, ?_, ?_, ?_, ?_⟩
  · simp [sha256_components.sha256_round_function_gadget.generate_r1cs_constraints,
      sha256_components.component.generate_r1cs_constraints,
      sha256_components.add_r1cs_constraint]
  · simp [sha256_components.sha256_round_function_gadget.generate_r1cs_constraints,
      sha256_components.component.generate_r1cs_constraints,
      sha256_components.add_r1cs_constraint]
  · simp only [sha256_components.r1cs_constraint.is_satisfied,
      sha256_components.linear_combination.evaluate,
      sha256_components.sha256_round_function_gadget.new_a_constraint, List.map_cons,
      List.map_nil, List.sum_cons, List.sum_nil, if_true, if_neg p1, if_neg p2, if_neg p3,
      if_neg p4, if_neg p6, if_neg p7, if_neg p9, hsum.1]
    ring
  · simp only [sha256_components.r1cs_constraint.is_satisfied,
      sha256_components.linear_combination.evaluate,
      sha256_components.sha256_round_function_gadget.new_e_constraint, List.map_cons,
      List.map_nil, List.sum_cons, List.sum_nil, if_true, if_neg p2, if_neg p3,
      if_neg p5, if_neg p6, if_neg p8, if_neg p9, hsum.2]
    ring
  · rw [hsum.1, hsum.2]
    ring

/-- Witness for C30: the sample gadget over `Fp`, with `W = 2`, the components writing
`sigma0 = 3`, `sigma1 = 4`, `choice = 2`, `majority = 6`, `packed_d = 5`, `packed_h = 1`, and
`K = 0x428a2f98`, which is `3` in `Fp`: after `generate_r1cs_witness`,
`unreduced_new_a = 0` and `unreduced_new_e = 3`. -/
theorem round_function_witness_satisfies_sums_witness :
    (samples.round_gadget.generate_r1cs_witness samples.round_protoboard).val
        samples.round_gadget.unreduced_new_a = 0
    ∧ (samples.round_gadget.generate_r1cs_witness samples.round_protoboard).val
        samples.round_gadget.unreduced_new_e = 3
    ∧ sha256_components.r1cs_constraint.is_satisfied
        (samples.round_gadget.generate_r1cs_witness samples.round_protoboard).val
        samples.round_gadget.new_a_constraint
    ∧ sha256_components.r1cs_constraint.is_satisfied
        (samples.round_gadget.generate_r1cs_witness samples.round_protoboard).val
        samples.round_gadget.new_e_constraint := by
  have hframe_a : ∀ (val : Nat → samples.Fp) (v : Nat),
      v ∈ samples.round_gadget.sum_variables →
      samples.round_gadget.components.mod_reduce_new_a.witness val v = val v := by
    intro val v hv
    have hv' : v ∈ [2, 3, 5, 6, 7, 8, 9, 10, 1] := hv
    have hne : v ≠ 11 := by
      intro h
      subst h
      exact absurd hv' (by decide)
    exact Function.update_noteq hne _ _
  have hframe_e : ∀ (val : Nat → samples.Fp) (v : Nat),
      v ∈ samples.round_gadget.sum_variables →
      samples.round_gadget.components.mod_reduce_new_e.witness val v = val v := by
    intro val v hv
    have hv' : v ∈ [2, 3, 5, 6, 7, 8, 9, 10, 1] := hv
    have hne : v ≠ 12 := by
      intro h
      subst h
      exact absurd hv' (by decide)
    exact Function.update_noteq hne _ _
  have h := round_function_witness_satisfies_sums samples.round_protoboard
    samples.round_protoboard samples.round_protoboard samples.round_components_sample 1
    1116352408 samples.round_gadget _ rfl rfl (by decide) (by decide) (by decide)
    hframe_a hframe_e
  exact ⟨h.1.trans (by decide), h.2.1.trans (by decide), h.2.2.2.2.1, h.2.2.2.2.2.1⟩

/-! ### The initial vector of SHA-256 -/

namespace sha256_components

/-- Reading most significant bit first the `n` lowest bits of `w`, after the bits read so far. -/
theorem read_msb_first_bits (w : Nat) :
    ∀ (n a : Nat),
      ((List.range n).map (fun t => w / 2 ^ (n - 1 - t) % 2)).foldl (fun acc b => 2 * acc + b) a
        = a * 2 ^ n + w % 2 ^ n := by
  intro n
  induction n with
  | zero => intro a; simp [Nat.mod_one]
  | succ n ih =>
    intro a
    have e : (fun t => w / 2 ^ (n + 1 - 1 - t) % 2) ∘ Nat.succ
        = fun t => w / 2 ^ (n - 1 - t) % 2 := by
      funext t
      have : n + 1 - 1 - (t + 1) = n - 1 - t := by omega
      simp only [Function.comp, Nat.succ_eq_add_one, this]
    rw [List.range_succ_eq_map, List.map_cons, List.foldl_cons, List.map_map, e, ih,
      Nat.mod_pow_succ]
    simp only [Nat.add_sub_cancel, Nat.sub_zero]
    ring

/-- The result of `SHA256_default_IV`, entry by entry. -/
theorem SHA256_default_IV_eq {F : Type} [Field F] (iv : Nat → Nat) :
    (SHA256_default_IV iv : List (linear_combination F))
      = (List.range 256).map (fun i => [(((iv_val iv i : Nat) : F), 0)]) := by
  unfold SHA256_default_IV redshift_prover.pure_loop SHA256_digest_size
  rw [redshift_prover.pure_loop_append (fun i => [(((iv_val iv i : Nat) : F), 0)])]
  simp [List.range_eq_range']

/-- The local `iv_val` is the bit `31 - i % 32` of the word `i / 32`. -/
theorem iv_val_eq (iv : Nat → Nat) (i : Nat) :
    iv_val iv i = iv (i / 32) / 2 ^ (31 - i % 32) % 2 := by
  unfold iv_val
  rw [Nat.and_one_is_mod, Nat.shiftRight_eq_div_pow]

end sha256_components

/-- C33. `SHA256_default_IV` returns exactly 256 linear combinations; entry `i` is the constant
`iv_val * 1`, its value under every assignment is bit `31 - i mod 32` of the word `i / 32` of
the initial state, which is `0` or `1`; and when the eight words are below `2 ^ 32`, reading
the 32 entries of group `j` most significant bit first gives back word `j`. -/
theorem default_IV_entries_are_IV_bits {F : Type} [Field F] (iv : Nat → Nat)
    (hiv : ∀ j, j < 8 → iv j < 2 ^ 32) :
    (sha256_components.SHA256_default_IV iv :
        List (sha256_components.linear_combination F)).length = 256
    ∧ (∀ i, i < 256 →
        (sha256_components.SHA256_default_IV iv :
          List (sha256_components.linear_combination F))[i]?
          = some [(((sha256_components.iv_val iv i : Nat) : F), 0)]
        ∧ (∀ val : Nat → F,
            sha256_components.linear_combination.evaluate val
              [(((sha256_components.iv_val iv i : Nat) : F), 0)]
              = ((sha256_components.iv_val iv i : Nat) : F))
        ∧ sha256_components.iv_val iv i = iv (i / 32) / 2 ^ (31 - i % 32) % 2
        ∧ (sha256_components.iv_val iv i = 0 ∨ sha256_components.iv_val iv i = 1))
    ∧ (∀ j, j < 8 →
        sha256_components.read_msb_first
          ((List.range 32).map (fun t => sha256_components.iv_val iv (32 * j + t))) = iv j) := by
  refine ⟨?_, ?_, ?_⟩
  · rw [sha256_components.SHA256_default_IV_eq]
    simp
  · intro i hi
    refine ⟨?_, ?_, sha256_components.iv_val_eq iv i, ?_⟩
    · rw [sha256_components.SHA256_default_IV_eq, List.getElem?_map, List.getElem?_range hi]
      rfl
    · intro val
      simp [sha256_components.linear_combination.evaluate]
    · rw [sha256_components.iv_val_eq]
      omega
  · intro j hj
    have e2 : (List.range 32).map (fun t => sha256_components.iv_val iv (32 * j + t))
        = (List.range 32).map (fun t => iv j / 2 ^ (32 - 1 - t) % 2) := by
      apply List.map_congr_left
      intro t ht
      rw [List.mem_range] at ht
      rw [sha256_components.iv_val_eq]
      have h1 : (32 * j + t) / 32 = j := by omega
      have h2 : 31 - (32 * j + t) % 32 = 32 - 1 - t := by omega
      rw [h1, h2]
    unfold sha256_components.read_msb_first
    rw [e2, sha256_components.read_msb_first_bits (iv j) 32 0, Nat.mod_eq_of_lt (hiv j hj)]
    simp

/-- Witness for C33: the initial state of SHA-256 over `Fp`; entry `1` is the constant `1`, bit
30 of `0x6a09e667`, and the last group of 32 entries reads back as `0x5be0cd19`. -/
theorem default_IV_entries_are_IV_bits_witness :
    (sha256_components.SHA256_default_IV samples.sha256_iv :
        List (sha256_components.linear_combination samples.Fp)).length = 256
    ∧ (sha256_components.SHA256_default_IV samples.sha256_iv :
        List (sha256_components.linear_combination samples.Fp))[1]? = some [(1, 0)]
    ∧ sha256_components.read_msb_first
        ((List.range 32).map (fun t => sha256_components.iv_val samples.sha256_iv (32 * 7 + t)))
        = 0x5be0cd19 :=
  have h := default_IV_entries_are_IV_bits (F := samples.Fp) samples.sha256_iv (by decide)
  ⟨h.1, (h.2.1 1 (by decide)).1.trans (by decide), h.2.2 7 (by decide)⟩

/-! ### The widths of the reductions modulo `2 ^ 32` -/

namespace sha256_components

/-- The first `n` bits of `X` pack to `X mod 2 ^ n`. -/
theorem pack_bits_bits_of : ∀ (n X : Nat), pack_bits (bits_of n X) = X % 2 ^ n := by
  intro n
  induction n with
  | zero => intro X; simp [pack_bits, bits_of, Nat.mod_one]
  | succ n ih =>
    intro X
    have e : (fun k => X / 2 ^ k % 2) ∘ Nat.succ = fun k => X / 2 / 2 ^ k % 2 := by
      funext k
      simp only [Function.comp, Nat.succ_eq_add_one, Nat.pow_succ, Nat.div_div_eq_div_mul,
        Nat.mul_comm]
    have ih1 := ih (X / 2)
    unfold pack_bits bits_of at ih1 ⊢
    rw [List.range_succ_eq_map, List.map_cons, List.foldr_cons, List.map_map, e, ih1,
      Nat.pow_succ, Nat.mul_comm (2 ^ n) 2, Nat.mod_mul]
    simp

/-- The lowest `m` of the first `n` bits of `X` are the first `m` bits of `X`. -/
theorem take_bits_of (m n X : Nat) (h : m ≤ n) : (bits_of n X).take m = bits_of m X := by
  unfold bits_of
  rw [← List.map_take, List.take_range, Nat.min_eq_left h]

/-- A value that fits in `X_bits` bits is reduced to its residue modulo `2 ^ m`. -/
theorem lastbits_of_lt (X X_bits m : Nat) (hX : X < 2 ^ X_bits) (hm : m ≤ X_bits) :
    lastbits X X_bits m = some (X % 2 ^ m) := by
  unfold lastbits
  rw [pack_bits_bits_of, Nat.mod_eq_of_lt hX, if_pos rfl, take_bits_of m X_bits X hm,
    pack_bits_bits_of]

end sha256_components

/-- C31. When the summands are below `2 ^ 32`, the sum of four of lines 205-206 is below
`2 ^ (32 + 2)`, the width given to the reducing component of the message schedule, and the
sums of seven and of six of lines 295-300 are below `2 ^ (32 + 3)`, the width given to the two
reducing components of the round function; hence each sum fits its width and its lowest 32
bits are the sum modulo `2 ^ 32`.  In a field of characteristic at least `2 ^ (32 + 3)` the
sums of the field elements are the integer sums. -/
theorem reduction_widths_suffice (sigma0_W sigma1_W W16 W7 : Nat)
    (packed_d packed_h sigma0 sigma1 choice majority K W : Nat) (p : Nat)
    (hW : ∀ x ∈ [sigma0_W, sigma1_W, W16, W7], x < 2 ^ 32)
    (hround : ∀ x ∈ [packed_d, packed_h, sigma0, sigma1, choice, majority, K, W], x < 2 ^ 32)
    (hp : 2 ^ (32 + 3) ≤ p) :
    sha256_components.unreduced_W_sum sigma0_W sigma1_W W16 W7
        < 2 ^ sha256_components.sha256_message_schedule_gadget.mod_reduce_X_bits
    ∧ sha256_components.lastbits (sha256_components.unreduced_W_sum sigma0_W sigma1_W W16 W7)
        sha256_components.sha256_message_schedule_gadget.mod_reduce_X_bits 32
        = some (sha256_components.unreduced_W_sum sigma0_W sigma1_W W16 W7 % 2 ^ 32)
    ∧ sha256_components.unreduced_new_a_sum packed_h sigma1 choice K W sigma0 majority
        < 2 ^ sha256_components.sha256_round_function_gadget.mod_reduce_X_bits
    ∧ sha256_components.lastbits
        (sha256_components.unreduced_new_a_sum packed_h sigma1 choice K W sigma0 majority)
        sha256_components.sha256_round_function_gadget.mod_reduce_X_bits 32
        = some (sha256_components.unreduced_new_a_sum packed_h sigma1 choice K W sigma0 majority
            % 2 ^ 32)
    ∧ sha256_components.unreduced_new_e_sum packed_d packed_h sigma1 choice K W
        < 2 ^ sha256_components.sha256_round_function_gadget.mod_reduce_X_bits
    ∧ sha256_components.lastbits
        (sha256_components.unreduced_new_e_sum packed_d packed_h sigma1 choice K W)
        sha256_components.sha256_round_function_gadget.mod_reduce_X_bits 32
        = some (sha256_components.unreduced_new_e_sum packed_d packed_h sigma1 choice K W
            % 2 ^ 32)
    ∧ (sha256_components.unreduced_W_sum (sigma0_W : ZMod p) (sigma1_W : ZMod p)
          (W16 : ZMod p) (W7 : ZMod p)).val
        = sha256_components.unreduced_W_sum sigma0_W sigma1_W W16 W7
    ∧ (sha256_components.unreduced_new_a_sum (packed_h : ZMod p) (sigma1 : ZMod p)
          (choice : ZMod p) (K : ZMod p) (W : ZMod p) (sigma0 : ZMod p) (majority : ZMod p)).val
        = sha256_components.unreduced_new_a_sum packed_h sigma1 choice K W sigma0 majority
    ∧ (sha256_components.unreduced_new_e_sum (packed_d : ZMod p) (packed_h : ZMod p)
          (sigma1 : ZMod p) (choice : ZMod p) (K : ZMod p) (W : ZMod p)).val
        = sha256_components.unreduced_new_e_sum packed_d packed_h sigma1 choice K W := by
  simp only [List.mem_cons, List.mem_singleton, List.not_mem_nil, or_false, forall_eq_or_imp,
    forall_eq] at hW hround
  obtain ⟨w1, w2, w3, w4⟩ := hW
  obtain ⟨r1, r2, r3, r4, r5, r6, r7, r8⟩ := hround
  have hp' : (2 : Nat) ^ 35 ≤ p := hp
  haveI : NeZero p := ⟨by omega⟩
  have bW : sha256_components.unreduced_W_sum sigma0_W sigma1_W W16 W7 < 2 ^ 34 := by
    unfold sha256_components.unreduced_W_sum
    omega
  have ba : sha256_components.unreduced_new_a_sum packed_h sigma1 choice K W sigma0 majority
      < 2 ^ 35 := by
    unfold sha256_components.unreduced_new_a_sum
    omega
  have be : sha256_components.unreduced_new_e_sum packed_d packed_h sigma1 choice K W
      < 2 ^ 35 := by
    unfold sha256_components.unreduced_new_e_sum
    omega
  refine ⟨bW, sha256_components.lastbits_of_lt _ _ _ bW (by decide), ba,
    sha256_components.lastbits_of_lt _ _ _ ba (by decide), be,
    sha256_components.lastbits_of_lt _ _ _ be (by decide), ?_, ?_, ?_⟩
  · have e : sha256_components.unreduced_W_sum (sigma0_W : ZMod p) (sigma1_W : ZMod p)
          (W16 : ZMod p) (W7 : ZMod p)
        = ((sha256_components.unreduced_W_sum sigma0_W sigma1_W W16 W7 : Nat) : ZMod p) := by
      simp only [sha256_components.unreduced_W_sum, Nat.cast_add]
    rw [e, ZMod.val_cast_of_lt (by omega)]
  · have e : sha256_components.unreduced_new_a_sum (packed_h : ZMod p) (sigma1 : ZMod p)
          (choice : ZMod p) (K : ZMod p) (W : ZMod p) (sigma0 : ZMod p) (majority : ZMod p)
        = ((sha256_components.unreduced_new_a_sum packed_h sigma1 choice K W sigma0 majority
            : Nat) : ZMod p) := by
      simp only [sha256_components.unreduced_new_a_sum, Nat.cast_add]
    rw [e, ZMod.val_cast_of_lt (by omega)]
  · have e : sha256_components.unreduced_new_e_sum (packed_d : ZMod p) (packed_h : ZMod p)
          (sigma1 : ZMod p) (choice : ZMod p) (K : ZMod p) (W : ZMod p)
        = ((sha256_components.unreduced_new_e_sum packed_d packed_h sigma1 choice K W
            : Nat) : ZMod p) := by
      simp only [sha256_components.unreduced_new_e_sum, Nat.cast_add]
    rw [e, ZMod.val_cast_of_lt (by omega)]

/-- Witness for C31: every word is `2 ^ 32 - 1` and `K = 0x428a2f98`, in the integers modulo
`2 ^ 61 - 1`. -/
theorem reduction_widths_suffice_witness :
    sha256_components.lastbits
        (sha256_components.unreduced_W_sum 4294967295 4294967295 4294967295 4294967295)
        sha256_components.sha256_message_schedule_gadget.mod_reduce_X_bits 32
        = some 4294967292
    ∧ sha256_components.lastbits
        (sha256_components.unreduced_new_a_sum 4294967295 4294967295 4294967295 1116352408
          4294967295 4294967295 4294967295)
        sha256_components.sha256_round_function_gadget.mod_reduce_X_bits 32
        = some 1116352402
    ∧ sha256_components.lastbits
        (sha256_components.unreduced_new_e_sum 4294967295 4294967295 4294967295 4294967295
          1116352408 4294967295)
        sha256_components.sha256_round_function_gadget.mod_reduce_X_bits 32
        = some 1116352403
    ∧ (sha256_components.unreduced_new_a_sum ((4294967295 : Nat) : ZMod 2305843009213693951)
          ((4294967295 : Nat) : ZMod 2305843009213693951)
          ((4294967295 : Nat) : ZMod 2305843009213693951)
          ((1116352408 : Nat) : ZMod 2305843009213693951)
          ((4294967295 : Nat) : ZMod 2305843009213693951)
          ((4294967295 : Nat) : ZMod 2305843009213693951)
          ((4294967295 : Nat) : ZMod 2305843009213693951)).val = 26886156178 :=
  have h := reduction_widths_suffice 4294967295 4294967295 4294967295 4294967295
    4294967295 4294967295 4294967295 4294967295 4294967295 4294967295 1116352408 4294967295
    2305843009213693951 (by decide) (by decide) (by decide)
  ⟨h.2.1.trans (by decide), h.2.2.2.1.trans (by decide), h.2.2.2.2.2.1.trans (by decide),
    h.2.2.2.2.2.2.2.1.trans (by decide)⟩

/-! ### The message schedule gadget -/

namespace sha256_components

/-- A property that holds before a loop without failure and is carried by each iteration
holds after the loop. -/
theorem pure_range_invariant {σ : Type} (Inv : Nat → σ → Prop) (body : Nat → σ → σ)
    (count : Nat) :
    ∀ (lo : Nat) (s : σ), Inv lo s →
      (∀ i t, lo ≤ i → i < lo + count → Inv i t → Inv (i + 1) (body i t)) →
      Inv (lo + count) ((List.range' lo count).foldl (fun s i => body i s) s) := by
  induction count with
  | zero => intro lo s h0 _; simpa using h0
  | succ c ih =>
    intro lo s h0 hstep
    rw [List.range'_succ, List.foldl_cons]
    have h := ih (lo + 1) (body lo s) (hstep lo s (Nat.le_refl lo) (by omega) h0)
      (fun i t h1 h2 => hstep i t (by omega) (by omega))
    have e : lo + (c + 1) = lo + 1 + c := by omega
    rw [e]
    exact h

/-- The invariant rule for `pure_loop`. -/
theorem pure_loop_invariant {σ : Type} (Inv : Nat → σ → Prop) (body : Nat → σ → σ)
    (lo hi : Nat) (hle : lo ≤ hi) (s : σ) (h0 : Inv lo s)
    (hstep : ∀ i t, lo ≤ i → i < hi → Inv i t → Inv (i + 1) (body i t)) :
    Inv hi (redshift_prover.pure_loop lo hi body s) := by
  have h := pure_range_invariant Inv body (hi - lo) lo s h0
    (fun i t h1 h2 => hstep i t h1 (by omega))
  have e : lo + (hi - lo) = hi := by omega
  rw [e] at h
  exact h

/-- Entry `t` of the array of line 142-143 is entry `32 * i + 31 - t` of a block of 512. -/
theorem block_word_getElem (M : List Nat) (hM : M.length = 512) (i t : Nat) (hi : i < 16)
    (ht : t < 32) :
    (sha256_message_schedule_gadget.block_word M i)[t]? = M[32 * i + 31 - t]? := by
  unfold sha256_message_schedule_gadget.block_word
  have e : (16 - i) * 32 - (15 - i) * 32 = 32 := by omega
  rw [e, List.getElem?_take_of_lt ht, List.getElem?_drop,
    List.getElem?_reverse (by rw [hM]; omega), hM]
  congr 1
  omega

/-- The array of line 142-143 has 32 entries when the block has 512. -/
theorem block_word_length (M : List Nat) (hM : M.length = 512) (i : Nat) (hi : i < 16) :
    (sha256_message_schedule_gadget.block_word M i).length = 32 := by
  unfold sha256_message_schedule_gadget.block_word
  rw [List.length_take, List.length_drop, List.length_reverse, hM]
  omega

/-- The members of a constructed message schedule gadget. -/
theorem construct_members {F : Type} (pb : protoboard F) (cs : schedule_components F)
    (M packed_W : List Nat) :
    (sha256_message_schedule_gadget.construct pb cs M packed_W).1.M = M
    ∧ (sha256_message_schedule_gadget.construct pb cs M packed_W).1.packed_W = packed_W
    ∧ (sha256_message_schedule_gadget.construct pb cs M packed_W).1.components = cs
    ∧ (∀ j, j < 16 →
        (sha256_message_schedule_gadget.construct pb cs M packed_W).1.W_bits j
          = sha256_message_schedule_gadget.block_word M j
        ∧ (sha256_message_schedule_gadget.construct pb cs M packed_W).1.pack_W j
          = some { bits := sha256_message_schedule_gadget.block_word M j,
                   packed := packed_W.getD j 0 })
    ∧ (∀ j, 16 ≤ j → j < 64 →
        (sha256_message_schedule_gadget.construct pb cs M packed_W).1.compute_sigma0 j
          = some { W := (sha256_message_schedule_gadget.construct pb cs M packed_W).1.W_bits
                     (j - 15),
                   result := (sha256_message_schedule_gadget.construct pb cs M packed_W).1.sigma0
                     j,
                   rot1 := 7, rot2 := 18, shift := 3 }
        ∧ (sha256_message_schedule_gadget.construct pb cs M packed_W).1.compute_sigma1 j
          = some { W := (sha256_message_schedule_gadget.construct pb cs M packed_W).1.W_bits
                     (j - 2),
                   result := (sha256_message_schedule_gadget.construct pb cs M packed_W).1.sigma1
                     j,
                   rot1 := 17, rot2 := 19, shift := 10 }
        ∧ (sha256_message_schedule_gadget.construct pb cs M packed_W).1.mod_reduce_W j
          = some { X := (sha256_message_schedule_gadget.construct pb cs M packed_W).1.unreduced_W
                     j,
                   X_bits := sha256_message_schedule_gadget.mod_reduce_X_bits,
                   result := packed_W.getD j 0,
                   result_bits :=
                     (sha256_message_schedule_gadget.construct pb cs M packed_W).1.W_bits j }
        ∧ ((sha256_message_schedule_gadget.construct pb cs M packed_W).1.W_bits j).length
          = 32) := by
  unfold sha256_message_schedule_gadget.construct
  simp only []
  apply pure_loop_invariant
    (fun n (s : sha256_message_schedule_gadget F × protoboard F) =>
      s.1.M = M ∧ s.1.packed_W = packed_W ∧ s.1.components = cs
      ∧ (∀ j, j < 16 → s.1.W_bits j = sha256_message_schedule_gadget.block_word M j
          ∧ s.1.pack_W j = some { bits := sha256_message_schedule_gadget.block_word M j,
                                  packed := packed_W.getD j 0 })
      ∧ (∀ j, 16 ≤ j → j < n →
          s.1.compute_sigma0 j
            = some { W := s.1.W_bits (j - 15), result := s.1.sigma0 j,
                     rot1 := 7, rot2 := 18, shift := 3 }
          ∧ s.1.compute_sigma1 j
            = some { W := s.1.W_bits (j - 2), result := s.1.sigma1 j,
                     rot1 := 17, rot2 := 19, shift := 10 }
          ∧ s.1.mod_reduce_W j
            = some { X := s.1.unreduced_W j,
                     X_bits := sha256_message_schedule_gadget.mod_reduce_X_bits,
                     result := packed_W.getD j 0, result_bits := s.1.W_bits j }
          ∧ (s.1.W_bits j).length = 32))
    sha256_message_schedule_gadget.second_loop_body 16 64 (by decide)
  · have h1 := pure_loop_invariant
      (fun n (s : sha256_message_schedule_gadget F × protoboard F) =>
        s.1.M = M ∧ s.1.packed_W = packed_W ∧ s.1.components = cs
        ∧ (∀ j, j < n → s.1.W_bits j = sha256_message_schedule_gadget.block_word M j
            ∧ s.1.pack_W j = some { bits := sha256_message_schedule_gadget.block_word M j,
                                    packed := packed_W.getD j 0 }))
      sha256_message_schedule_gadget.first_loop_body 0 16 (by decide)
      ({ W_bits := fun _ => [], pack_W := fun _ => none, sigma0 := fun _ => 0,
         sigma1 := fun _ => 0, compute_sigma0 := fun _ => none,
         compute_sigma1 := fun _ => none, unreduced_W := fun _ => 0,
         mod_reduce_W := fun _ => none, M := M, packed_W := packed_W, components := cs }, pb)
      ⟨rfl, rfl, rfl, fun j hj => absurd hj (Nat.not_lt_zero j)⟩
      (by
        intro i t _ _ hinv
        obtain ⟨hM, hp, hc, hw⟩ := hinv
        refine ⟨hM, hp, hc, ?_⟩
        intro j hj
        simp only [sha256_message_schedule_gadget.first_loop_body]
        by_cases e : j = i
        · subst e
          simp only [Function.update_same, hM, hp, and_self]
        · rw [Function.update_noteq e, Function.update_noteq e]
          exact hw j (by omega))
    exact ⟨h1.1, h1.2.1, h1.2.2.1, h1.2.2.2, fun j h16 hj => absurd hj (by omega)⟩
  · intro i t h16 h64 hinv
    obtain ⟨hM, hp, hc, hw, hs⟩ := hinv
    refine ⟨hM, hp, hc, ?_, ?_⟩
    · intro j hj
      have e : j ≠ i := by omega
      simp only [sha256_message_schedule_gadget.second_loop_body, allocate, allocate_array]
      rw [Function.update_noteq e]
      exact hw j hj
    · intro j hj16 hj
      have e15 : i - 15 ≠ i := by omega
      have e2 : i - 2 ≠ i := by omega
      simp only [sha256_message_schedule_gadget.second_loop_body, allocate, allocate_array]
      by_cases e : j = i
      · subst e
        simp only [Function.update_same, Function.update_noteq e15, Function.update_noteq e2,
          hp, List.length_map, List.length_range, and_self]
      · have f15 : j - 15 ≠ i := by omega
        have f2 : j - 2 ≠ i := by omega
        simp only [Function.update_noteq e, Function.update_noteq f15,
          Function.update_noteq f2]
        exact hs j hj16 (by omega)

/-- Every linear constraint of lines 188-189 is among the constraints that
`generate_r1cs_constraints` leaves on the protoboard. -/
theorem W_constraint_generated {F : Type} [Field F] (g : sha256_message_schedule_gadget F)
    (pb : protoboard F) (i : Nat) (h16 : 16 ≤ i) (h64 : i < 64) :
    g.W_constraint i ∈ (g.generate_r1cs_constraints pb).constraints := by
  unfold sha256_message_schedule_gadget.generate_r1cs_constraints
  simp only []
  have h := pure_loop_invariant
    (fun n (s : protoboard F) => ∀ j, 16 ≤ j → j < n → g.W_constraint j ∈ s.constraints)
    (fun i pb =>
      let pb :=
        (pointee g.components.small_sigma_gadget (g.compute_sigma0 i)).generate_r1cs_constraints
          pb
      let pb :=
        (pointee g.components.small_sigma_gadget (g.compute_sigma1 i)).generate_r1cs_constraints
          pb
      let pb := add_r1cs_constraint pb (g.W_constraint i)
      (pointee g.components.lastbits_gadget (g.mod_reduce_W i)).generate_r1cs_constraints pb)
    16 64 (by decide)
    (redshift_prover.pure_loop 0 16
      (fun i pb =>
        (pointee g.components.packing_gadget (g.pack_W i)).generate_r1cs_constraints pb) pb)
    (fun j h1 h2 => absurd h2 (by omega))
    (by
      intro n t _ _ hinv j hj16 hj
      simp only [component.generate_r1cs_constraints, add_r1cs_constraint, List.mem_append,
        List.mem_singleton]
      by_cases e : j = n
      · subst e
        exact Or.inl (Or.inr rfl)
      · exact Or.inl (Or.inl (Or.inl (Or.inl (hinv j hj16 (by omega))))))
  exact h i h16 h64

end sha256_components

/-- C32. For a message schedule gadget constructed on a block `M` of 512 variables and 64 packed
words: for `i < 16` and `t < 32`, `W_bits[i][t]` is `M[32 * i + 31 - t]`, and word `i` is packed
from these 32 bits into `packed_W[i]`; every position of the block is used by exactly one
pair `(i, t)`; and for `16 <= i < 64` the gadget holds a `small_sigma_gadget` on
`W_bits[i - 15]` with `(7, 18, 3)` and one on `W_bits[i - 2]` with `(17, 19, 10)`, the linear
constraint `1 * (sigma0[i] + sigma1[i] + packed_W[i - 16] + packed_W[i - 7]) = unreduced_W[i]`
is among the constraints generated, and `unreduced_W[i]` is reduced from `32 + 2` bits to
`packed_W[i]` with the 32 bits `W_bits[i]`. -/
theorem message_schedule_words {F : Type} [Field F] (pb pbc : sha256_components.protoboard F)
    (cs : sha256_components.schedule_components F) (M packed_W : List Nat)
    (g : sha256_components.sha256_message_schedule_gadget F)
    (hg : g = (sha256_components.sha256_message_schedule_gadget.construct pb cs M packed_W).1)
    (hM : M.length = sha256_components.SHA256_block_size) (hpw : packed_W.length = 64) :
    (∀ i t, i < 16 → t < 32 →
        32 * i + 31 - t < M.length ∧ (g.W_bits i)[t]? = M[32 * i + 31 - t]?)
    ∧ (∀ i, i < 16 →
        (g.W_bits i).length = 32
        ∧ g.pack_W i = some { bits := g.W_bits i, packed := packed_W.getD i 0 }
        ∧ packed_W[i]? = some (packed_W.getD i 0))
    ∧ (∀ m, m < sha256_components.SHA256_block_size →
        ∃ i t, i < 16 ∧ t < 32 ∧ 32 * i + 31 - t = m ∧ (g.W_bits i)[t]? = M[m]?
          ∧ ∀ i1 t1, i1 < 16 → t1 < 32 → 32 * i1 + 31 - t1 = m → i1 = i ∧ t1 = t)
    ∧ (∀ i, 16 ≤ i → i < 64 →
        g.compute_sigma0 i
          = some { W := g.W_bits (i - 15), result := g.sigma0 i,
                   rot1 := 7, rot2 := 18, shift := 3 }
        ∧ g.compute_sigma1 i
          = some { W := g.W_bits (i - 2), result := g.sigma1 i,
                   rot1 := 17, rot2 := 19, shift := 10 }
        ∧ g.mod_reduce_W i
          = some { X := g.unreduced_W i, X_bits := 32 + 2, result := packed_W.getD i 0,
                   result_bits := g.W_bits i }
        ∧ (g.W_bits i).length = 32
        ∧ packed_W[i]? = some (packed_W.getD i 0)
        ∧ packed_W[i - 16]? = some (packed_W.getD (i - 16) 0)
        ∧ packed_W[i - 7]? = some (packed_W.getD (i - 7) 0)
        ∧ g.W_constraint i
          = ([(1, 0)],
             [(1, g.sigma0 i), (1, g.sigma1 i), (1, packed_W.getD (i - 16) 0),
              (1, packed_W.getD (i - 7) 0)],
             [(1, g.unreduced_W i)])
        ∧ g.W_constraint i ∈ (g.generate_r1cs_constraints pbc).constraints) := by
  have hM1 : M.length = 512 := hM
  have hmem := sha256_components.construct_members pb cs M packed_W
  rw [← hg] at hmem
  obtain ⟨_, hp, _, hw, hs⟩ := hmem
  have hget : ∀ k, k < 64 → packed_W[k]? = some (packed_W.getD k 0) := by
    intro k hk
    have hk1 : k < packed_W.length := by omega
    rw [List.getD_eq_getElem?_getD, List.getElem?_eq_getElem hk1]
    rfl
  refine ⟨?_, ?_, ?_, ?_⟩
  · intro i t hi ht
    refine ⟨by omega, ?_⟩
    rw [(hw i hi).1]
    exact sha256_components.block_word_getElem M hM1 i t hi ht
  · intro i hi
    refine ⟨?_, ?_, hget i (by omega)⟩
    · rw [(hw i hi).1]
      exact sha256_components.block_word_length M hM1 i hi
    · rw [(hw i hi).1]
      exact (hw i hi).2
  · intro m hm
    have hm1 : m < 512 := hm
    refine ⟨m / 32, 31 - m % 32, by omega, by omega, by omega, ?_, ?_⟩
    · rw [(hw (m / 32) (by omega)).1,
        sha256_components.block_word_getElem M hM1 (m / 32) (31 - m % 32) (by omega)
          (by omega)]
      congr 1
      omega
    · intro i1 t1 h1 h2 h3
      omega
  · intro i h16 h64
    obtain ⟨h0, h1, h2, h3⟩ := hs i h16 h64
    refine ⟨h0, h1, h2, h3, hget i h64, hget (i - 16) (by omega), hget (i - 7) (by omega), ?_,
      sha256_components.W_constraint_generated g pbc i h16 h64⟩
    simp only [sha256_components.sha256_message_schedule_gadget.W_constraint, hp]

/-- Witness for C32: the block of the variables `1, ..., 512` and the packed words
`513, ..., 576`; `W_bits[0][0]` is `M[31]`, the variable `32`, and `W_bits[15][31]` is `M[480]`,
the variable `481`. -/
theorem message_schedule_words_witness :
    ((sha256_components.sha256_message_schedule_gadget.construct samples.schedule_protoboard
        samples.schedule_components_sample samples.block_variables
        samples.packed_variables).1.W_bits 0)[0]? = some 32
    ∧ ((sha256_components.sha256_message_schedule_gadget.construct samples.schedule_protoboard
        samples.schedule_components_sample samples.block_variables
        samples.packed_variables).1.W_bits 15)[31]? = some 481
    ∧ (sha256_components.sha256_message_schedule_gadget.construct samples.schedule_protoboard
        samples.schedule_components_sample samples.block_variables
        samples.packed_variables).1.compute_sigma0 16
      = some { W := (sha256_components.sha256_message_schedule_gadget.construct
                  samples.schedule_protoboard samples.schedule_components_sample
                  samples.block_variables samples.packed_variables).1.W_bits 1,
               result := (sha256_components.sha256_message_schedule_gadget.construct
                  samples.schedule_protoboard samples.schedule_components_sample
                  samples.block_variables samples.packed_variables).1.sigma0 16,
               rot1 := 7, rot2 := 18, shift := 3 }
    ∧ (sha256_components.sha256_message_schedule_gadget.construct samples.schedule_protoboard
        samples.schedule_components_sample samples.block_variables
        samples.packed_variables).1.W_constraint 63
      ∈ ((sha256_components.sha256_message_schedule_gadget.construct
            samples.schedule_protoboard samples.schedule_components_sample
            samples.block_variables samples.packed_variables).1.generate_r1cs_constraints
          samples.schedule_protoboard).constraints :=
  have h := message_schedule_words samples.schedule_protoboard samples.schedule_protoboard
    samples.schedule_components_sample samples.block_variables samples.packed_variables _ rfl
    (by simp [samples.block_variables, sha256_components.SHA256_block_size])
    (by simp [samples.packed_variables])
  ⟨(h.1 0 0 (by decide) (by decide)).2.trans
      (by simp [samples.block_variables, List.getElem?_range]),
    (h.1 15 31 (by decide) (by decide)).2.trans
      (by simp [samples.block_variables, List.getElem?_range]),
    (h.2.2.2 16 (by decide) (by decide)).1,
    (h.2.2.2 63 (by decide) (by decide)).2.2.2.2.2.2.2.2⟩
